import Mathlib

/-!
# OmafCurlMultiDownloader: the download scheduler

A shallow embedding of `src/OmafDashAccess/OmafDashDownload/OmafCurlMultiHandler.cpp`.

* Task objects live in a heap `Nat → OmafDownloadTask`; a `Nat` is the address
  of a task (a non-null `OmafDownloadTask::Ptr`), `Option Nat` a pointer that may be null.
* A curl easy downloader is identified by a `Nat`; the same number is the
  `CURL*` easy handle its `handler()` returns, the key of `run_task_map_`.
* The outcomes of libcurl calls are inputs: a `Curl` record gives the results of
  `open`, `start`, `handler()` and `curl_multi_remove_handle`; a `Completion`
  gives one message of `curl_multi_info_read` with the header the downloader reports.
* Dereferencing a null `easy_downloader_` is a fault: the function returns `none`.
* The fields `done_log`, `start_log`, `restart_log` and `chunk_log` are observation
  logs (newest entry first); no function of the source reads them.
* Every operation of `Op` is atomic. The one interleaving of a client thread with the
  worker thread that is modelled is a `removeTask` that runs in `retriveDoneTask` between
  the lookup under `run_task_map_mutex_` (`lookupDone`) and the rest of the loop body
  (`finishDone`): `processMsgRemoved`; `processMsg` is the loop body without it.
* `Reachable` gives the states reached from `init` when a task is handed to `addTask`
  only while the scheduler does not hold it and chunks arrive only for running tasks.

The definitions of the scheduler are followed by those of the `DecoderManager` of the
player (`src/player/Decoder/DecoderManager.cpp`), then come the theorems on both.
-/

namespace VCD.OMAF

/-- The task states of `OmafDownloadTask::State`. -/
inductive State where
  | READY | RUNNING | STOPPED | FINISH | TIMEOUT
  deriving DecidableEq, Repr

/-- The status codes the scheduler returns. -/
inductive OMAF_STATUS where
  | ERROR_NONE | ERROR_INVALID | ERROR_NULL_PTR
  deriving DecidableEq, Repr

/-- The fields of `OmafDownloadTask` the scheduler reads and writes. `dcb_` tells
whether a streaming callback is set. -/
structure OmafDownloadTask where
  url_ : String
  dcb_ : Bool
  state_ : State
  stream_size_ : Nat
  transfer_times_ : Nat
  easy_downloader_ : Option Nat
  deriving DecidableEq, Repr

/-- Modelled from the spec: the construction of an `OmafDownloadTask` (its header is
not in src). A task is created with a URL and a streaming callback, with no
bytes received, no transfer attempt made and no transfer handle owned. -/
def OmafDownloadTask.create (url : String) (dcb : Bool) : OmafDownloadTask :=
  { url_ := url, dcb_ := dcb, state_ := State.READY, stream_size_ := 0,
    transfer_times_ := 0, easy_downloader_ := none }

/-- One invocation of `task_done_cb_`: the task, the task object as handed to the
callback, and the outstanding counter and the pool at that moment. -/
structure DoneEvent where
  task : Nat
  snap : OmafDownloadTask
  task_size : Int
  pool : Option (List Nat)
  deriving DecidableEq, Repr

/-- One call of `downloader->start(offset, upper, ...)`. -/
structure StartEvent where
  task : Nat
  offset : Nat
  upper : Int
  deriving DecidableEq, Repr

/-- One chunk handed to the streaming callback `dcb_`: the task, the received-byte
count before the chunk, and the chunk size. -/
structure ChunkEvent where
  task : Nat
  offset : Nat
  size : Nat
  deriving DecidableEq, Repr

/-- The outcomes of the libcurl calls made while one operation runs. -/
structure Curl where
  open_ok : Bool
  start_ok : Bool
  handler_ok : Bool
  remove_ok : Bool
  deriving DecidableEq, Repr

/-- One message of `curl_multi_info_read` together with the header of the
downloader: `http_ok` is `OmafCurlEasyHelper::success(header.http_status_code_)`. -/
structure Completion where
  msg_done : Bool
  easy_handle : Nat
  http_ok : Bool
  content_length_ : Int
  deriving DecidableEq, Repr

/-- The scheduler object. -/
structure OmafCurlMultiDownloader where
  max_parallel_transfers_ : Int
  max_parallel_ : Int
  retry_times_ : Int
  task_done_cb_ : Bool
  downloader_pool_ : Option (List Nat)
  ready_task_list_ : List Nat
  run_task_map_ : List (Nat × Nat)
  task_size_ : Int
  heap : Nat → OmafDownloadTask
  done_log : List DoneEvent
  start_log : List StartEvent
  restart_log : List Nat
  chunk_log : List ChunkEvent

/-- Store `v` at address `t`. -/
def setTask (heap : Nat → OmafDownloadTask) (t : Nat) (v : OmafDownloadTask) :
    Nat → OmafDownloadTask :=
  fun i => if i = t then v else heap i

/-- The entry of key `h`, as `std::map::find`. -/
def mapFind (m : List (Nat × Nat)) (h : Nat) : Option Nat :=
  (m.find? (fun e => e.1 == h)).map (fun e => e.2)

/-- Remove the entry of key `h`, as `std::map::erase`. -/
def mapErase (m : List (Nat × Nat)) (h : Nat) : List (Nat × Nat) :=
  m.filter (fun e => e.1 != h)

/-- The assignment `m[h] = t`: replaces the entry of key `h` when there is one. -/
def mapInsert (m : List (Nat × Nat)) (h t : Nat) : List (Nat × Nat) :=
  (h, t) :: mapErase m h

/-- The conversion `static_cast<size_t>` of a `long`. -/
def toSizeT (x : Int) : Nat := (x % 2 ^ 64).toNat

/-- Modelled from the spec: the connection pool built by `init` (its class is not in
src): `n` idle handles, handed out from the front and taken back at the end. -/
def OmafCurlEasyDownloaderPool (n : Int) : List Nat := List.range n.toNat

/-- The state after a successful `init`. `dflt` is
`DEFAULT_MAX_PARALLER_TRANSFERS`, whose definition is not in src. -/
def init (max_parallel_transfers dflt retry_times : Int) (taskcb : Bool)
    (heap : Nat → OmafDownloadTask) : OmafCurlMultiDownloader :=
  let max_parallel := if max_parallel_transfers > 0 then max_parallel_transfers else dflt
  { max_parallel_transfers_ := max_parallel_transfers
    max_parallel_ := max_parallel
    retry_times_ := retry_times
    task_done_cb_ := taskcb
    downloader_pool_ := some (OmafCurlEasyDownloaderPool (2 * max_parallel))
    ready_task_list_ := []
    run_task_map_ := []
    task_size_ := 0
    heap := heap
    done_log := []
    start_log := []
    restart_log := []
    chunk_log := [] }

/-- The source's `addTask`. -/
def addTask (s : OmafCurlMultiDownloader) (task : Option Nat) :
    OMAF_STATUS × OmafCurlMultiDownloader :=
  match task with
  | none => (OMAF_STATUS.ERROR_INVALID, s)
  | some t =>
    (OMAF_STATUS.ERROR_NONE,
      { s with
        heap := setTask s.heap t { s.heap t with state_ := State.READY }
        ready_task_list_ := s.ready_task_list_ ++ [t]
        task_size_ := s.task_size_ + 1 })

/-- The source's `createTransfer`, for a non-null task. A failing `open` is
reported as `ERROR_INVALID`. -/
def createTransfer (s : OmafCurlMultiDownloader) (t : Nat) (c : Curl) :
    OMAF_STATUS × OmafCurlMultiDownloader :=
  match s.downloader_pool_ with
  | none => (OMAF_STATUS.ERROR_INVALID, s)
  | some [] => (OMAF_STATUS.ERROR_NULL_PTR, s)
  | some (d :: rest) =>
    if c.open_ok then
      (OMAF_STATUS.ERROR_NONE,
        { s with
          downloader_pool_ := some rest
          heap := setTask s.heap t { s.heap t with easy_downloader_ := some d } })
    else
      (OMAF_STATUS.ERROR_INVALID, { s with downloader_pool_ := some (rest ++ [d]) })

/-- The source's `startTransfer`, for a non-null task. -/
def startTransfer (s : OmafCurlMultiDownloader) (t : Nat) (c : Curl) :
    OMAF_STATUS × OmafCurlMultiDownloader :=
  match (s.heap t).easy_downloader_ with
  | none => (OMAF_STATUS.ERROR_NULL_PTR, s)
  | some d =>
    let s1 := { s with start_log := ⟨t, (s.heap t).stream_size_, -1⟩ :: s.start_log }
    if c.start_ok then
      if c.handler_ok then
        (OMAF_STATUS.ERROR_NONE,
          { s1 with
            run_task_map_ := mapInsert s1.run_task_map_ d t
            heap := setTask s1.heap t
              { s1.heap t with
                state_ := State.RUNNING
                transfer_times_ := (s1.heap t).transfer_times_ + 1 } })
      else (OMAF_STATUS.ERROR_NONE, s1)
    else (OMAF_STATUS.ERROR_INVALID, s1)

/-- The streaming lambda `startTransfer` installs, called with a chunk of `n` bytes. -/
def onStreamBlock (s : OmafCurlMultiDownloader) (t n : Nat) : OmafCurlMultiDownloader :=
  if (s.heap t).dcb_ then
    { s with
      heap := setTask s.heap t
        { s.heap t with stream_size_ := (s.heap t).stream_size_ + n }
      chunk_log := ⟨t, (s.heap t).stream_size_, n⟩ :: s.chunk_log }
  else s

/-- The source's `removeTransfer`, for a non-null task. -/
def removeTransfer (s : OmafCurlMultiDownloader) (t : Nat) (c : Curl) : Option OMAF_STATUS :=
  match (s.heap t).easy_downloader_ with
  | none => none
  | some _ => if c.remove_ok then some OMAF_STATUS.ERROR_NONE else some OMAF_STATUS.ERROR_INVALID

/-- The source's `removeReadyTask`: the first entry of the same URL is erased. -/
def removeReadyTask (s : OmafCurlMultiDownloader) (t : Nat) : OmafCurlMultiDownloader :=
  if s.ready_task_list_.any (fun i => (s.heap i).url_ == (s.heap t).url_) then
    { s with
      ready_task_list_ :=
        s.ready_task_list_.eraseP (fun i => (s.heap i).url_ == (s.heap t).url_)
      heap := setTask s.heap t { s.heap t with state_ := State.STOPPED } }
  else s

/-- The source's `moveTaskFromRun`. -/
def moveTaskFromRun (s : OmafCurlMultiDownloader) (t : Nat) (to_state : State) :
    Option OmafCurlMultiDownloader :=
  match (s.heap t).easy_downloader_ with
  | none => none
  | some h =>
    match mapFind s.run_task_map_ h with
    | some _ =>
      some { s with
        run_task_map_ := mapErase s.run_task_map_ h
        heap := setTask s.heap t { s.heap t with state_ := to_state } }
    | none => some s

/-- The source's `removeRunningTask`. -/
def removeRunningTask (s : OmafCurlMultiDownloader) (t : Nat) (c : Curl) :
    Option OmafCurlMultiDownloader :=
  match moveTaskFromRun s t State.STOPPED with
  | none => none
  | some s1 =>
    match removeTransfer s1 t c with
    | none => none
    | some _ => some s1

/-- The source's `processTaskDone`, for a non-null task. -/
def processTaskDone (s : OmafCurlMultiDownloader) (t : Nat) : OmafCurlMultiDownloader :=
  let s1 := { s with task_size_ := s.task_size_ - 1 }
  let s2 :=
    match (s1.heap t).easy_downloader_ with
    | none => s1
    | some d =>
      match s1.downloader_pool_ with
      | some p =>
        { s1 with
          downloader_pool_ := some (p ++ [d])
          heap := setTask s1.heap t { s1.heap t with easy_downloader_ := none } }
      | none =>
        { s1 with heap := setTask s1.heap t { s1.heap t with easy_downloader_ := none } }
  if s2.task_done_cb_ then
    { s2 with done_log := ⟨t, s2.heap t, s2.task_size_, s2.downloader_pool_⟩ :: s2.done_log }
  else s2

/-- The source's `markTaskFinish`. -/
def markTaskFinish (s : OmafCurlMultiDownloader) (t : Nat) : Option OmafCurlMultiDownloader :=
  match moveTaskFromRun s t State.FINISH with
  | none => none
  | some s1 => some (processTaskDone s1 t)

/-- The source's `markTaskTimeout`; a restart is noted in `restart_log`. -/
def markTaskTimeout (s : OmafCurlMultiDownloader) (t : Nat) (c : Curl) :
    Option OmafCurlMultiDownloader :=
  match moveTaskFromRun s t State.TIMEOUT with
  | none => none
  | some s1 =>
    if ((s1.heap t).transfer_times_ : Int) < s1.retry_times_ then
      some (startTransfer { s1 with restart_log := t :: s1.restart_log } t c).2
    else
      some (processTaskDone s1 t)

/-- The source's `removeTask`. -/
def removeTask (s : OmafCurlMultiDownloader) (task : Option Nat) (c : Curl) :
    Option (OMAF_STATUS × OmafCurlMultiDownloader) :=
  match task with
  | none => some (OMAF_STATUS.ERROR_INVALID, s)
  | some t =>
    let s1 := if (s.heap t).state_ = State.READY then removeReadyTask s t else s
    let r2 := if (s1.heap t).state_ = State.RUNNING then removeRunningTask s1 t c else some s1
    match r2 with
    | none => none
    | some s2 => some (OMAF_STATUS.ERROR_NONE, { s2 with task_size_ := s2.task_size_ - 1 })

/-- The source's `startTaskDownload`. -/
def startTaskDownload (s : OmafCurlMultiDownloader) (c : Curl) :
    Option (OMAF_STATUS × OmafCurlMultiDownloader) :=
  if s.run_task_map_.length < toSizeT s.max_parallel_transfers_ then
    match s.ready_task_list_ with
    | [] => some (OMAF_STATUS.ERROR_NONE, s)
    | t :: rest =>
      let s1 := { s with ready_task_list_ := rest }
      let r := createTransfer s1 t c
      if r.1 = OMAF_STATUS.ERROR_NONE then
        let r2 := startTransfer r.2 t c
        if r2.1 ≠ OMAF_STATUS.ERROR_NONE then
          match removeRunningTask r2.2 t c with
          | none => none
          | some s3 => some (OMAF_STATUS.ERROR_NONE, s3)
        else some (OMAF_STATUS.ERROR_NONE, r2.2)
      else some (OMAF_STATUS.ERROR_NONE, r.2)
  else some (OMAF_STATUS.ERROR_NONE, s)

/-- The body of the loop of `retriveDoneTask` for one message. -/
def processMsg (s : OmafCurlMultiDownloader) (m : Completion) (c : Curl) :
    Option OmafCurlMultiDownloader :=
  if m.msg_done then
    match mapFind s.run_task_map_ m.easy_handle with
    | none => some s
    | some t =>
      match removeTransfer s t c with
      | none => none
      | some _ =>
        if m.http_ok ∧ m.content_length_ = ((s.heap t).stream_size_ : Int) then
          markTaskFinish s t
        else
          markTaskTimeout s t c
  else some s

/-- The source's `retriveDoneTask` over the messages `curl_multi_info_read` returns
before it returns null; the count includes the final null read. -/
def retriveDoneTask (s : OmafCurlMultiDownloader) :
    List (Completion × Curl) → Option (Nat × OmafCurlMultiDownloader)
  | [] => some (1, s)
  | (m, c) :: ms =>
    match processMsg s m c with
    | none => none
    | some s1 =>
      match retriveDoneTask s1 ms with
      | none => none
      | some (n, s2) => some (n + 1, s2)

/-- The first part of the loop body of `retriveDoneTask`, run under
`run_task_map_mutex_`: the task registered for the handle of a DONE message. -/
def lookupDone (s : OmafCurlMultiDownloader) (m : Completion) : Option Nat :=
  if m.msg_done then mapFind s.run_task_map_ m.easy_handle else none

/-- The second part of the loop body of `retriveDoneTask`, for the task `t` the lookup
gave: it runs after the mutex was released, on the state of that moment. -/
def finishDone (s : OmafCurlMultiDownloader) (t : Nat) (m : Completion) (c : Curl) :
    Option OmafCurlMultiDownloader :=
  match removeTransfer s t c with
  | none => none
  | some _ =>
    if m.http_ok ∧ m.content_length_ = ((s.heap t).stream_size_ : Int) then
      markTaskFinish s t
    else
      markTaskTimeout s t c

/-- One message processed by the worker thread while a client thread runs
`removeTask task` between the two parts of the loop body: the lookup sees the state
before the removal, the rest of the body the state after it. -/
def processMsgRemoved (s : OmafCurlMultiDownloader) (m : Completion) (task : Option Nat)
    (c1 c2 : Curl) : Option OmafCurlMultiDownloader :=
  match removeTask s task c1 with
  | none => none
  | some r =>
    match lookupDone s m with
    | none => some r.2
    | some t => finishDone r.2 t m c2

/-- The operations on the scheduler: the two public calls of a client, and the
steps of the worker thread. -/
inductive Op where
  | addTask (task : Option Nat)
  | removeTask (task : Option Nat) (c : Curl)
  | startTaskDownload (c : Curl)
  | chunk (t n : Nat)
  | done (m : Completion) (c : Curl)
  deriving DecidableEq, Repr

/-- Run one operation; `none` is a fault. -/
def step (s : OmafCurlMultiDownloader) : Op → Option OmafCurlMultiDownloader
  | Op.addTask task => some (addTask s task).2
  | Op.removeTask task c => (removeTask s task c).map (fun r => r.2)
  | Op.startTaskDownload c => (startTaskDownload s c).map (fun r => r.2)
  | Op.chunk t n => some (onStreamBlock s t n)
  | Op.done m c => processMsg s m c

/-- Run a sequence of operations. -/
def run (s : OmafCurlMultiDownloader) : List Op → Option OmafCurlMultiDownloader
  | [] => some s
  | op :: ops =>
    match step s op with
    | none => none
    | some s1 => run s1 ops

/-- The tasks of a running map. -/
def mapTasks (m : List (Nat × Nat)) : List Nat := m.map (fun e => e.2)

/-- The tasks of the running map. -/
def runningTasks (s : OmafCurlMultiDownloader) : List Nat := mapTasks s.run_task_map_

/-- What the environment may do in state `s`: a task is handed to `addTask` only
while the scheduler does not hold it, and chunks arrive only for running tasks. -/
def Admissible (s : OmafCurlMultiDownloader) : Op → Prop
  | Op.addTask (some t) => t ∉ s.ready_task_list_ ∧ t ∉ runningTasks s
  | Op.chunk t _ => t ∈ runningTasks s
  | _ => True

instance (s : OmafCurlMultiDownloader) (op : Op) : Decidable (Admissible s op) := by
  cases op with
  | addTask task =>
    cases task with
    | none => exact instDecidableTrue
    | some t => exact instDecidableAnd
  | removeTask task c => exact instDecidableTrue
  | startTaskDownload c => exact instDecidableTrue
  | chunk t n => exact List.instDecidableMemOfLawfulBEq t (runningTasks s)
  | done m c => exact instDecidableTrue

/-- The heap before any task was scheduled: task `i` was created with URL `url i`
and streaming callback `dcb i`. -/
def freshHeap (url : Nat → String) (dcb : Nat → Bool) : Nat → OmafDownloadTask :=
  fun i => OmafDownloadTask.create (url i) (dcb i)

/-- The states the scheduler reaches from `init` over fresh tasks. -/
inductive Reachable (P dflt B : Int) (cb : Bool) (url : Nat → String) (dcb : Nat → Bool) :
    OmafCurlMultiDownloader → Prop where
  | init : Reachable P dflt B cb url dcb (init P dflt B cb (freshHeap url dcb))
  | step (s s1 : OmafCurlMultiDownloader) (op : Op) :
      Reachable P dflt B cb url dcb s → Admissible s op → step s op = some s1 →
      Reachable P dflt B cb url dcb s1

/-- The invariant of the scheduler over the ready queue, the running map, the heap,
the restart log and the retry budget. -/
structure InvC (r : List Nat) (m : List (Nat × Nat)) (hp : Nat → OmafDownloadTask)
    (l : List Nat) (B : Int) : Prop where
  own : ∀ h t, (h, t) ∈ m → (hp t).easy_downloader_ = some h
  ready_nodup : r.Nodup
  ready_not_running : ∀ t ∈ r, t ∉ mapTasks m
  running_state : ∀ t ∈ mapTasks m, (hp t).state_ = State.RUNNING
  restarts_le : ∀ t, l.count t ≤ (hp t).transfer_times_
  restarts_lt : ∀ t ∈ mapTasks m, l.count t < (hp t).transfer_times_
  restarts_budget : ∀ t, l.count t = 0 ∨ (l.count t : Int) ≤ B

/-- The invariant of a scheduler state. -/
def Inv (s : OmafCurlMultiDownloader) : Prop :=
  InvC s.ready_task_list_ s.run_task_map_ s.heap s.restart_log s.retry_times_

/-- The configuration of the scheduler and the constant fields of the tasks agree. -/
def SameCfg (s s1 : OmafCurlMultiDownloader) : Prop :=
  s1.max_parallel_transfers_ = s.max_parallel_transfers_ ∧
  s1.max_parallel_ = s.max_parallel_ ∧
  s1.retry_times_ = s.retry_times_ ∧
  s1.task_done_cb_ = s.task_done_cb_ ∧
  ∀ i, (s1.heap i).dcb_ = (s.heap i).dcb_ ∧ (s1.heap i).url_ = (s.heap i).url_

/-- The running map never grows past the limit `startTaskDownload` tests. -/
def Bounded (s : OmafCurlMultiDownloader) : Prop :=
  s.run_task_map_.length ≤ toSizeT s.max_parallel_transfers_

/-- All libcurl calls succeed. -/
def allOk : Curl := ⟨true, true, true, true⟩

/-- Sample tasks: every task has the URL `"seg"`. -/
def sampleUrl : Nat → String := fun _ => "seg"

/-- Sample tasks: every task has a streaming callback. -/
def sampleDcb : Nat → Bool := fun _ => true

/-- The result of a sequence of operations, or the start state after a fault. -/
def runD (s : OmafCurlMultiDownloader) (ops : List Op) : OmafCurlMultiDownloader :=
  (run s ops).getD s

/-- A sample state: limit 2, retry budget 1, task 0 added and started. -/
def sampleRunning : OmafCurlMultiDownloader :=
  runD (init 2 4 1 true (freshHeap sampleUrl sampleDcb))
    [Op.addTask (some 0), Op.startTaskDownload allOk]

/-- A sample state: limit 2, retry budget 2, task 0 added and started, and 900
bytes delivered to its streaming callback. -/
def sampleStreaming : OmafCurlMultiDownloader :=
  runD (init 2 4 2 true (freshHeap sampleUrl sampleDcb))
    [Op.addTask (some 0), Op.startTaskDownload allOk, Op.chunk 0 900]

/-- A completion of handle 0 with a success status and the declared length 900. -/
def sampleDone : Completion := ⟨true, 0, true, 900⟩

/-- The number of invocations of the completion callback for task `t`. -/
def doneCount (s : OmafCurlMultiDownloader) (t : Nat) : Nat :=
  (s.done_log.filter (fun e => e.task == t)).length

/-- The number of start requests for task `t`. -/
def startCount (s : OmafCurlMultiDownloader) (t : Nat) : Nat :=
  (s.start_log.filter (fun e => e.task == t)).length

/-- Task `t` is stopped and out of the scheduler, with `k1` callbacks, `k2`
restarts and `k3` start requests so far. -/
def Silent (t k1 k2 k3 : Nat) (s : OmafCurlMultiDownloader) : Prop :=
  t ∉ s.ready_task_list_ ∧ t ∉ runningTasks s ∧ (s.heap t).state_ = State.STOPPED ∧
  doneCount s t = k1 ∧ s.restart_log.count t = k2 ∧ startCount s t = k3

/-- The `open` call fails, every other libcurl call succeeds. -/
def openFails : Curl := ⟨false, true, true, true⟩

/-- The `start` call fails, every other libcurl call succeeds. -/
def startFails : Curl := ⟨true, false, true, true⟩

/-- A sample state: limit 2, tasks 0 and 1, of the same URL, added and pending. -/
def sampleTwoReady : OmafCurlMultiDownloader :=
  runD (init 2 4 1 true (freshHeap sampleUrl sampleDcb))
    [Op.addTask (some 0), Op.addTask (some 1)]

/-- The state after `k` tasks were added and admitted one after the other, for the
constructor value -1 and the default `d`: handles and tasks `0 .. k-1` are running. -/
def Filled (d k : Nat) (s : OmafCurlMultiDownloader) : Prop :=
  s.max_parallel_transfers_ = -1 ∧
  s.downloader_pool_ = some (List.range' k (2 * d - k)) ∧
  s.ready_task_list_ = [] ∧
  s.run_task_map_.length = k ∧
  ∀ e ∈ s.run_task_map_, e.1 < k ∧ e.2 < k

/-- The pool exists and every task handed to the completion callback was in state
FINISH or TIMEOUT and owned no handle. -/
def DoneInv (s : OmafCurlMultiDownloader) : Prop :=
  s.downloader_pool_ ≠ none ∧
  ∀ e ∈ s.done_log, (e.snap.state_ = State.FINISH ∨ e.snap.state_ = State.TIMEOUT) ∧
    e.snap.easy_downloader_ = none

/-- A completion of handle 0 with a failure status. -/
def sampleFailed : Completion := ⟨true, 0, false, 0⟩

/-- The operations that empty a pool of two handles and then admit task 2: tasks 0
and 1 are each added, started and removed while RUNNING, then task 2 is added. -/
def drainOps : List Op :=
  [Op.addTask (some 0), Op.startTaskDownload allOk, Op.removeTask (some 0) allOk,
    Op.addTask (some 1), Op.startTaskDownload allOk, Op.removeTask (some 1) allOk,
    Op.addTask (some 2)]

/-- The task one call of `startTaskDownload` takes from the ready queue and hands to
`createTransfer`: the front of the queue when the running map is below the limit. -/
def frontTask (s : OmafCurlMultiDownloader) : Option Nat :=
  if s.run_task_map_.length < toSizeT s.max_parallel_transfers_ then
    s.ready_task_list_.head?
  else none

/-- The tasks handed to `createTransfer` while a sequence of operations runs, in
that order. -/
def admitted : OmafCurlMultiDownloader → List Op → List Nat
  | _, [] => []
  | s, op :: ops =>
    (match op with
      | Op.startTaskDownload _ => (frontTask s).toList
      | _ => []) ++
    (match step s op with
      | none => []
      | some s1 => admitted s1 ops)

/-- The tasks handed to `addTask` by a sequence of operations, in that order. -/
def addedTasks : List Op → List Nat
  | [] => []
  | Op.addTask (some t) :: ops => t :: addedTasks ops
  | _ :: ops => addedTasks ops

/-- The operation is a call of `removeTask`. -/
def isRemove : Op → Bool
  | Op.removeTask _ _ => true
  | _ => false

/-- A sample run: tasks 0, 1, 2 are added, with an admission step after the second
and two after the third. -/
def fifoOps : List Op :=
  [Op.addTask (some 0), Op.addTask (some 1), Op.startTaskDownload allOk,
    Op.addTask (some 2), Op.startTaskDownload allOk, Op.startTaskDownload allOk]

end VCD.OMAF

/-!
## DecoderManager: the video decoders of the player

A shallow embedding of `src/player/Decoder/DecoderManager.cpp`.

* `m_mapVideoDecoder` is an association list ordered by key; a value is `none` for a
  NULL pointer and `some d` for a live `VideoDecoder`.
* The class `VideoDecoder` is not in src: the results of its methods are given by a
  `DecoderEnv`.
* A packet array is a list; `cnt` is passed next to it as in the source, and a read or
  write at an index outside the list is the fault `outOfBounds`.
* The static `currentPts` of `SendVideoPackets` is a field of the manager.
* `sent_log` is an observation log (newest first) of the packets handed to `SendPacket`.
* An `int` loop index is a natural number below `2 ^ 31`; the increment of an index
  that is `2 ^ 31 - 1` is the fault `intOverflow`.
-/

namespace VCD

/-- The values of `RenderStatus` the source names. -/
inductive RenderStatus where
  | RENDER_STATUS_OK | RENDER_ERROR | RENDER_NO_FRAME | RENDER_EOS | RENDER_NO_MATCHED_DECODER
  deriving DecidableEq, Repr

/-- The decoder status: the two values the source names, and one for every other. -/
inductive ThreadStatus where
  | STATUS_IDLE | STATUS_PENDING | STATUS_OTHER
  deriving DecidableEq, Repr

/-- The fields of `DashPacket` the manager reads and writes. -/
structure DashPacket where
  videoID : Nat
  video_codec : Nat
  bEOS : Bool
  pts : Nat
  deriving DecidableEq, Repr

/-- A live `VideoDecoder`, as far as the manager sees it: its status. -/
structure VideoDecoder where
  status : ThreadStatus
  deriving DecidableEq, Repr

/-- The faults of the manager: an index outside the packet array, a NULL decoder
dereferenced, a NULL entry newly inserted by `operator[]` and dereferenced, a NULL
handler factory dereferenced, and an `int` loop index incremented past `INT_MAX`. -/
inductive Fault where
  | outOfBounds | nullDecoder | insertedNull | nullFactory | intOverflow
  deriving DecidableEq, Repr

/-- The results of the decoder methods and of `IsReady`, which are not in src. -/
structure DecoderEnv where
  Initialize : Nat → Nat → RenderStatus
  initStatus : ThreadStatus
  Pending : VideoDecoder → VideoDecoder
  SendPacket : VideoDecoder → DashPacket → VideoDecoder
  UpdateFrame : Nat → VideoDecoder → Nat → RenderStatus × VideoDecoder
  IsReady : Bool

/-- The manager object. -/
structure DecoderManager where
  m_handlerFactory : Bool
  m_mapVideoDecoder : List (Nat × Option VideoDecoder)
  currentPts : Nat
  sent_log : List (Nat × DashPacket)
  deriving DecidableEq, Repr

/-- The entry of key `k`, as `std::map::find`; `none` is `end()`. -/
def dmFind (m : List (Nat × Option VideoDecoder)) (k : Nat) : Option (Option VideoDecoder) :=
  (m.find? (fun e => e.1 == k)).map (fun e => e.2)

/-- Insert a new key into a map ordered by key. -/
def dmInsertNew : List (Nat × Option VideoDecoder) → Nat → Option VideoDecoder →
    List (Nat × Option VideoDecoder)
  | [], k, v => [(k, v)]
  | e :: rest, k, v => if k < e.1 then (k, v) :: e :: rest else e :: dmInsertNew rest k v

/-- The assignment `m[k] = v` on a map ordered by key: the value of an existing key is
replaced, a new key is inserted at its place in the order. -/
def dmSet (m : List (Nat × Option VideoDecoder)) (k : Nat) (v : Option VideoDecoder) :
    List (Nat × Option VideoDecoder) :=
  if (dmFind m k).isSome then m.map (fun e => if e.1 = k then (k, v) else e)
  else dmInsertNew m k v

/-- The keys of the map. -/
def dmKeys (m : List (Nat × Option VideoDecoder)) : List Nat := m.map (fun e => e.1)

/-- No key of the map is bound to NULL. -/
def NoNull (m : List (Nat × Option VideoDecoder)) : Prop := ∀ e ∈ m, e.2 ≠ none

/-- The source's `Initialize`. -/
def Initialize (dm : DecoderManager) (factory : Bool) : RenderStatus × DecoderManager :=
  if factory then (RenderStatus.RENDER_STATUS_OK, { dm with m_handlerFactory := true })
  else (RenderStatus.RENDER_ERROR, dm)

/-- The source's `CreateVideoDecoder`. -/
def CreateVideoDecoder (env : DecoderEnv) (dm : DecoderManager) (video_id video_codec : Nat) :
    Except Fault (RenderStatus × DecoderManager) :=
  if dm.m_handlerFactory then
    let ret := env.Initialize video_id video_codec
    if ret ≠ RenderStatus.RENDER_STATUS_OK then Except.ok (ret, dm)
    else
      Except.ok (RenderStatus.RENDER_STATUS_OK,
        { dm with
          m_mapVideoDecoder := dmSet dm.m_mapVideoDecoder video_id (some ⟨env.initStatus⟩) })
  else Except.error Fault.nullFactory

/-- The inner loop of condition 1 of `CheckVideoDecoders`: is `key` the video of one
of the packets `i .. i + n - 1`. -/
def isFound (packets : List DashPacket) (key : Nat) : Nat → Nat → Except Fault Bool
  | _, 0 => Except.ok false
  | i, n + 1 =>
    match packets[i]? with
    | none => Except.error Fault.outOfBounds
    | some p => if p.videoID = key then Except.ok true else isFound packets key (i + 1) n

/-- The outer loop of condition 1: the keys found in none of the first `cnt` packets. -/
def lossIDs (packets : List DashPacket) (cnt : Nat) :
    List (Nat × Option VideoDecoder) → Except Fault (List Nat)
  | [] => Except.ok []
  | e :: rest =>
    match isFound packets e.1 0 cnt with
    | Except.error f => Except.error f
    | Except.ok b =>
      match lossIDs packets cnt rest with
      | Except.error f => Except.error f
      | Except.ok l => Except.ok (if b then l else e.1 :: l)

/-- The loop of condition 1 over `lossID`: a decoder neither idle nor pending is set
to pending. -/
def pendLoss (env : DecoderEnv) :
    List Nat → List (Nat × Option VideoDecoder) → Except Fault (List (Nat × Option VideoDecoder))
  | [], m => Except.ok m
  | id :: ids, m =>
    match dmFind m id with
    | none => Except.error Fault.insertedNull
    | some none => Except.error Fault.nullDecoder
    | some (some d) =>
      if d.status ≠ ThreadStatus.STATUS_IDLE ∧ d.status ≠ ThreadStatus.STATUS_PENDING then
        pendLoss env ids (dmSet m id (some (env.Pending d)))
      else pendLoss env ids m

/-- The loop of condition 2 over the packets `i .. i + n - 1`, with the current `ret`. -/
def createLoop (env : DecoderEnv) (packets : List DashPacket) :
    Nat → Nat → RenderStatus → DecoderManager → Except Fault (RenderStatus × DecoderManager)
  | _, 0, ret, dm => Except.ok (ret, dm)
  | i, n + 1, ret, dm =>
    match packets[i]? with
    | none => Except.error Fault.outOfBounds
    | some p =>
      match dmFind dm.m_mapVideoDecoder p.videoID with
      | none =>
        match CreateVideoDecoder env dm p.videoID p.video_codec with
        | Except.error f => Except.error f
        | Except.ok (r, dm1) =>
          if r ≠ RenderStatus.RENDER_STATUS_OK then Except.ok (r, dm1)
          else if i + 1 < 2 ^ 31 then createLoop env packets (i + 1) n r dm1
          else Except.error Fault.intOverflow
      | some _ =>
        if i + 1 < 2 ^ 31 then createLoop env packets (i + 1) n ret dm
        else Except.error Fault.intOverflow

/-- The loop of condition 3: `bEOS` is set in the packets `i .. i + n - 1`. -/
def setEOS : List DashPacket → Nat → Nat → Except Fault (List DashPacket)
  | packets, _, 0 => Except.ok packets
  | packets, i, n + 1 =>
    match packets[i]? with
    | none => Except.error Fault.outOfBounds
    | some p =>
      if i + 1 < 2 ^ 31 then setEOS (packets.set i { p with bEOS := true }) (i + 1) n
      else Except.error Fault.intOverflow

/-- Condition 1 of `CheckVideoDecoders`: the decoders of the videos missing from the
packets are set to pending. -/
def pendingDecoders (env : DecoderEnv) (dm : DecoderManager) (packets : List DashPacket)
    (cnt : Nat) : Except Fault DecoderManager :=
  let currentDecoderSize := dm.m_mapVideoDecoder.length % 2 ^ 32
  if cnt < currentDecoderSize ∧ currentDecoderSize ≠ 0 then
    match lossIDs packets cnt dm.m_mapVideoDecoder with
    | Except.error f => Except.error f
    | Except.ok ids =>
      match pendLoss env ids dm.m_mapVideoDecoder with
      | Except.error f => Except.error f
      | Except.ok m => Except.ok { dm with m_mapVideoDecoder := m }
  else Except.ok dm

/-- The source's `CheckVideoDecoders`. -/
def CheckVideoDecoders (env : DecoderEnv) (dm : DecoderManager) (packets : List DashPacket)
    (cnt : Nat) : Except Fault (RenderStatus × DecoderManager × List DashPacket) :=
  match pendingDecoders env dm packets cnt with
  | Except.error f => Except.error f
  | Except.ok dm1 =>
    match createLoop env packets 0 cnt RenderStatus.RENDER_STATUS_OK dm1 with
    | Except.error f => Except.error f
    | Except.ok (ret, dm2) =>
      match packets[0]? with
      | none => Except.error Fault.outOfBounds
      | some p0 =>
        if p0.bEOS then
          match setEOS packets 0 cnt with
          | Except.error f => Except.error f
          | Except.ok pk => Except.ok (ret, dm2, pk)
        else Except.ok (ret, dm2, packets)

/-- The loop of `SendVideoPackets` over the packets `i .. i + n - 1`. -/
def sendLoop (env : DecoderEnv) :
    Nat → Nat → DecoderManager → List DashPacket → Except Fault (DecoderManager × List DashPacket)
  | _, 0, dm, packets => Except.ok (dm, packets)
  | i, n + 1, dm, packets =>
    match packets[i]? with
    | none => Except.error Fault.outOfBounds
    | some p =>
      let q : DashPacket := { p with pts := dm.currentPts }
      match dmFind dm.m_mapVideoDecoder q.videoID with
      | none => Except.error Fault.insertedNull
      | some none => Except.error Fault.nullDecoder
      | some (some d) =>
        if i + 1 < 2 ^ 31 then
          sendLoop env (i + 1) n
            { dm with
              m_mapVideoDecoder :=
                dmSet dm.m_mapVideoDecoder q.videoID (some (env.SendPacket d q))
              sent_log := (q.videoID, q) :: dm.sent_log }
            (packets.set i q)
        else Except.error Fault.intOverflow

/-- The source's `SendVideoPackets`. -/
def SendVideoPackets (env : DecoderEnv) (dm : DecoderManager) (packets : List DashPacket)
    (cnt : Nat) : Except Fault (RenderStatus × DecoderManager × List DashPacket) :=
  match CheckVideoDecoders env dm packets cnt with
  | Except.error f => Except.error f
  | Except.ok (ret, dm1, pk1) =>
    if ret ≠ RenderStatus.RENDER_STATUS_OK then Except.ok (ret, dm1, pk1)
    else
      match sendLoop env 0 cnt dm1 pk1 with
      | Except.error f => Except.error f
      | Except.ok (dm2, pk2) =>
        Except.ok (RenderStatus.RENDER_STATUS_OK,
          { dm2 with currentPts := (dm2.currentPts + 1) % 2 ^ 64 }, pk2)

/-- The source's `UpdateVideoFrame`; a destroyed decoder leaves its key bound to NULL. -/
def UpdateVideoFrame (env : DecoderEnv) (dm : DecoderManager) (video_id pts : Nat) :
    Except Fault (RenderStatus × DecoderManager) :=
  match dmFind dm.m_mapVideoDecoder video_id with
  | none => Except.ok (RenderStatus.RENDER_NO_MATCHED_DECODER, dm)
  | some none => Except.error Fault.nullDecoder
  | some (some d) =>
    let r := env.UpdateFrame video_id d pts
    if r.2.status = ThreadStatus.STATUS_IDLE ∧ r.1 = RenderStatus.RENDER_NO_FRAME then
      Except.ok (RenderStatus.RENDER_STATUS_OK,
        { dm with m_mapVideoDecoder := dmSet dm.m_mapVideoDecoder video_id none })
    else
      Except.ok (r.1,
        { dm with m_mapVideoDecoder := dmSet dm.m_mapVideoDecoder video_id (some r.2) })

/-- The first loop of `UpdateVideoFrames` over the keys of the map: the error count,
the per-decoder results in the order of the keys, and the manager afterwards. -/
def updateLoop (env : DecoderEnv) (pts : Nat) :
    List Nat → Nat → DecoderManager → Except Fault (Nat × List RenderStatus × DecoderManager)
  | [], errorCnt, dm => Except.ok (errorCnt, [], dm)
  | k :: ks, errorCnt, dm =>
    match UpdateVideoFrame env dm k pts with
    | Except.error f => Except.error f
    | Except.ok (ret, dm1) =>
      let errorCnt1 :=
        if ret ≠ RenderStatus.RENDER_STATUS_OK then (errorCnt + 1) % 2 ^ 32 else errorCnt
      match updateLoop env pts ks errorCnt1 dm1 with
      | Except.error f => Except.error f
      | Except.ok (n, rs, dm2) => Except.ok (n, ret :: rs, dm2)

/-- The source's `UpdateVideoFrames`. -/
def UpdateVideoFrames (env : DecoderEnv) (dm : DecoderManager) (pts : Nat) :
    Except Fault (RenderStatus × DecoderManager) :=
  if dm.m_mapVideoDecoder.length = 0 ∨ env.IsReady = false then
    Except.ok (RenderStatus.RENDER_NO_FRAME, dm)
  else
    match updateLoop env pts (dmKeys dm.m_mapVideoDecoder) 0 dm with
    | Except.error f => Except.error f
    | Except.ok (errorCnt, _, dm1) =>
      let ret :=
        if errorCnt = dm1.m_mapVideoDecoder.length then RenderStatus.RENDER_NO_FRAME
        else RenderStatus.RENDER_STATUS_OK
      Except.ok (ret,
        { dm1 with
          m_mapVideoDecoder := dm1.m_mapVideoDecoder.filter (fun e => e.2.isSome) })

/-- A sample environment: `Initialize` succeeds, a new decoder has a status other than
idle and pending, `UpdateFrame` finds no frame and leaves the decoder idle. -/
def sampleEnv : DecoderEnv :=
  { Initialize := fun _ _ => RenderStatus.RENDER_STATUS_OK
    initStatus := ThreadStatus.STATUS_OTHER
    Pending := fun _ => ⟨ThreadStatus.STATUS_PENDING⟩
    SendPacket := fun d _ => d
    UpdateFrame := fun _ _ _ => (RenderStatus.RENDER_NO_FRAME, ⟨ThreadStatus.STATUS_IDLE⟩)
    IsReady := true }

/-- A sample manager: initialised, no decoder. -/
def sampleManager : DecoderManager :=
  { m_handlerFactory := true, m_mapVideoDecoder := [], currentPts := 0, sent_log := [] }

/-- Two sample packets, of the videos 1 and 2, with the timestamps 70 and 80. -/
def samplePackets : List DashPacket := [⟨1, 0, false, 70⟩, ⟨2, 0, false, 80⟩]

/-- A sequence of calls of `SendVideoPackets`, each with an array and its length: the
number of calls that returned `RENDER_STATUS_OK`, and the manager afterwards. -/
def sendCalls (env : DecoderEnv) :
    DecoderManager → List (List DashPacket) → Except Fault (Nat × DecoderManager)
  | dm, [] => Except.ok (0, dm)
  | dm, pk :: rest =>
    match SendVideoPackets env dm pk pk.length with
    | Except.error f => Except.error f
    | Except.ok (ret, dm1, _) =>
      match sendCalls env dm1 rest with
      | Except.error f => Except.error f
      | Except.ok (n, dm2) =>
        Except.ok ((if ret = RenderStatus.RENDER_STATUS_OK then n + 1 else n), dm2)

/-- A sample environment in which `Initialize` fails. -/
def failingEnv : DecoderEnv :=
  { sampleEnv with Initialize := fun _ _ => RenderStatus.RENDER_ERROR }

/-- Whether a map binds no key to NULL can be computed. -/
instance decidableNoNull (m : List (Nat × Option VideoDecoder)) : Decidable (NoNull m) :=
  inferInstanceAs (Decidable (∀ e ∈ m, e.2 ≠ none))

/-- A sample manager with one live decoder, of the video 1. -/
def oneDecoder : DecoderManager :=
  { sampleManager with m_mapVideoDecoder := [(1, some ⟨ThreadStatus.STATUS_OTHER⟩)] }

/-- A sample environment in which `UpdateFrame` finds a frame. -/
def frameEnv : DecoderEnv :=
  { sampleEnv with
    UpdateFrame := fun _ d _ => (RenderStatus.RENDER_STATUS_OK, d) }

/-- The per-decoder results in the words of the spec, to compare `updateLoop` with:
`UpdateVideoFrame` is called for the keys `ks`, one after the other from the manager
`dm`; the statuses the calls returned, in that order, and the manager after the last
call. -/
inductive FrameResults (env : DecoderEnv) (pts : Nat) :
    List Nat → DecoderManager → List RenderStatus → DecoderManager → Prop where
  | nil (dm : DecoderManager) : FrameResults env pts [] dm [] dm
  | cons (k : Nat) (ks : List Nat) (dm dm1 dm2 : DecoderManager) (r : RenderStatus)
      (rs : List RenderStatus) :
      UpdateVideoFrame env dm k pts = Except.ok (r, dm1) →
      FrameResults env pts ks dm1 rs dm2 →
      FrameResults env pts (k :: ks) dm (r :: rs) dm2

/-- A sample manager in which the key 1 is bound to NULL. -/
def nullDecoderManager : DecoderManager :=
  { sampleManager with m_mapVideoDecoder := [(1, none)] }

end VCD

namespace VCD.OMAF

/-! ## Lemmas on the heap and the running map -/

@[simp] theorem setTask_same (hp : Nat → OmafDownloadTask) (t : Nat) (v : OmafDownloadTask) :
    setTask hp t v t = v := by simp [setTask]

theorem setTask_ne (hp : Nat → OmafDownloadTask) (t i : Nat) (v : OmafDownloadTask)
    (h : i ≠ t) : setTask hp t v i = hp i := by simp [setTask, h]

theorem mem_mapErase (m : List (Nat × Nat)) (h a b : Nat) :
    (a, b) ∈ mapErase m h ↔ (a, b) ∈ m ∧ a ≠ h := by
  simp [mapErase, List.mem_filter]

theorem mapErase_length_le (m : List (Nat × Nat)) (h : Nat) :
    (mapErase m h).length ≤ m.length := by
  simp [mapErase, List.length_filter_le]

theorem mapFind_some_mem (m : List (Nat × Nat)) (h t : Nat) (hf : mapFind m h = some t) :
    (h, t) ∈ m := by
  unfold mapFind at hf
  cases hq : m.find? (fun e => e.1 == h) with
  | none => simp [hq] at hf
  | some e =>
    simp [hq] at hf
    have h1 := List.find?_some hq
    have h2 := List.mem_of_find?_eq_some hq
    have h3 : e.1 = h := by simpa using h1
    have : e = (h, t) := by cases e; simp_all
    rw [← this]; exact h2

theorem mapFind_none_not_mem (m : List (Nat × Nat)) (h : Nat) (hf : mapFind m h = none)
    (t : Nat) : (h, t) ∉ m := by
  unfold mapFind at hf
  intro hm
  have h1 : m.find? (fun e => e.1 == h) = none := by simpa using hf
  have h2 := (List.find?_eq_none.mp h1) (h, t) hm
  simp at h2

theorem mem_mapTasks (m : List (Nat × Nat)) (t : Nat) :
    t ∈ mapTasks m ↔ ∃ h, (h, t) ∈ m := by
  simp [mapTasks]

theorem InvC.heap_congr {r m hp l B} (hI : InvC r m hp l B) (hp1 : Nat → OmafDownloadTask)
    (h1 : ∀ i ∈ mapTasks m, (hp1 i).easy_downloader_ = (hp i).easy_downloader_ ∧
      (hp1 i).state_ = (hp i).state_)
    (h2 : ∀ i, (hp1 i).transfer_times_ = (hp i).transfer_times_) : InvC r m hp1 l B where
  own := fun h t hm => by
    rw [(h1 t ((mem_mapTasks m t).mpr ⟨h, hm⟩)).1]; exact hI.own h t hm
  ready_nodup := hI.ready_nodup
  ready_not_running := hI.ready_not_running
  running_state := fun t ht => by rw [(h1 t ht).2]; exact hI.running_state t ht
  restarts_le := fun t => by rw [h2]; exact hI.restarts_le t
  restarts_lt := fun t ht => by rw [h2]; exact hI.restarts_lt t ht
  restarts_budget := hI.restarts_budget

theorem InvC.set_idle {r m hp l B} (hI : InvC r m hp l B) (t : Nat) (v : OmafDownloadTask)
    (ht : t ∉ mapTasks m) (hv : v.transfer_times_ = (hp t).transfer_times_) :
    InvC r m (setTask hp t v) l B := by
  apply hI.heap_congr
  · intro i hi
    have : i ≠ t := fun h => ht (h ▸ hi)
    simp [setTask_ne _ _ _ _ this]
  · intro i
    by_cases h : i = t
    · subst h; simp [hv]
    · simp [setTask_ne _ _ _ _ h]

theorem InvC.ready_sublist {r m hp l B} (hI : InvC r m hp l B) (r1 : List Nat)
    (h : r1.Sublist r) : InvC r1 m hp l B :=
  { hI with
    ready_nodup := hI.ready_nodup.sublist h
    ready_not_running := fun t ht => hI.ready_not_running t (h.subset ht) }

theorem InvC.erase {r m hp l B} (hI : InvC r m hp l B) (t h : Nat) (st : State)
    (hd : (hp t).easy_downloader_ = some h) :
    InvC r (mapErase m h) (setTask hp t { hp t with state_ := st }) l B ∧
      t ∉ mapTasks (mapErase m h) := by
  have hnot : t ∉ mapTasks (mapErase m h) := by
    intro hm
    obtain ⟨h1, hm1⟩ := (mem_mapTasks _ _).mp hm
    have := (mem_mapErase _ _ _ _).mp hm1
    have h2 := hI.own h1 t this.1
    rw [hd] at h2
    exact this.2 (by injection h2 with h3; exact h3.symm)
  have hsub : ∀ i, i ∈ mapTasks (mapErase m h) → i ∈ mapTasks m := by
    intro i hi
    obtain ⟨h1, hm1⟩ := (mem_mapTasks _ _).mp hi
    exact (mem_mapTasks _ _).mpr ⟨h1, ((mem_mapErase _ _ _ _).mp hm1).1⟩
  refine ⟨?_, hnot⟩
  have base : InvC r (mapErase m h) hp l B :=
    { own := fun h1 t1 hm => hI.own h1 t1 ((mem_mapErase _ _ _ _).mp hm).1
      ready_nodup := hI.ready_nodup
      ready_not_running := fun i hi hm => hI.ready_not_running i hi (hsub i hm)
      running_state := fun i hi => hI.running_state i (hsub i hi)
      restarts_le := hI.restarts_le
      restarts_lt := fun i hi => hI.restarts_lt i (hsub i hi)
      restarts_budget := hI.restarts_budget }
  exact base.set_idle t _ hnot rfl

theorem InvC.insert {r m hp l B} (hI : InvC r m hp l B) (t d : Nat)
    (hd : (hp t).easy_downloader_ = some d) (hr : t ∉ r) :
    InvC r (mapInsert m d t)
      (setTask hp t { hp t with state_ := State.RUNNING,
                                transfer_times_ := (hp t).transfer_times_ + 1 }) l B := by
  have hmem : ∀ i, i ∈ mapTasks (mapInsert m d t) → i = t ∨ (i ≠ t ∧ i ∈ mapTasks m) := by
    intro i hi
    obtain ⟨h1, hm1⟩ := (mem_mapTasks _ _).mp hi
    rcases List.mem_cons.mp hm1 with h2 | h2
    · left; injection h2
    · have h3 := (mem_mapErase _ _ _ _).mp h2
      by_cases hit : i = t
      · left; exact hit
      · right; exact ⟨hit, (mem_mapTasks _ _).mpr ⟨h1, h3.1⟩⟩
  constructor
  · intro h1 t1 hm
    rcases List.mem_cons.mp hm with h2 | h2
    · injection h2 with h3 h4; subst h3; subst h4; simp [hd]
    · have h3 := (mem_mapErase _ _ _ _).mp h2
      have h4 := hI.own h1 t1 h3.1
      by_cases hit : t1 = t
      · subst hit; rw [hd] at h4; injection h4 with h5; exact absurd h5.symm h3.2
      · rw [setTask_ne _ _ _ _ hit]; exact h4
  · exact hI.ready_nodup
  · intro i hi hm
    rcases hmem i hm with h1 | h1
    · exact hr (h1 ▸ hi)
    · exact hI.ready_not_running i hi h1.2
  · intro i hi
    rcases hmem i hi with h1 | h1
    · subst h1; simp
    · rw [setTask_ne _ _ _ _ h1.1]; exact hI.running_state i h1.2
  · intro i
    by_cases hit : i = t
    · subst hit; simp; exact Nat.le_succ_of_le (hI.restarts_le i)
    · rw [setTask_ne _ _ _ _ hit]; exact hI.restarts_le i
  · intro i hi
    rcases hmem i hi with h1 | h1
    · subst h1; simp; exact Nat.lt_succ_of_le (hI.restarts_le i)
    · rw [setTask_ne _ _ _ _ h1.1]; exact hI.restarts_lt i h1.2
  · exact hI.restarts_budget

theorem InvC.restart {r m hp l B} (hI : InvC r m hp l B) (t : Nat)
    (ht : t ∉ mapTasks m) (hlt : l.count t < (hp t).transfer_times_)
    (hB : ((hp t).transfer_times_ : Int) < B) : InvC r m hp (t :: l) B := by
  have hc : ∀ i, i ≠ t → (t :: l).count i = l.count i := by
    intro i hi; simp [List.count_cons, Ne.symm hi]
  have hct : (t :: l).count t = l.count t + 1 := by simp
  constructor
  · exact hI.own
  · exact hI.ready_nodup
  · exact hI.ready_not_running
  · exact hI.running_state
  · intro i
    by_cases hit : i = t
    · subst hit; rw [hct]; exact hlt
    · rw [hc i hit]; exact hI.restarts_le i
  · intro i hi
    have hit : i ≠ t := fun h => ht (h ▸ hi)
    rw [hc i hit]; exact hI.restarts_lt i hi
  · intro i
    by_cases hit : i = t
    · subst hit; right; rw [hct]; push_cast; omega
    · rw [hc i hit]; exact hI.restarts_budget i

theorem InvC.add {r m hp l B} (hI : InvC r m hp l B) (t : Nat)
    (hr : t ∉ r) (hm : t ∉ mapTasks m) :
    InvC (r ++ [t]) m (setTask hp t { hp t with state_ := State.READY }) l B := by
  have base := hI.set_idle t { hp t with state_ := State.READY } hm rfl
  exact { base with
    ready_nodup := by
      rw [List.nodup_append]
      refine ⟨hI.ready_nodup, List.nodup_singleton t, ?_⟩
      intro a ha hb
      simp at hb
      exact hr (hb ▸ ha)
    ready_not_running := by
      intro i hi
      rcases List.mem_append.mp hi with h | h
      · exact hI.ready_not_running i h
      · simp at h; subst h; exact hm }

theorem runningTasks_eq (s : OmafCurlMultiDownloader) :
    runningTasks s = mapTasks s.run_task_map_ := rfl

theorem moveTaskFromRun_inv {s s1 : OmafCurlMultiDownloader} {t : Nat} {st : State}
    (hI : Inv s) (h : moveTaskFromRun s t st = some s1) :
    Inv s1 ∧ t ∉ runningTasks s1 ∧ s1.ready_task_list_ = s.ready_task_list_ ∧
      (s1.heap t).easy_downloader_ = (s.heap t).easy_downloader_ ∧
      (s.heap t).easy_downloader_ ≠ none ∧
      (s1.heap t).transfer_times_ = (s.heap t).transfer_times_ ∧
      s1.restart_log = s.restart_log ∧ s1.retry_times_ = s.retry_times_ := by
  unfold moveTaskFromRun at h
  split at h
  · cases h
  · rename_i d hd
    split at h
    · rename_i x hf
      injection h with h; subst h
      have := InvC.erase hI t d st hd
      exact ⟨this.1, this.2, rfl, by simp [hd], by simp [hd], by simp, rfl, rfl⟩
    · rename_i hf
      injection h with h; subst h
      refine ⟨hI, ?_, rfl, rfl, by simp [hd], rfl, rfl, rfl⟩
      intro hm
      obtain ⟨h1, hm1⟩ := (mem_mapTasks _ _).mp hm
      have h2 := hI.own h1 t hm1
      rw [hd] at h2; injection h2 with h3; subst h3
      exact mapFind_none_not_mem _ _ hf t hm1

theorem startTransfer_inv {s : OmafCurlMultiDownloader} {t : Nat} (c : Curl)
    (hI : Inv s) (hr : t ∉ s.ready_task_list_) : Inv (startTransfer s t c).2 := by
  unfold startTransfer
  cases hd : (s.heap t).easy_downloader_ with
  | none => exact hI
  | some d =>
    by_cases h1 : c.start_ok = true
    · by_cases h2 : c.handler_ok = true
      · simp only [h1, h2, if_true]
        exact InvC.insert hI t d hd hr
      · simp only [h1, h2, if_true]
        exact hI
    · simp only [h1]
      exact hI

theorem processTaskDone_inv {s : OmafCurlMultiDownloader} {t : Nat}
    (hI : Inv s) (ht : t ∉ runningTasks s) : Inv (processTaskDone s t) := by
  unfold processTaskDone
  cases hd : (s.heap t).easy_downloader_ with
  | none =>
    simp only [hd]
    split
    · exact hI
    · exact hI
  | some d =>
    simp only [hd]
    cases hp : s.downloader_pool_ with
    | none =>
      simp only [hp]
      split
      · exact InvC.set_idle hI t _ ht rfl
      · exact InvC.set_idle hI t _ ht rfl
    | some p =>
      simp only [hp]
      split
      · exact InvC.set_idle hI t _ ht rfl
      · exact InvC.set_idle hI t _ ht rfl

theorem createTransfer_inv {s : OmafCurlMultiDownloader} {t : Nat} (c : Curl)
    (hI : Inv s) (ht : t ∉ runningTasks s) :
    Inv (createTransfer s t c).2 ∧
      (createTransfer s t c).2.ready_task_list_ = s.ready_task_list_ := by
  unfold createTransfer
  split
  · exact ⟨hI, rfl⟩
  · exact ⟨hI, rfl⟩
  · split
    · exact ⟨InvC.set_idle hI t _ ht rfl, rfl⟩
    · exact ⟨hI, rfl⟩

theorem removeReadyTask_inv {s : OmafCurlMultiDownloader} {t : Nat}
    (hI : Inv s) (hs : (s.heap t).state_ = State.READY) : Inv (removeReadyTask s t) := by
  unfold removeReadyTask
  split
  · have ht : t ∉ runningTasks s := by
      intro hm
      have := hI.running_state t hm
      rw [hs] at this; cases this
    have h1 := InvC.set_idle hI t { s.heap t with state_ := State.STOPPED } ht rfl
    exact h1.ready_sublist _ (List.eraseP_sublist _)
  · exact hI

theorem onStreamBlock_inv {s : OmafCurlMultiDownloader} (t n : Nat)
    (hI : Inv s) : Inv (onStreamBlock s t n) := by
  unfold onStreamBlock
  split
  · apply InvC.heap_congr hI
    · intro i _
      by_cases h : i = t
      · subst h; simp
      · simp [setTask_ne _ _ _ _ h]
    · intro i
      by_cases h : i = t
      · subst h; simp
      · simp [setTask_ne _ _ _ _ h]
  · exact hI

theorem removeRunningTask_inv {s s1 : OmafCurlMultiDownloader} {t : Nat} {c : Curl}
    (hI : Inv s) (h : removeRunningTask s t c = some s1) :
    Inv s1 ∧ t ∉ runningTasks s1 ∧ s1.ready_task_list_ = s.ready_task_list_ := by
  unfold removeRunningTask at h
  cases hm : moveTaskFromRun s t State.STOPPED with
  | none => simp [hm] at h
  | some s2 =>
    simp only [hm] at h
    cases hr : removeTransfer s2 t c with
    | none => simp [hr] at h
    | some x =>
      simp only [hr] at h
      injection h with h; subst h
      have := moveTaskFromRun_inv hI hm
      exact ⟨this.1, this.2.1, this.2.2.1⟩

theorem markTaskFinish_inv {s s1 : OmafCurlMultiDownloader} {t : Nat}
    (hI : Inv s) (h : markTaskFinish s t = some s1) : Inv s1 := by
  unfold markTaskFinish at h
  cases hm : moveTaskFromRun s t State.FINISH with
  | none => simp [hm] at h
  | some s2 =>
    simp only [hm] at h
    injection h with h; subst h
    have := moveTaskFromRun_inv hI hm
    exact processTaskDone_inv this.1 this.2.1

theorem markTaskTimeout_inv {s s1 : OmafCurlMultiDownloader} {t : Nat} {c : Curl}
    (hI : Inv s) (ht : t ∈ runningTasks s) (h : markTaskTimeout s t c = some s1) :
    Inv s1 := by
  unfold markTaskTimeout at h
  cases hm : moveTaskFromRun s t State.TIMEOUT with
  | none => simp [hm] at h
  | some s2 =>
    simp only [hm] at h
    obtain ⟨hI2, hn2, hr2, _, _, htt, hl, _⟩ := moveTaskFromRun_inv hI hm
    have hnr : t ∉ s.ready_task_list_ := fun hr => hI.ready_not_running t hr ht
    by_cases hB : ((s2.heap t).transfer_times_ : Int) < s2.retry_times_
    · simp only [hB, if_true] at h
      injection h with h; subst h
      apply startTransfer_inv
      · have hlt : s2.restart_log.count t < (s2.heap t).transfer_times_ := by
          rw [hl, htt]; exact hI.restarts_lt t ht
        exact InvC.restart hI2 t hn2 hlt hB
      · show t ∉ s2.ready_task_list_
        rw [hr2]; exact hnr
    · simp only [hB] at h
      injection h with h; subst h
      exact processTaskDone_inv hI2 hn2

theorem processMsg_inv {s s1 : OmafCurlMultiDownloader} {m : Completion} {c : Curl}
    (hI : Inv s) (h : processMsg s m c = some s1) : Inv s1 := by
  unfold processMsg at h
  by_cases hd : m.msg_done = true
  · simp only [hd, if_true] at h
    cases hf : mapFind s.run_task_map_ m.easy_handle with
    | none => simp only [hf] at h; injection h with h; subst h; exact hI
    | some t =>
      simp only [hf] at h
      have ht : t ∈ runningTasks s :=
        (mem_mapTasks _ _).mpr ⟨_, mapFind_some_mem _ _ _ hf⟩
      cases hr : removeTransfer s t c with
      | none => simp [hr] at h
      | some x =>
        simp only [hr] at h
        split at h
        · exact markTaskFinish_inv hI h
        · exact markTaskTimeout_inv hI ht h
  · simp only [hd] at h
    injection h with h; subst h; exact hI

theorem startTaskDownload_inv {s : OmafCurlMultiDownloader} {c : Curl}
    {r : OMAF_STATUS × OmafCurlMultiDownloader}
    (hI : Inv s) (h : startTaskDownload s c = some r) : Inv r.2 := by
  unfold startTaskDownload at h
  split at h
  · cases hq : s.ready_task_list_ with
    | nil => simp only [hq] at h; injection h with h; subst h; exact hI
    | cons t rest =>
      simp only [hq] at h
      have hnd : (t :: rest).Nodup := hq ▸ hI.ready_nodup
      have htr : t ∉ rest := (List.nodup_cons.mp hnd).1
      have htm : t ∉ runningTasks s :=
        hI.ready_not_running t (by rw [hq]; exact List.mem_cons_self _ _)
      have hI1 : Inv { s with ready_task_list_ := rest } :=
        InvC.ready_sublist hI rest (by rw [hq]; exact List.sublist_cons_self _ _)
      obtain ⟨hI2, hr2⟩ := createTransfer_inv c hI1 (t := t) htm
      have hI3 : Inv (startTransfer (createTransfer { s with ready_task_list_ := rest } t c).2 t c).2 :=
        startTransfer_inv c hI2 (by rw [hr2]; exact htr)
      split at h
      · split at h
        · cases hrm : removeRunningTask
              (startTransfer (createTransfer { s with ready_task_list_ := rest } t c).2 t c).2 t c with
          | none => simp [hrm] at h
          | some s3 =>
            simp only [hrm] at h
            injection h with h; subst h
            exact (removeRunningTask_inv hI3 hrm).1
        · injection h with h; subst h; exact hI3
      · injection h with h; subst h; exact hI2
  · injection h with h; subst h; exact hI

theorem removeTask_inv {s : OmafCurlMultiDownloader} {task : Option Nat} {c : Curl}
    {r : OMAF_STATUS × OmafCurlMultiDownloader}
    (hI : Inv s) (h : removeTask s task c = some r) : Inv r.2 := by
  unfold removeTask at h
  cases task with
  | none => simp only at h; injection h with h; subst h; exact hI
  | some t =>
    simp only at h
    have hI1 : Inv (if (s.heap t).state_ = State.READY then removeReadyTask s t else s) := by
      split
      · exact removeReadyTask_inv hI (by assumption)
      · exact hI
    generalize (if (s.heap t).state_ = State.READY then removeReadyTask s t else s) = s1 at h hI1
    by_cases hs : (s1.heap t).state_ = State.RUNNING
    · simp only [hs, if_true] at h
      cases hrm : removeRunningTask s1 t c with
      | none => simp [hrm] at h
      | some s2 =>
        simp only [hrm] at h
        injection h with h; subst h
        exact (removeRunningTask_inv hI1 hrm).1
    · simp only [hs] at h
      injection h with h; subst h
      exact hI1

theorem init_inv (P dflt B : Int) (cb : Bool) (url : Nat → String) (dcb : Nat → Bool) :
    Inv (init P dflt B cb (freshHeap url dcb)) := by
  constructor
  · intro h t hm; simp [init] at hm
  · simp [init]
  · intro t ht; simp [init] at ht
  · intro t ht; simp [init, mapTasks] at ht
  · intro t; simp [init]
  · intro t ht; simp [init, mapTasks] at ht
  · intro t; left; simp [init]

theorem step_inv {s s1 : OmafCurlMultiDownloader} {op : Op}
    (hI : Inv s) (ha : Admissible s op) (h : step s op = some s1) : Inv s1 := by
  cases op with
  | addTask task =>
    simp only [step] at h
    injection h with h; subst h
    cases task with
    | none => exact hI
    | some t => exact InvC.add hI t ha.1 ha.2
  | removeTask task c =>
    simp only [step] at h
    cases hr : removeTask s task c with
    | none => simp [hr] at h
    | some r =>
      simp [hr] at h; subst h
      exact removeTask_inv hI hr
  | startTaskDownload c =>
    simp only [step] at h
    cases hr : startTaskDownload s c with
    | none => simp [hr] at h
    | some r =>
      simp [hr] at h; subst h
      exact startTaskDownload_inv hI hr
  | chunk t n =>
    simp only [step] at h
    injection h with h; subst h
    exact onStreamBlock_inv t n hI
  | done m c =>
    simp only [step] at h
    exact processMsg_inv hI h

theorem reachable_inv {P dflt B : Int} {cb : Bool} {url : Nat → String} {dcb : Nat → Bool}
    {s : OmafCurlMultiDownloader} (h : Reachable P dflt B cb url dcb s) : Inv s := by
  induction h with
  | init => exact init_inv P dflt B cb url dcb
  | step s s1 op _ ha hs ih => exact step_inv ih ha hs

theorem SameCfg.rfl_cfg (s : OmafCurlMultiDownloader) : SameCfg s s :=
  ⟨rfl, rfl, rfl, rfl, fun _ => ⟨rfl, rfl⟩⟩

theorem SameCfg.then_cfg {s s1 s2 : OmafCurlMultiDownloader} (h1 : SameCfg s s1)
    (h2 : SameCfg s1 s2) : SameCfg s s2 :=
  ⟨h2.1.trans h1.1, h2.2.1.trans h1.2.1, h2.2.2.1.trans h1.2.2.1,
    h2.2.2.2.1.trans h1.2.2.2.1,
    fun i => ⟨((h2.2.2.2.2 i).1).trans (h1.2.2.2.2 i).1, ((h2.2.2.2.2 i).2).trans (h1.2.2.2.2 i).2⟩⟩

theorem heap_keep (hp : Nat → OmafDownloadTask) (t : Nat) (v : OmafDownloadTask)
    (h1 : v.dcb_ = (hp t).dcb_) (h2 : v.url_ = (hp t).url_) (i : Nat) :
    (setTask hp t v i).dcb_ = (hp i).dcb_ ∧ (setTask hp t v i).url_ = (hp i).url_ := by
  by_cases h : i = t
  · subst h; simp [h1, h2]
  · simp [setTask_ne _ _ _ _ h]

theorem addTask_cfg (s : OmafCurlMultiDownloader) (task : Option Nat) :
    SameCfg s (addTask s task).2 := by
  cases task with
  | none => exact SameCfg.rfl_cfg s
  | some t => exact ⟨rfl, rfl, rfl, rfl, heap_keep _ _ _ rfl rfl⟩

theorem createTransfer_cfg (s : OmafCurlMultiDownloader) (t : Nat) (c : Curl) :
    SameCfg s (createTransfer s t c).2 := by
  unfold createTransfer
  split
  · exact SameCfg.rfl_cfg s
  · exact SameCfg.rfl_cfg s
  · split
    · exact ⟨rfl, rfl, rfl, rfl, heap_keep _ _ _ rfl rfl⟩
    · exact SameCfg.rfl_cfg s

theorem startTransfer_cfg (s : OmafCurlMultiDownloader) (t : Nat) (c : Curl) :
    SameCfg s (startTransfer s t c).2 := by
  unfold startTransfer
  split
  · exact SameCfg.rfl_cfg s
  · split
    · split
      · exact ⟨rfl, rfl, rfl, rfl, heap_keep _ _ _ rfl rfl⟩
      · exact SameCfg.rfl_cfg s
    · exact SameCfg.rfl_cfg s

theorem onStreamBlock_cfg (s : OmafCurlMultiDownloader) (t n : Nat) :
    SameCfg s (onStreamBlock s t n) := by
  unfold onStreamBlock
  split
  · exact ⟨rfl, rfl, rfl, rfl, heap_keep _ _ _ rfl rfl⟩
  · exact SameCfg.rfl_cfg s

theorem removeReadyTask_cfg (s : OmafCurlMultiDownloader) (t : Nat) :
    SameCfg s (removeReadyTask s t) := by
  unfold removeReadyTask
  split
  · exact ⟨rfl, rfl, rfl, rfl, heap_keep _ _ _ rfl rfl⟩
  · exact SameCfg.rfl_cfg s

theorem moveTaskFromRun_cfg {s s1 : OmafCurlMultiDownloader} {t : Nat} {st : State}
    (h : moveTaskFromRun s t st = some s1) : SameCfg s s1 := by
  unfold moveTaskFromRun at h
  split at h
  · cases h
  · split at h
    · injection h with h; subst h
      exact ⟨rfl, rfl, rfl, rfl, heap_keep _ _ _ rfl rfl⟩
    · injection h with h; subst h
      exact SameCfg.rfl_cfg s

theorem processTaskDone_cfg (s : OmafCurlMultiDownloader) (t : Nat) :
    SameCfg s (processTaskDone s t) := by
  unfold processTaskDone
  cases hd : (s.heap t).easy_downloader_ with
  | none => simp only [hd]; split <;> exact SameCfg.rfl_cfg s
  | some d =>
    simp only [hd]
    cases hp : s.downloader_pool_ with
    | none => simp only [hp]; split <;> exact ⟨rfl, rfl, rfl, rfl, heap_keep _ _ _ rfl rfl⟩
    | some p => simp only [hp]; split <;> exact ⟨rfl, rfl, rfl, rfl, heap_keep _ _ _ rfl rfl⟩

theorem removeRunningTask_cfg {s s1 : OmafCurlMultiDownloader} {t : Nat} {c : Curl}
    (h : removeRunningTask s t c = some s1) : SameCfg s s1 := by
  unfold removeRunningTask at h
  cases hm : moveTaskFromRun s t State.STOPPED with
  | none => simp [hm] at h
  | some s2 =>
    simp only [hm] at h
    cases hr : removeTransfer s2 t c with
    | none => simp [hr] at h
    | some x =>
      simp only [hr] at h
      injection h with h; subst h
      exact moveTaskFromRun_cfg hm

theorem markTaskFinish_cfg {s s1 : OmafCurlMultiDownloader} {t : Nat}
    (h : markTaskFinish s t = some s1) : SameCfg s s1 := by
  unfold markTaskFinish at h
  cases hm : moveTaskFromRun s t State.FINISH with
  | none => simp [hm] at h
  | some s2 =>
    simp only [hm] at h
    injection h with h; subst h
    exact (moveTaskFromRun_cfg hm).then_cfg (processTaskDone_cfg s2 t)

theorem markTaskTimeout_cfg {s s1 : OmafCurlMultiDownloader} {t : Nat} {c : Curl}
    (h : markTaskTimeout s t c = some s1) : SameCfg s s1 := by
  unfold markTaskTimeout at h
  cases hm : moveTaskFromRun s t State.TIMEOUT with
  | none => simp [hm] at h
  | some s2 =>
    simp only [hm] at h
    split at h
    · injection h with h; subst h
      exact (moveTaskFromRun_cfg hm).then_cfg
        (@SameCfg.then_cfg _ { s2 with restart_log := t :: s2.restart_log } _
          ⟨rfl, rfl, rfl, rfl, fun _ => ⟨rfl, rfl⟩⟩ (startTransfer_cfg _ t c))
    · injection h with h; subst h
      exact (moveTaskFromRun_cfg hm).then_cfg (processTaskDone_cfg s2 t)

theorem processMsg_cfg {s s1 : OmafCurlMultiDownloader} {m : Completion} {c : Curl}
    (h : processMsg s m c = some s1) : SameCfg s s1 := by
  unfold processMsg at h
  split at h
  · split at h
    · injection h with h; subst h; exact SameCfg.rfl_cfg s
    · split at h
      · cases h
      · split at h
        · exact markTaskFinish_cfg h
        · exact markTaskTimeout_cfg h
  · injection h with h; subst h; exact SameCfg.rfl_cfg s

theorem startTaskDownload_cfg {s : OmafCurlMultiDownloader} {c : Curl}
    {r : OMAF_STATUS × OmafCurlMultiDownloader}
    (h : startTaskDownload s c = some r) : SameCfg s r.2 := by
  unfold startTaskDownload at h
  split at h
  · split at h
    · injection h with h; subst h; exact SameCfg.rfl_cfg s
    · rename_i t rest hq
      have h1 := createTransfer_cfg { s with ready_task_list_ := rest } t c
      have h2 := startTransfer_cfg (createTransfer { s with ready_task_list_ := rest } t c).2 t c
      have h0 : SameCfg s { s with ready_task_list_ := rest } :=
        ⟨rfl, rfl, rfl, rfl, fun _ => ⟨rfl, rfl⟩⟩
      simp only at h
      split at h
      · split at h
        · split at h
          · cases h
          · rename_i s3 hrm
            injection h with h; subst h
            exact ((h0.then_cfg h1).then_cfg h2).then_cfg (removeRunningTask_cfg hrm)
        · injection h with h; subst h
          exact (h0.then_cfg h1).then_cfg h2
      · injection h with h; subst h
        exact h0.then_cfg h1
  · injection h with h; subst h; exact SameCfg.rfl_cfg s

theorem removeTask_cfg {s : OmafCurlMultiDownloader} {task : Option Nat} {c : Curl}
    {r : OMAF_STATUS × OmafCurlMultiDownloader}
    (h : removeTask s task c = some r) : SameCfg s r.2 := by
  unfold removeTask at h
  cases task with
  | none => simp only at h; injection h with h; subst h; exact SameCfg.rfl_cfg s
  | some t =>
    simp only at h
    have h1 : SameCfg s (if (s.heap t).state_ = State.READY then removeReadyTask s t else s) := by
      split
      · exact removeReadyTask_cfg s t
      · exact SameCfg.rfl_cfg s
    generalize (if (s.heap t).state_ = State.READY then removeReadyTask s t else s) = s1 at h h1
    by_cases hs : (s1.heap t).state_ = State.RUNNING
    · simp only [hs, if_true] at h
      cases hrm : removeRunningTask s1 t c with
      | none => simp [hrm] at h
      | some s2 =>
        simp only [hrm] at h
        injection h with h; subst h
        exact (h1.then_cfg (removeRunningTask_cfg hrm)).then_cfg
          ⟨rfl, rfl, rfl, rfl, fun _ => ⟨rfl, rfl⟩⟩
    · simp only [hs] at h
      injection h with h; subst h
      exact h1.then_cfg ⟨rfl, rfl, rfl, rfl, fun _ => ⟨rfl, rfl⟩⟩

theorem step_cfg {s s1 : OmafCurlMultiDownloader} {op : Op}
    (h : step s op = some s1) : SameCfg s s1 := by
  cases op with
  | addTask task =>
    simp only [step] at h
    injection h with h; subst h
    exact addTask_cfg s task
  | removeTask task c =>
    simp only [step] at h
    cases hr : removeTask s task c with
    | none => simp [hr] at h
    | some r =>
      simp [hr] at h; subst h
      exact removeTask_cfg hr
  | startTaskDownload c =>
    simp only [step] at h
    cases hr : startTaskDownload s c with
    | none => simp [hr] at h
    | some r =>
      simp [hr] at h; subst h
      exact startTaskDownload_cfg hr
  | chunk t n =>
    simp only [step] at h
    injection h with h; subst h
    exact onStreamBlock_cfg s t n
  | done m c =>
    simp only [step] at h
    exact processMsg_cfg h

theorem reachable_cfg {P dflt B : Int} {cb : Bool} {url : Nat → String} {dcb : Nat → Bool}
    {s : OmafCurlMultiDownloader} (h : Reachable P dflt B cb url dcb s) :
    SameCfg (init P dflt B cb (freshHeap url dcb)) s := by
  induction h with
  | init => exact SameCfg.rfl_cfg _
  | step s s1 op _ _ hs ih => exact ih.then_cfg (step_cfg hs)

theorem mapErase_length_lt (m : List (Nat × Nat)) (h x : Nat) (hf : mapFind m h = some x) :
    (mapErase m h).length < m.length := by
  have hm := mapFind_some_mem m h x hf
  unfold mapErase
  apply List.length_filter_lt_length_iff_exists.mpr
  exact ⟨(h, x), hm, by simp⟩

theorem createTransfer_map (s : OmafCurlMultiDownloader) (t : Nat) (c : Curl) :
    (createTransfer s t c).2.run_task_map_ = s.run_task_map_ ∧
    (createTransfer s t c).2.max_parallel_transfers_ = s.max_parallel_transfers_ := by
  unfold createTransfer
  split
  · exact ⟨rfl, rfl⟩
  · exact ⟨rfl, rfl⟩
  · split <;> exact ⟨rfl, rfl⟩

theorem startTransfer_map (s : OmafCurlMultiDownloader) (t : Nat) (c : Curl) :
    (startTransfer s t c).2.run_task_map_.length ≤ s.run_task_map_.length + 1 ∧
    (startTransfer s t c).2.max_parallel_transfers_ = s.max_parallel_transfers_ := by
  unfold startTransfer
  split
  · exact ⟨Nat.le_succ _, rfl⟩
  · split
    · split
      · refine ⟨?_, rfl⟩
        show (mapInsert s.run_task_map_ _ t).length ≤ _
        simp only [mapInsert, List.length_cons]
        exact Nat.succ_le_succ (mapErase_length_le _ _)
      · exact ⟨Nat.le_succ _, rfl⟩
    · exact ⟨Nat.le_succ _, rfl⟩

theorem processTaskDone_map (s : OmafCurlMultiDownloader) (t : Nat) :
    (processTaskDone s t).run_task_map_ = s.run_task_map_ ∧
    (processTaskDone s t).max_parallel_transfers_ = s.max_parallel_transfers_ := by
  unfold processTaskDone
  cases hd : (s.heap t).easy_downloader_ with
  | none => simp only [hd]; split <;> exact ⟨rfl, rfl⟩
  | some d =>
    simp only [hd]
    cases hp : s.downloader_pool_ with
    | none => simp only [hp]; split <;> exact ⟨rfl, rfl⟩
    | some p => simp only [hp]; split <;> exact ⟨rfl, rfl⟩

theorem moveTaskFromRun_map {s s1 : OmafCurlMultiDownloader} {t : Nat} {st : State}
    (h : moveTaskFromRun s t st = some s1) :
    s1.run_task_map_.length ≤ s.run_task_map_.length ∧
    s1.max_parallel_transfers_ = s.max_parallel_transfers_ ∧
    (Inv s → t ∈ runningTasks s → s1.run_task_map_.length + 1 ≤ s.run_task_map_.length) := by
  unfold moveTaskFromRun at h
  split at h
  · cases h
  · rename_i d hd
    split at h
    · rename_i x hf
      injection h with h; subst h
      exact ⟨mapErase_length_le _ _, rfl, fun _ _ => mapErase_length_lt _ _ x hf⟩
    · rename_i hf
      injection h with h; subst h
      refine ⟨le_refl _, rfl, ?_⟩
      intro hI hm
      exfalso
      obtain ⟨h1, hm1⟩ := (mem_mapTasks _ _).mp hm
      have h2 := hI.own h1 t hm1
      rw [hd] at h2; injection h2 with h3; subst h3
      exact mapFind_none_not_mem _ _ hf t hm1

theorem removeRunningTask_map {s s1 : OmafCurlMultiDownloader} {t : Nat} {c : Curl}
    (h : removeRunningTask s t c = some s1) :
    s1.run_task_map_.length ≤ s.run_task_map_.length ∧
    s1.max_parallel_transfers_ = s.max_parallel_transfers_ := by
  unfold removeRunningTask at h
  cases hm : moveTaskFromRun s t State.STOPPED with
  | none => simp [hm] at h
  | some s2 =>
    simp only [hm] at h
    cases hr : removeTransfer s2 t c with
    | none => simp [hr] at h
    | some x =>
      simp only [hr] at h
      injection h with h; subst h
      exact ⟨(moveTaskFromRun_map hm).1, (moveTaskFromRun_map hm).2.1⟩

theorem removeReadyTask_map (s : OmafCurlMultiDownloader) (t : Nat) :
    (removeReadyTask s t).run_task_map_ = s.run_task_map_ ∧
    (removeReadyTask s t).max_parallel_transfers_ = s.max_parallel_transfers_ := by
  unfold removeReadyTask
  split <;> exact ⟨rfl, rfl⟩

theorem onStreamBlock_map (s : OmafCurlMultiDownloader) (t n : Nat) :
    (onStreamBlock s t n).run_task_map_ = s.run_task_map_ ∧
    (onStreamBlock s t n).max_parallel_transfers_ = s.max_parallel_transfers_ := by
  unfold onStreamBlock
  split <;> exact ⟨rfl, rfl⟩

theorem processMsg_bounded {s s1 : OmafCurlMultiDownloader} {m : Completion} {c : Curl}
    (hI : Inv s) (h : processMsg s m c = some s1) :
    s1.run_task_map_.length ≤ s.run_task_map_.length ∧
    s1.max_parallel_transfers_ = s.max_parallel_transfers_ := by
  unfold processMsg at h
  by_cases hd : m.msg_done = true
  · simp only [hd, if_true] at h
    cases hf : mapFind s.run_task_map_ m.easy_handle with
    | none => simp only [hf] at h; injection h with h; subst h; exact ⟨le_refl _, rfl⟩
    | some t =>
      simp only [hf] at h
      have ht : t ∈ runningTasks s :=
        (mem_mapTasks _ _).mpr ⟨_, mapFind_some_mem _ _ _ hf⟩
      cases hr : removeTransfer s t c with
      | none => simp [hr] at h
      | some x =>
        simp only [hr] at h
        split at h
        · unfold markTaskFinish at h
          cases hm : moveTaskFromRun s t State.FINISH with
          | none => simp [hm] at h
          | some s2 =>
            simp only [hm] at h
            injection h with h; subst h
            have h1 := moveTaskFromRun_map hm
            have h2 := processTaskDone_map s2 t
            exact ⟨by rw [h2.1]; exact h1.1, by rw [h2.2]; exact h1.2.1⟩
        · unfold markTaskTimeout at h
          cases hm : moveTaskFromRun s t State.TIMEOUT with
          | none => simp [hm] at h
          | some s2 =>
            simp only [hm] at h
            have h1 := moveTaskFromRun_map hm
            split at h
            · injection h with h; subst h
              have h2 := startTransfer_map { s2 with restart_log := t :: s2.restart_log } t c
              have h3 := h1.2.2 hI ht
              refine ⟨le_trans h2.1 h3, ?_⟩
              rw [h2.2]; exact h1.2.1
            · injection h with h; subst h
              have h2 := processTaskDone_map s2 t
              exact ⟨by rw [h2.1]; exact h1.1, by rw [h2.2]; exact h1.2.1⟩
  · simp only [hd] at h
    injection h with h; subst h; exact ⟨le_refl _, rfl⟩

theorem startTaskDownload_bounded {s : OmafCurlMultiDownloader} {c : Curl}
    {r : OMAF_STATUS × OmafCurlMultiDownloader}
    (hb : Bounded s) (h : startTaskDownload s c = some r) : Bounded r.2 := by
  unfold startTaskDownload at h
  split at h
  · rename_i hlt
    cases hq : s.ready_task_list_ with
    | nil => simp only [hq] at h; injection h with h; subst h; exact hb
    | cons t rest =>
      simp only [hq] at h
      have h1 := createTransfer_map { s with ready_task_list_ := rest } t c
      have h2 := startTransfer_map (createTransfer { s with ready_task_list_ := rest } t c).2 t c
      have hb2 : Bounded (createTransfer { s with ready_task_list_ := rest } t c).2 := by
        unfold Bounded; rw [h1.1, h1.2]; exact hb
      have hb3 : Bounded
          (startTransfer (createTransfer { s with ready_task_list_ := rest } t c).2 t c).2 := by
        unfold Bounded
        rw [h2.2, h1.2]
        refine le_trans h2.1 ?_
        rw [h1.1]
        exact hlt
      split at h
      · split at h
        · cases hrm : removeRunningTask
              (startTransfer (createTransfer { s with ready_task_list_ := rest } t c).2 t c).2 t c with
          | none => simp [hrm] at h
          | some s3 =>
            simp only [hrm] at h
            injection h with h; subst h
            have h4 := removeRunningTask_map hrm
            unfold Bounded
            rw [h4.2]
            exact le_trans h4.1 hb3
        · injection h with h; subst h; exact hb3
      · injection h with h; subst h; exact hb2
  · injection h with h; subst h; exact hb

theorem removeTask_bounded {s : OmafCurlMultiDownloader} {task : Option Nat} {c : Curl}
    {r : OMAF_STATUS × OmafCurlMultiDownloader}
    (hb : Bounded s) (h : removeTask s task c = some r) : Bounded r.2 := by
  unfold removeTask at h
  cases task with
  | none => simp only at h; injection h with h; subst h; exact hb
  | some t =>
    simp only at h
    have hb1 : Bounded (if (s.heap t).state_ = State.READY then removeReadyTask s t else s) := by
      split
      · unfold Bounded
        rw [(removeReadyTask_map s t).1, (removeReadyTask_map s t).2]; exact hb
      · exact hb
    generalize (if (s.heap t).state_ = State.READY then removeReadyTask s t else s) = s1 at h hb1
    by_cases hs : (s1.heap t).state_ = State.RUNNING
    · simp only [hs, if_true] at h
      cases hrm : removeRunningTask s1 t c with
      | none => simp [hrm] at h
      | some s2 =>
        simp only [hrm] at h
        injection h with h; subst h
        have h4 := removeRunningTask_map hrm
        unfold Bounded
        show s2.run_task_map_.length ≤ toSizeT s2.max_parallel_transfers_
        rw [h4.2]
        exact le_trans h4.1 hb1
    · simp only [hs] at h
      injection h with h; subst h
      exact hb1

theorem step_bounded {s s1 : OmafCurlMultiDownloader} {op : Op}
    (hI : Inv s) (hb : Bounded s) (h : step s op = some s1) : Bounded s1 := by
  cases op with
  | addTask task =>
    simp only [step] at h
    injection h with h; subst h
    cases task with
    | none => exact hb
    | some t => exact hb
  | removeTask task c =>
    simp only [step] at h
    cases hr : removeTask s task c with
    | none => simp [hr] at h
    | some r =>
      simp [hr] at h; subst h
      exact removeTask_bounded hb hr
  | startTaskDownload c =>
    simp only [step] at h
    cases hr : startTaskDownload s c with
    | none => simp [hr] at h
    | some r =>
      simp [hr] at h; subst h
      exact startTaskDownload_bounded hb hr
  | chunk t n =>
    simp only [step] at h
    injection h with h; subst h
    unfold Bounded
    rw [(onStreamBlock_map s t n).1, (onStreamBlock_map s t n).2]; exact hb
  | done m c =>
    simp only [step] at h
    have := processMsg_bounded hI h
    unfold Bounded
    rw [this.2]; exact le_trans this.1 hb

theorem reachable_bounded {P dflt B : Int} {cb : Bool} {url : Nat → String} {dcb : Nat → Bool}
    {s : OmafCurlMultiDownloader} (h : Reachable P dflt B cb url dcb s) : Bounded s := by
  induction h with
  | init => exact Nat.zero_le _
  | step s s1 op hr _ hs ih => exact step_bounded (reachable_inv hr) ih hs

/-- For a constructor value `P` with `0 < P < 2 ^ 63` the running map never holds more
than `P` tasks, which is then also `max_parallel_`. -/
theorem running_le_of_pos {P dflt B : Int} {cb : Bool} {url : Nat → String} {dcb : Nat → Bool}
    {s : OmafCurlMultiDownloader} (h : Reachable P dflt B cb url dcb s)
    (h0 : 0 < P) (h1 : P < 2 ^ 63) :
    (s.run_task_map_.length : Int) ≤ P ∧ s.max_parallel_ = P := by
  have hb := reachable_bounded h
  have hc := reachable_cfg h
  unfold Bounded at hb
  rw [hc.1] at hb
  have e : toSizeT (init P dflt B cb (freshHeap url dcb)).max_parallel_transfers_ = P.toNat := by
    show (P % 2 ^ 64).toNat = P.toNat
    rw [Int.emod_eq_of_lt (le_of_lt h0) (by omega)]
  rw [e] at hb
  refine ⟨by omega, ?_⟩
  rw [hc.2.1]
  simp [init, h0]

theorem sampleRunning_reachable :
    Reachable 2 4 1 true sampleUrl sampleDcb sampleRunning :=
  Reachable.step _ _ (Op.startTaskDownload allOk)
    (Reachable.step _ _ (Op.addTask (some 0)) Reachable.init (by decide) rfl)
    trivial rfl

theorem mapFind_of_mem (m : List (Nat × Nat)) (h t : Nat) (hm : (h, t) ∈ m) :
    ∃ x, mapFind m h = some x := by
  cases hf : mapFind m h with
  | none => exact absurd hm (mapFind_none_not_mem m h hf t)
  | some x => exact ⟨x, rfl⟩

theorem moveTaskFromRun_running {s : OmafCurlMultiDownloader} {t : Nat} (st : State)
    (hI : Inv s) (ht : t ∈ runningTasks s) :
    ∃ h, (s.heap t).easy_downloader_ = some h ∧ (h, t) ∈ s.run_task_map_ ∧
      moveTaskFromRun s t st = some { s with
        run_task_map_ := mapErase s.run_task_map_ h
        heap := setTask s.heap t { s.heap t with state_ := st } } := by
  obtain ⟨h, hm⟩ := (mem_mapTasks _ _).mp ht
  have hd := hI.own h t hm
  obtain ⟨x, hx⟩ := mapFind_of_mem _ _ _ hm
  refine ⟨h, hd, hm, ?_⟩
  unfold moveTaskFromRun
  simp only [hd, hx]

theorem startTransfer_logs {s : OmafCurlMultiDownloader} {t d : Nat} (c : Curl)
    (hd : (s.heap t).easy_downloader_ = some d) :
    (startTransfer s t c).2.restart_log = s.restart_log ∧
    (startTransfer s t c).2.done_log = s.done_log ∧
    (startTransfer s t c).2.chunk_log = s.chunk_log ∧
    (startTransfer s t c).2.start_log = ⟨t, (s.heap t).stream_size_, -1⟩ :: s.start_log := by
  unfold startTransfer
  split
  · rename_i h; rw [hd] at h; cases h
  · split
    · split
      · exact ⟨rfl, rfl, rfl, rfl⟩
      · exact ⟨rfl, rfl, rfl, rfl⟩
    · exact ⟨rfl, rfl, rfl, rfl⟩

theorem processTaskDone_logs (s : OmafCurlMultiDownloader) (t : Nat) :
    (processTaskDone s t).restart_log = s.restart_log ∧
    (processTaskDone s t).start_log = s.start_log ∧
    (processTaskDone s t).chunk_log = s.chunk_log ∧
    (processTaskDone s t).run_task_map_ = s.run_task_map_ ∧
    ((processTaskDone s t).heap t).easy_downloader_ = none ∧
    ((processTaskDone s t).heap t).state_ = (s.heap t).state_ ∧
    (processTaskDone s t).task_size_ = s.task_size_ - 1 ∧
    (s.task_done_cb_ = true → (processTaskDone s t).done_log =
      ⟨t, (processTaskDone s t).heap t, s.task_size_ - 1,
        (processTaskDone s t).downloader_pool_⟩ :: s.done_log) ∧
    (s.task_done_cb_ = false → (processTaskDone s t).done_log = s.done_log) := by
  unfold processTaskDone
  cases hd : (s.heap t).easy_downloader_ with
  | none =>
    cases hcb : s.task_done_cb_ with
    | false => simp [hd, hcb]
    | true => simp [hd, hcb]
  | some d =>
    cases hp : s.downloader_pool_ with
    | none =>
      cases hcb : s.task_done_cb_ with
      | false => simp [hd, hcb, hp]
      | true => simp [hd, hcb, hp]
    | some p =>
      cases hcb : s.task_done_cb_ with
      | false => simp [hd, hcb, hp]
      | true => simp [hd, hcb, hp]

/-- What `markTaskTimeout` does to a task of the running map. -/
theorem markTaskTimeout_running {s : OmafCurlMultiDownloader} {t : Nat} (c : Curl)
    (hI : Inv s) (ht : t ∈ runningTasks s) :
    ∃ s1, markTaskTimeout s t c = some s1 ∧
      (((s.heap t).transfer_times_ : Int) < s.retry_times_ →
        s1.restart_log = t :: s.restart_log ∧ s1.done_log = s.done_log ∧
        s1.start_log = ⟨t, (s.heap t).stream_size_, -1⟩ :: s.start_log) ∧
      (¬ ((s.heap t).transfer_times_ : Int) < s.retry_times_ →
        s1.restart_log = s.restart_log ∧ s1.start_log = s.start_log ∧
        t ∉ runningTasks s1 ∧ (s1.heap t).easy_downloader_ = none ∧
        (s1.heap t).state_ = State.TIMEOUT ∧
        (s.task_done_cb_ = true → ∃ e, s1.done_log = e :: s.done_log ∧ e.task = t)) := by
  obtain ⟨h, hd, hm, hmv⟩ := moveTaskFromRun_running State.TIMEOUT hI ht
  have hn := (InvC.erase hI t h State.TIMEOUT hd).2
  by_cases hB : ((s.heap t).transfer_times_ : Int) < s.retry_times_
  · have e : markTaskTimeout s t c = some (startTransfer
        { s with
          run_task_map_ := mapErase s.run_task_map_ h
          heap := setTask s.heap t { s.heap t with state_ := State.TIMEOUT }
          restart_log := t :: s.restart_log } t c).2 := by
      unfold markTaskTimeout
      rw [hmv]
      simp only [setTask_same]
      exact if_pos hB
    refine ⟨_, e, fun _ => ?_, fun hc => absurd hB hc⟩
    have hl := startTransfer_logs (s := { s with
          run_task_map_ := mapErase s.run_task_map_ h
          heap := setTask s.heap t { s.heap t with state_ := State.TIMEOUT }
          restart_log := t :: s.restart_log }) (t := t) (d := h) c (by simp [hd])
    refine ⟨hl.1, hl.2.1, ?_⟩
    rw [hl.2.2.2]
    simp
  · have e : markTaskTimeout s t c = some (processTaskDone
        { s with
          run_task_map_ := mapErase s.run_task_map_ h
          heap := setTask s.heap t { s.heap t with state_ := State.TIMEOUT } } t) := by
      unfold markTaskTimeout
      rw [hmv]
      simp only [setTask_same]
      exact if_neg hB
    refine ⟨_, e, fun hc => absurd hc hB, fun _ => ?_⟩
    have hl := processTaskDone_logs { s with
          run_task_map_ := mapErase s.run_task_map_ h
          heap := setTask s.heap t { s.heap t with state_ := State.TIMEOUT } } t
    refine ⟨hl.1, hl.2.1, ?_, hl.2.2.2.2.1, ?_, ?_⟩
    · show t ∉ mapTasks _
      rw [hl.2.2.2.1]; exact hn
    · rw [hl.2.2.2.2.2.1]; simp
    · intro hcb
      exact ⟨_, hl.2.2.2.2.2.2.2.1 hcb, rfl⟩

/-- C3: over any execution a task is restarted at most `B` times (`B` the retry
budget `retry_times_`); a failed attempt of a running task is restarted, without
callback, exactly when its attempt counter `transfer_times_` is below `B`, and
otherwise, in particular once the task has been restarted `B` times, it is finalised
and handed to the completion callback. -/
theorem restarts_le_retry_budget (P dflt B : Int) (cb : Bool) (url : Nat → String)
    (dcb : Nat → Bool) (s : OmafCurlMultiDownloader)
    (hr : Reachable P dflt B cb url dcb s) (t : Nat) :
    (s.restart_log.count t : Int) ≤ max B 0 ∧
    (t ∈ runningTasks s → ∀ c, ∃ s1, markTaskTimeout s t c = some s1 ∧
      (((s.heap t).transfer_times_ : Int) < B →
        s1.restart_log = t :: s.restart_log ∧ s1.done_log = s.done_log ∧
        s1.start_log = ⟨t, (s.heap t).stream_size_, -1⟩ :: s.start_log) ∧
      ((¬ ((s.heap t).transfer_times_ : Int) < B ∨ B ≤ (s.restart_log.count t : Int)) →
        s1.restart_log = s.restart_log ∧ s1.start_log = s.start_log ∧
        t ∉ runningTasks s1 ∧
        (cb = true → ∃ e, s1.done_log = e :: s.done_log ∧ e.task = t))) := by
  have hI := reachable_inv hr
  have hc := reachable_cfg hr
  have hB : s.retry_times_ = B := hc.2.2.1
  have hcb : s.task_done_cb_ = cb := hc.2.2.2.1
  constructor
  · rcases hI.restarts_budget t with h | h
    · rw [h]; simp
    · rw [hB] at h; exact le_trans h (le_max_left _ _)
  · intro ht c
    obtain ⟨s1, h1, h2, h3⟩ := markTaskTimeout_running c hI ht
    rw [hB] at h2 h3
    refine ⟨s1, h1, h2, ?_⟩
    intro h
    have hnot : ¬ ((s.heap t).transfer_times_ : Int) < B := by
      rcases h with h | h
      · exact h
      · have := hI.restarts_lt t ht
        omega
    obtain ⟨a, b, c1, _, _, e⟩ := h3 hnot
    exact ⟨a, b, c1, fun hx => e (hcb.trans hx)⟩

theorem restarts_le_retry_budget_witness :
    Reachable 2 4 1 true sampleUrl sampleDcb sampleRunning ∧
    ((sampleRunning.restart_log.count 0 : Int) ≤ max 1 0 ∧
    (0 ∈ runningTasks sampleRunning → ∀ c, ∃ s1, markTaskTimeout sampleRunning 0 c = some s1 ∧
      (((sampleRunning.heap 0).transfer_times_ : Int) < 1 →
        s1.restart_log = 0 :: sampleRunning.restart_log ∧ s1.done_log = sampleRunning.done_log ∧
        s1.start_log = ⟨0, (sampleRunning.heap 0).stream_size_, -1⟩ :: sampleRunning.start_log) ∧
      ((¬ ((sampleRunning.heap 0).transfer_times_ : Int) < 1 ∨
          (1 : Int) ≤ (sampleRunning.restart_log.count 0 : Int)) →
        s1.restart_log = sampleRunning.restart_log ∧ s1.start_log = sampleRunning.start_log ∧
        0 ∉ runningTasks s1 ∧
        (true = true → ∃ e, s1.done_log = e :: sampleRunning.done_log ∧ e.task = 0)))) :=
  ⟨sampleRunning_reachable,
    restarts_le_retry_budget 2 4 1 true sampleUrl sampleDcb sampleRunning
      sampleRunning_reachable 0⟩

theorem sampleStreaming_reachable :
    Reachable 2 4 2 true sampleUrl sampleDcb sampleStreaming :=
  Reachable.step _ _ (Op.chunk 0 900)
    (Reachable.step _ _ (Op.startTaskDownload allOk)
      (Reachable.step _ _ (Op.addTask (some 0)) Reachable.init (by decide) rfl)
      trivial rfl)
    (by decide) rfl

/-- The first start of a sample task: task 0, pending and with no byte received, is
started from offset 0 with the open upper bound. -/
theorem first_start_sample :
    (startTaskDownload sampleTwoReady allOk).map (fun r => r.2.start_log) =
      some [⟨0, 0, -1⟩] := by
  decide

theorem startTransfer_state (s : OmafCurlMultiDownloader) (t : Nat) (c : Curl) :
    ((startTransfer s t c).2.heap t).state_ = State.RUNNING ∨
    ((startTransfer s t c).2.heap t).state_ = (s.heap t).state_ := by
  unfold startTransfer
  split
  · right; rfl
  · split
    · split
      · left; simp
      · right; rfl
    · right; rfl

theorem markTaskTimeout_state {s s1 : OmafCurlMultiDownloader} {t : Nat} {c : Curl}
    (hI : Inv s) (ht : t ∈ runningTasks s) (h : markTaskTimeout s t c = some s1) :
    (s1.heap t).state_ = State.RUNNING ∨ (s1.heap t).state_ = State.TIMEOUT := by
  obtain ⟨d, hd, hm, hmv⟩ := moveTaskFromRun_running State.TIMEOUT hI ht
  unfold markTaskTimeout at h
  rw [hmv] at h
  simp only at h
  split at h
  · injection h with h; subst h
    rcases startTransfer_state { s with
        run_task_map_ := mapErase s.run_task_map_ d
        heap := setTask s.heap t { s.heap t with state_ := State.TIMEOUT }
        restart_log := t :: s.restart_log } t c with h1 | h1
    · left; exact h1
    · right; rw [h1]; simp
  · injection h with h; subst h
    right
    rw [(processTaskDone_logs _ t).2.2.2.2.2.1]; simp

/-- What `markTaskFinish` does to a task of the running map. -/
theorem markTaskFinish_running {s : OmafCurlMultiDownloader} {t : Nat}
    (hI : Inv s) (ht : t ∈ runningTasks s) :
    ∃ s1, markTaskFinish s t = some s1 ∧ (s1.heap t).state_ = State.FINISH ∧
      t ∉ runningTasks s1 ∧ (s1.heap t).easy_downloader_ = none ∧
      s1.task_size_ = s.task_size_ - 1 ∧
      s1.restart_log = s.restart_log ∧ s1.start_log = s.start_log ∧
      (s.task_done_cb_ = true → ∃ e, s1.done_log = e :: s.done_log ∧ e.task = t ∧
        e.snap.state_ = State.FINISH ∧ e.snap.easy_downloader_ = none ∧
        e.task_size = s.task_size_ - 1) := by
  obtain ⟨d, hd, hm, hmv⟩ := moveTaskFromRun_running State.FINISH hI ht
  have hn := (InvC.erase hI t d State.FINISH hd).2
  have e : markTaskFinish s t = some (processTaskDone
      { s with
        run_task_map_ := mapErase s.run_task_map_ d
        heap := setTask s.heap t { s.heap t with state_ := State.FINISH } } t) := by
    unfold markTaskFinish
    rw [hmv]
  have hl := processTaskDone_logs { s with
        run_task_map_ := mapErase s.run_task_map_ d
        heap := setTask s.heap t { s.heap t with state_ := State.FINISH } } t
  obtain ⟨l1, l2, _, l4, l5, l6, l7, l8, _⟩ := hl
  refine ⟨_, e, ?_, ?_, l5, l7, l1, l2, ?_⟩
  · rw [l6]; simp
  · show t ∉ mapTasks _
    rw [l4]; exact hn
  · intro hcb
    refine ⟨_, l8 hcb, rfl, ?_, l5, rfl⟩
    show ((processTaskDone _ t).heap t).state_ = State.FINISH
    rw [l6]; simp

/-- C5: a completion notification for the handle of a task of the running map takes
the success path `markTaskFinish` (state FINISH, handed to the completion callback)
if and only if the HTTP status is a success code and the declared content length
equals the received-byte count; in every other case it takes `markTaskTimeout`. -/
theorem completion_classification (P dflt B : Int) (cb : Bool) (url : Nat → String)
    (dcb : Nat → Bool) (s : OmafCurlMultiDownloader)
    (hr : Reachable P dflt B cb url dcb s) (m : Completion) (c : Curl) (t : Nat)
    (hd : m.msg_done = true) (hf : mapFind s.run_task_map_ m.easy_handle = some t) :
    ∃ s1, processMsg s m c = some s1 ∧
      ((s1.heap t).state_ = State.FINISH ↔
        (m.http_ok = true ∧ m.content_length_ = ((s.heap t).stream_size_ : Int))) ∧
      ((m.http_ok = true ∧ m.content_length_ = ((s.heap t).stream_size_ : Int)) →
        markTaskFinish s t = some s1 ∧ t ∉ runningTasks s1 ∧
        (cb = true → ∃ e, s1.done_log = e :: s.done_log ∧ e.task = t ∧
          e.snap.state_ = State.FINISH)) ∧
      (¬ (m.http_ok = true ∧ m.content_length_ = ((s.heap t).stream_size_ : Int)) →
        markTaskTimeout s t c = some s1) := by
  have hI := reachable_inv hr
  have hcb : s.task_done_cb_ = cb := (reachable_cfg hr).2.2.2.1
  have ht : t ∈ runningTasks s := (mem_mapTasks _ _).mpr ⟨_, mapFind_some_mem _ _ _ hf⟩
  obtain ⟨d, hdl, _, _⟩ := moveTaskFromRun_running State.FINISH hI ht
  have hrt : ∃ x, removeTransfer s t c = some x := by
    unfold removeTransfer
    rw [hdl]
    by_cases h : c.remove_ok = true
    · exact ⟨_, if_pos h⟩
    · exact ⟨_, if_neg h⟩
  obtain ⟨x, hx⟩ := hrt
  by_cases hc : m.http_ok = true ∧ m.content_length_ = ((s.heap t).stream_size_ : Int)
  · obtain ⟨s1, h1, h2, h3, _, _, _, _, h4⟩ := markTaskFinish_running hI ht
    have e : processMsg s m c = some s1 := by
      unfold processMsg
      rw [if_pos hd, hf]
      simp only [hx]
      rw [if_pos hc]; exact h1
    refine ⟨s1, e, ⟨fun _ => hc, fun _ => h2⟩, fun _ => ⟨h1, h3, fun hx => ?_⟩,
      fun hn => absurd hc hn⟩
    obtain ⟨ev, a, b, c1, _⟩ := h4 (hcb.trans hx)
    exact ⟨ev, a, b, c1⟩
  · obtain ⟨s1, h1, _⟩ := markTaskTimeout_running c hI ht
    have e : processMsg s m c = some s1 := by
      unfold processMsg
      rw [if_pos hd, hf]
      simp only [hx]
      rw [if_neg hc]; exact h1
    refine ⟨s1, e, ⟨fun hs => ?_, fun h => absurd h hc⟩, fun h => absurd h hc, fun _ => h1⟩
    rcases markTaskTimeout_state hI ht h1 with h2 | h2
    · rw [h2] at hs; cases hs
    · rw [h2] at hs; cases hs

theorem completion_classification_witness :
    Reachable 2 4 2 true sampleUrl sampleDcb sampleStreaming ∧
    sampleDone.msg_done = true ∧
    mapFind sampleStreaming.run_task_map_ sampleDone.easy_handle = some 0 ∧
    ∃ s1, processMsg sampleStreaming sampleDone allOk = some s1 ∧
      ((s1.heap 0).state_ = State.FINISH ↔
        (sampleDone.http_ok = true ∧
          sampleDone.content_length_ = ((sampleStreaming.heap 0).stream_size_ : Int))) ∧
      ((sampleDone.http_ok = true ∧
          sampleDone.content_length_ = ((sampleStreaming.heap 0).stream_size_ : Int)) →
        markTaskFinish sampleStreaming 0 = some s1 ∧ 0 ∉ runningTasks s1 ∧
        (true = true → ∃ e, s1.done_log = e :: sampleStreaming.done_log ∧ e.task = 0 ∧
          e.snap.state_ = State.FINISH)) ∧
      (¬ (sampleDone.http_ok = true ∧
          sampleDone.content_length_ = ((sampleStreaming.heap 0).stream_size_ : Int)) →
        markTaskTimeout sampleStreaming 0 allOk = some s1) :=
  ⟨sampleStreaming_reachable, rfl, by decide,
    completion_classification 2 4 2 true sampleUrl sampleDcb sampleStreaming
      sampleStreaming_reachable sampleDone allOk 0 rfl (by decide)⟩

theorem createTransfer_silent {t k1 k2 k3 : Nat} {s : OmafCurlMultiDownloader} (u : Nat)
    (c : Curl) (hu : u ≠ t) (h : Silent t k1 k2 k3 s) :
    Silent t k1 k2 k3 (createTransfer s u c).2 := by
  unfold createTransfer
  split
  · exact h
  · exact h
  · split
    · obtain ⟨a, b, c1, d, e, f⟩ := h
      exact ⟨a, b, by show (setTask _ _ _ t).state_ = _; rw [setTask_ne _ _ _ _ hu.symm]; exact c1,
        d, e, f⟩
    · exact h

theorem not_mem_mapInsert {m : List (Nat × Nat)} {t u d : Nat} (hu : u ≠ t)
    (h : t ∉ mapTasks m) : t ∉ mapTasks (mapInsert m d u) := by
  intro hm
  obtain ⟨h1, hm1⟩ := (mem_mapTasks _ _).mp hm
  rcases List.mem_cons.mp hm1 with h2 | h2
  · injection h2 with _ h3; exact hu h3.symm
  · exact h ((mem_mapTasks _ _).mpr ⟨h1, ((mem_mapErase _ _ _ _).mp h2).1⟩)

theorem not_mem_mapErase {m : List (Nat × Nat)} {t d : Nat}
    (h : t ∉ mapTasks m) : t ∉ mapTasks (mapErase m d) := by
  intro hm
  obtain ⟨h1, hm1⟩ := (mem_mapTasks _ _).mp hm
  exact h ((mem_mapTasks _ _).mpr ⟨h1, ((mem_mapErase _ _ _ _).mp hm1).1⟩)

theorem startTransfer_silent {t k1 k2 k3 : Nat} {s : OmafCurlMultiDownloader} (u : Nat)
    (c : Curl) (hu : u ≠ t) (h : Silent t k1 k2 k3 s) :
    Silent t k1 k2 k3 (startTransfer s u c).2 := by
  obtain ⟨a, b, c1, d, e, f⟩ := h
  have hf : (List.filter (fun e => e.task == t)
      ((⟨u, (s.heap u).stream_size_, -1⟩ : StartEvent) :: s.start_log)).length = k3 := by
    rw [List.filter_cons_of_neg (by simpa using hu)]; exact f
  unfold startTransfer
  split
  · exact ⟨a, b, c1, d, e, f⟩
  · split
    · split
      · exact ⟨a, not_mem_mapInsert hu b,
          by show (setTask _ _ _ t).state_ = _; rw [setTask_ne _ _ _ _ hu.symm]; exact c1,
          d, e, hf⟩
      · exact ⟨a, b, c1, d, e, hf⟩
    · exact ⟨a, b, c1, d, e, hf⟩

theorem moveTaskFromRun_silent {t k1 k2 k3 : Nat} {s s1 : OmafCurlMultiDownloader} {u : Nat}
    {st : State} (hu : u ≠ t) (h : Silent t k1 k2 k3 s)
    (hm : moveTaskFromRun s u st = some s1) : Silent t k1 k2 k3 s1 := by
  obtain ⟨a, b, c1, d, e, f⟩ := h
  unfold moveTaskFromRun at hm
  split at hm
  · cases hm
  · split at hm
    · injection hm with hm; subst hm
      exact ⟨a, not_mem_mapErase b,
        by show (setTask _ _ _ t).state_ = _; rw [setTask_ne _ _ _ _ hu.symm]; exact c1,
        d, e, f⟩
    · injection hm with hm; subst hm
      exact ⟨a, b, c1, d, e, f⟩

theorem processTaskDone_frame (s : OmafCurlMultiDownloader) (u : Nat) :
    (processTaskDone s u).ready_task_list_ = s.ready_task_list_ ∧
    ∀ i, i ≠ u → (processTaskDone s u).heap i = s.heap i := by
  unfold processTaskDone
  cases hd : (s.heap u).easy_downloader_ with
  | none =>
    cases hcb : s.task_done_cb_ with
    | false => simp [hd, hcb]
    | true => simp [hd, hcb]
  | some d =>
    cases hp : s.downloader_pool_ with
    | none =>
      cases hcb : s.task_done_cb_ with
      | false => simp +contextual [hd, hcb, hp, setTask_ne]
      | true => simp +contextual [hd, hcb, hp, setTask_ne]
    | some p =>
      cases hcb : s.task_done_cb_ with
      | false => simp +contextual [hd, hcb, hp, setTask_ne]
      | true => simp +contextual [hd, hcb, hp, setTask_ne]

theorem processTaskDone_silent {t k1 k2 k3 : Nat} {s : OmafCurlMultiDownloader} (u : Nat)
    (hu : u ≠ t) (h : Silent t k1 k2 k3 s) : Silent t k1 k2 k3 (processTaskDone s u) := by
  obtain ⟨a, b, c1, d, e, f⟩ := h
  have hl := processTaskDone_logs s u
  have hf := processTaskDone_frame s u
  refine ⟨?_, ?_, ?_, ?_, ?_, ?_⟩
  · rw [hf.1]; exact a
  · show t ∉ mapTasks _
    rw [hl.2.2.2.1]; exact b
  · rw [hf.2 t hu.symm]; exact c1
  · unfold doneCount
    cases hcb : s.task_done_cb_ with
    | false => rw [hl.2.2.2.2.2.2.2.2 hcb]; exact d
    | true =>
      rw [hl.2.2.2.2.2.2.2.1 hcb, List.filter_cons_of_neg (by simpa using hu)]; exact d
  · rw [hl.1]; exact e
  · unfold startCount; rw [hl.2.1]; exact f

theorem removeReadyTask_silent {t k1 k2 k3 : Nat} {s : OmafCurlMultiDownloader} (u : Nat)
    (hu : u ≠ t) (h : Silent t k1 k2 k3 s) : Silent t k1 k2 k3 (removeReadyTask s u) := by
  obtain ⟨a, b, c1, d, e, f⟩ := h
  unfold removeReadyTask
  split
  · exact ⟨fun hm => a ((List.eraseP_sublist _).subset hm), b,
      by show (setTask _ _ _ t).state_ = _; rw [setTask_ne _ _ _ _ hu.symm]; exact c1,
      d, e, f⟩
  · exact ⟨a, b, c1, d, e, f⟩

theorem onStreamBlock_silent {t k1 k2 k3 : Nat} {s : OmafCurlMultiDownloader} (u n : Nat)
    (h : Silent t k1 k2 k3 s) : Silent t k1 k2 k3 (onStreamBlock s u n) := by
  obtain ⟨a, b, c1, d, e, f⟩ := h
  unfold onStreamBlock
  split
  · refine ⟨a, b, ?_, d, e, f⟩
    show (setTask _ _ _ t).state_ = _
    by_cases hu : t = u
    · subst hu; simp; exact c1
    · rw [setTask_ne _ _ _ _ hu]; exact c1
  · exact ⟨a, b, c1, d, e, f⟩

theorem removeRunningTask_silent {t k1 k2 k3 : Nat} {s s1 : OmafCurlMultiDownloader} {u : Nat}
    {c : Curl} (hu : u ≠ t) (h : Silent t k1 k2 k3 s)
    (hm : removeRunningTask s u c = some s1) : Silent t k1 k2 k3 s1 := by
  unfold removeRunningTask at hm
  cases hv : moveTaskFromRun s u State.STOPPED with
  | none => simp [hv] at hm
  | some s2 =>
    simp only [hv] at hm
    cases hr : removeTransfer s2 u c with
    | none => simp [hr] at hm
    | some x =>
      simp only [hr] at hm
      injection hm with hm; subst hm
      exact moveTaskFromRun_silent hu h hv

theorem markTaskFinish_silent {t k1 k2 k3 : Nat} {s s1 : OmafCurlMultiDownloader} {u : Nat}
    (hu : u ≠ t) (h : Silent t k1 k2 k3 s)
    (hm : markTaskFinish s u = some s1) : Silent t k1 k2 k3 s1 := by
  unfold markTaskFinish at hm
  cases hv : moveTaskFromRun s u State.FINISH with
  | none => simp [hv] at hm
  | some s2 =>
    simp only [hv] at hm
    injection hm with hm; subst hm
    exact processTaskDone_silent u hu (moveTaskFromRun_silent hu h hv)

theorem markTaskTimeout_silent {t k1 k2 k3 : Nat} {s s1 : OmafCurlMultiDownloader} {u : Nat}
    {c : Curl} (hu : u ≠ t) (h : Silent t k1 k2 k3 s)
    (hm : markTaskTimeout s u c = some s1) : Silent t k1 k2 k3 s1 := by
  unfold markTaskTimeout at hm
  cases hv : moveTaskFromRun s u State.TIMEOUT with
  | none => simp [hv] at hm
  | some s2 =>
    simp only [hv] at hm
    have h2 := moveTaskFromRun_silent hu h hv
    split at hm
    · injection hm with hm; subst hm
      apply startTransfer_silent u c hu
      obtain ⟨a, b, c1, d, e, f⟩ := h2
      refine ⟨a, b, c1, d, ?_, f⟩
      show (u :: s2.restart_log).count t = k2
      rw [List.count_cons_of_ne hu.symm]; exact e
    · injection hm with hm; subst hm
      exact processTaskDone_silent u hu h2

theorem step_silent {t k1 k2 k3 : Nat} {s s1 : OmafCurlMultiDownloader} {op : Op}
    (hop : op ≠ Op.addTask (some t)) (h : Silent t k1 k2 k3 s)
    (hs : step s op = some s1) : Silent t k1 k2 k3 s1 := by
  cases op with
  | addTask task =>
    simp only [step] at hs
    injection hs with hs; subst hs
    cases task with
    | none => exact h
    | some u =>
      have hu : u ≠ t := fun e => hop (by rw [e])
      obtain ⟨a, b, c1, d, e, f⟩ := h
      refine ⟨?_, b, ?_, d, e, f⟩
      · intro hm
        rcases List.mem_append.mp hm with h1 | h1
        · exact a h1
        · simp at h1; exact hu h1.symm
      · show (setTask _ _ _ t).state_ = _
        rw [setTask_ne _ _ _ _ hu.symm]; exact c1
  | removeTask task c =>
    simp only [step] at hs
    cases hr : removeTask s task c with
    | none => simp [hr] at hs
    | some r =>
      simp [hr] at hs; subst hs
      unfold removeTask at hr
      cases task with
      | none => simp only at hr; injection hr with hr; subst hr; exact h
      | some u =>
        simp only at hr
        by_cases hu : u = t
        · subst hu
          have e1 : ¬ (s.heap u).state_ = State.READY := by rw [h.2.2.1]; decide
          have e2 : ¬ (s.heap u).state_ = State.RUNNING := by rw [h.2.2.1]; decide
          rw [if_neg e1, if_neg e2] at hr
          injection hr with hr; subst hr
          exact h
        · have h1 : Silent t k1 k2 k3
              (if (s.heap u).state_ = State.READY then removeReadyTask s u else s) := by
            split
            · exact removeReadyTask_silent u hu h
            · exact h
          generalize (if (s.heap u).state_ = State.READY then removeReadyTask s u else s) = s2
            at hr h1
          by_cases hst : (s2.heap u).state_ = State.RUNNING
          · simp only [hst, if_true] at hr
            cases hrm : removeRunningTask s2 u c with
            | none => simp [hrm] at hr
            | some s3 =>
              simp only [hrm] at hr
              injection hr with hr; subst hr
              have h3 : Silent t k1 k2 k3 s3 := removeRunningTask_silent hu h1 hrm
              exact h3
          · simp only [hst] at hr
            injection hr with hr; subst hr
            exact h1
  | startTaskDownload c =>
    simp only [step] at hs
    cases hr : startTaskDownload s c with
    | none => simp [hr] at hs
    | some r =>
      simp [hr] at hs; subst hs
      unfold startTaskDownload at hr
      split at hr
      · split at hr
        · injection hr with hr; subst hr; exact h
        · rename_i u rest hq
          have hu : u ≠ t := fun e => h.1 (by rw [hq, e]; exact List.mem_cons_self _ _)
          have h0 : Silent t k1 k2 k3 { s with ready_task_list_ := rest } := by
            obtain ⟨a, b, c1, d, e, f⟩ := h
            exact ⟨fun hm => a (by rw [hq]; exact List.mem_cons_of_mem _ hm), b, c1, d, e, f⟩
          have h1 := createTransfer_silent u c hu h0
          have h2 := startTransfer_silent u c hu h1
          simp only at hr
          split at hr
          · split at hr
            · split at hr
              · cases hr
              · rename_i s3 hrm
                injection hr with hr; subst hr
                exact removeRunningTask_silent hu h2 hrm
            · injection hr with hr; subst hr; exact h2
          · injection hr with hr; subst hr; exact h1
      · injection hr with hr; subst hr; exact h
  | chunk u n =>
    simp only [step] at hs
    injection hs with hs; subst hs
    exact onStreamBlock_silent u n h
  | done m c =>
    simp only [step] at hs
    unfold processMsg at hs
    split at hs
    · split at hs
      · injection hs with hs; subst hs; exact h
      · rename_i u hf
        have hu : u ≠ t := by
          intro e
          exact h.2.1 ((mem_mapTasks _ _).mpr ⟨_, e ▸ mapFind_some_mem _ _ _ hf⟩)
        split at hs
        · cases hs
        · split at hs
          · exact markTaskFinish_silent hu h hs
          · exact markTaskTimeout_silent hu h hs
    · injection hs with hs; subst hs; exact h

theorem run_silent {t k1 k2 k3 : Nat} (ops : List Op) :
    ∀ (s s1 : OmafCurlMultiDownloader), (∀ op ∈ ops, op ≠ Op.addTask (some t)) →
      Silent t k1 k2 k3 s → run s ops = some s1 → Silent t k1 k2 k3 s1 := by
  induction ops with
  | nil =>
    intro s s1 _ h hr
    simp only [run] at hr
    injection hr with hr; subst hr; exact h
  | cons op ops ih =>
    intro s s1 hops h hr
    simp only [run] at hr
    cases hs : step s op with
    | none => simp [hs] at hr
    | some s2 =>
      simp only [hs] at hr
      exact ih s2 s1 (fun o ho => hops o (List.mem_cons_of_mem _ ho))
        (step_silent (hops op (List.mem_cons_self _ _)) h hs) hr

theorem removeTransfer_some {s : OmafCurlMultiDownloader} {t d : Nat} (c : Curl)
    (hd : (s.heap t).easy_downloader_ = some d) : ∃ x, removeTransfer s t c = some x := by
  unfold removeTransfer
  rw [hd]
  by_cases h : c.remove_ok = true
  · exact ⟨_, if_pos h⟩
  · exact ⟨_, if_neg h⟩

/-- Where the worker runs the loop body of `retriveDoneTask` without interruption
(`processMsg`): `removeTask` on a task of the running map returns success and leaves
the task STOPPED and out of the running map; whatever operations run afterwards,
short of adding the task again, and also a completion notification for its handle,
invoke no completion callback for it and neither restart nor start it. -/
theorem removeTask_running_silences (P dflt B : Int) (cb : Bool) (url : Nat → String)
    (dcb : Nat → Bool) (s : OmafCurlMultiDownloader)
    (hr : Reachable P dflt B cb url dcb s) (t : Nat) (c : Curl)
    (ht : t ∈ runningTasks s) :
    ∃ s1, removeTask s (some t) c = some (OMAF_STATUS.ERROR_NONE, s1) ∧
      (s1.heap t).state_ = State.STOPPED ∧ t ∉ runningTasks s1 ∧
      t ∉ s1.ready_task_list_ ∧
      ∀ ops s2, (∀ op ∈ ops, op ≠ Op.addTask (some t)) → run s1 ops = some s2 →
        (s2.heap t).state_ = State.STOPPED ∧ t ∉ runningTasks s2 ∧
        t ∉ s2.ready_task_list_ ∧ doneCount s2 t = doneCount s t ∧
        s2.restart_log.count t = s.restart_log.count t ∧
        startCount s2 t = startCount s t := by
  have hI := reachable_inv hr
  have hst := hI.running_state t ht
  obtain ⟨h, hd, hm, hmv⟩ := moveTaskFromRun_running State.STOPPED hI ht
  have hn := (InvC.erase hI t h State.STOPPED hd).2
  have hnr : t ∉ s.ready_task_list_ := fun hq => hI.ready_not_running t hq ht
  have e1 : ¬ (s.heap t).state_ = State.READY := by rw [hst]; decide
  have hrt : removeRunningTask s t c = some { s with
        run_task_map_ := mapErase s.run_task_map_ h
        heap := setTask s.heap t { s.heap t with state_ := State.STOPPED } } := by
    obtain ⟨x, hx⟩ := removeTransfer_some (s := { s with
        run_task_map_ := mapErase s.run_task_map_ h
        heap := setTask s.heap t { s.heap t with state_ := State.STOPPED } })
      (t := t) (d := h) c (by simp [hd])
    unfold removeRunningTask
    rw [hmv]
    simp only [hx]
  have e : removeTask s (some t) c = some (OMAF_STATUS.ERROR_NONE, { s with
        run_task_map_ := mapErase s.run_task_map_ h
        heap := setTask s.heap t { s.heap t with state_ := State.STOPPED }
        task_size_ := s.task_size_ - 1 }) := by
    unfold removeTask
    simp only [if_neg e1, if_pos hst, hrt]
  have hsil : Silent t (doneCount s t) (s.restart_log.count t) (startCount s t)
      { s with
        run_task_map_ := mapErase s.run_task_map_ h
        heap := setTask s.heap t { s.heap t with state_ := State.STOPPED }
        task_size_ := s.task_size_ - 1 } :=
    ⟨hnr, hn, by simp, rfl, rfl, rfl⟩
  refine ⟨_, e, hsil.2.2.1, hsil.2.1, hsil.1, ?_⟩
  intro ops s2 hops hrun
  obtain ⟨a, b, c1, d, e2, f⟩ := run_silent ops _ s2 hops hsil hrun
  exact ⟨c1, b, a, d, e2, f⟩

theorem removeTask_running_silences_witness :
    Reachable 2 4 1 true sampleUrl sampleDcb sampleRunning ∧ 0 ∈ runningTasks sampleRunning ∧
    ∃ s1, removeTask sampleRunning (some 0) allOk = some (OMAF_STATUS.ERROR_NONE, s1) ∧
      (s1.heap 0).state_ = State.STOPPED ∧ 0 ∉ runningTasks s1 ∧
      0 ∉ s1.ready_task_list_ ∧
      ∀ ops s2, (∀ op ∈ ops, op ≠ Op.addTask (some 0)) → run s1 ops = some s2 →
        (s2.heap 0).state_ = State.STOPPED ∧ 0 ∉ runningTasks s2 ∧
        0 ∉ s2.ready_task_list_ ∧ doneCount s2 0 = doneCount sampleRunning 0 ∧
        s2.restart_log.count 0 = sampleRunning.restart_log.count 0 ∧
        startCount s2 0 = startCount sampleRunning 0 :=
  ⟨sampleRunning_reachable, by decide,
    removeTask_running_silences 2 4 1 true sampleUrl sampleDcb sampleRunning
      sampleRunning_reachable 0 allOk (by decide)⟩

/-- C8, the code at the failing input: limit 2, retry budget 2, task 0 running on
handle 0 in its first attempt with 900 bytes received. `removeTask` on task 0 returns
success and leaves it STOPPED and out of the running map, with no callback and no
restart so far. Where the worker looked the task up for a completion of handle 0
before the removal and runs the rest of the loop body after it: for a successful
completion the completion callback is invoked for task 0, in state STOPPED; for a
failed completion task 0 is restarted and is back in the running map as RUNNING. -/
theorem removeTask_race_finalises :
    runningTasks sampleStreaming = [0] ∧
    lookupDone sampleStreaming sampleDone = some 0 ∧
    (removeTask sampleStreaming (some 0) allOk).map
      (fun r => (r.1, (r.2.heap 0).state_, runningTasks r.2))
      = some (OMAF_STATUS.ERROR_NONE, State.STOPPED, []) ∧
    (removeTask sampleStreaming (some 0) allOk).map
      (fun r => (doneCount r.2 0, r.2.restart_log, startCount r.2 0))
      = some (0, [], 1) ∧
    (processMsgRemoved sampleStreaming sampleDone (some 0) allOk allOk).map
      (fun s => (doneCount s 0, s.done_log.map (fun e => e.snap.state_)))
      = some (1, [State.STOPPED]) ∧
    (processMsgRemoved sampleStreaming sampleFailed (some 0) allOk allOk).map
      (fun s => (s.restart_log, runningTasks s, (s.heap 0).state_, startCount s 0))
      = some ([0], [0], State.RUNNING, 2) := by
  decide

/-- C7, as stated, fails: tasks 0 and 1 are pending with the same URL, task 1 is READY;
`removeTask` on task 1 erases task 0 from the queue and leaves task 1 in it. -/
theorem removeTask_same_url_erases_other :
    sampleTwoReady.ready_task_list_ = [0, 1] ∧ (sampleTwoReady.heap 1).state_ = State.READY ∧
    ∃ s1, removeTask sampleTwoReady (some 1) allOk = some (OMAF_STATUS.ERROR_NONE, s1) ∧
      s1.ready_task_list_ = [1] ∧ (s1.heap 1).state_ = State.STOPPED :=
  ⟨by decide, by decide, _, rfl, by decide, by decide⟩

/-- C7, amended: for a READY task `t` of the pending queue such that no task ahead of
it in the queue has the URL of `t`, `removeTask` returns success, erases exactly that
entry, keeping the other pending tasks in their order, and sets `t` to STOPPED; `t` is
then out of the queue unless it was queued twice. -/
theorem removeTask_ready_first_of_url (s : OmafCurlMultiDownloader) (t : Nat) (c : Curl)
    (pre post : List Nat) (hs : (s.heap t).state_ = State.READY)
    (hq : s.ready_task_list_ = pre ++ t :: post)
    (hu : ∀ i ∈ pre, (s.heap i).url_ ≠ (s.heap t).url_) :
    ∃ s1, removeTask s (some t) c = some (OMAF_STATUS.ERROR_NONE, s1) ∧
      s1.ready_task_list_ = pre ++ post ∧ (s1.heap t).state_ = State.STOPPED ∧
      (t ∉ post → t ∉ s1.ready_task_list_) ∧
      s1.run_task_map_ = s.run_task_map_ ∧ s1.task_size_ = s.task_size_ - 1 ∧
      s1.downloader_pool_ = s.downloader_pool_ ∧ s1.done_log = s.done_log ∧
      ∀ i, i ≠ t → s1.heap i = s.heap i := by
  have hany : s.ready_task_list_.any (fun i => (s.heap i).url_ == (s.heap t).url_) = true := by
    rw [hq]; simp
  have her : s.ready_task_list_.eraseP (fun i => (s.heap i).url_ == (s.heap t).url_)
      = pre ++ post := by
    rw [hq, List.eraseP_append_right _ (by simpa using hu), List.eraseP_cons_of_pos (by simp)]
  have e0 : removeReadyTask s t = { s with
      ready_task_list_ := pre ++ post
      heap := setTask s.heap t { s.heap t with state_ := State.STOPPED } } := by
    unfold removeReadyTask
    rw [if_pos hany, her]
  have e : removeTask s (some t) c = some (OMAF_STATUS.ERROR_NONE, { s with
      ready_task_list_ := pre ++ post
      heap := setTask s.heap t { s.heap t with state_ := State.STOPPED }
      task_size_ := s.task_size_ - 1 }) := by
    unfold removeTask
    simp only [if_pos hs, e0, setTask_same]
    rw [if_neg (by decide)]
  refine ⟨_, e, rfl, by simp, ?_, rfl, rfl, rfl, rfl, fun i hi => setTask_ne _ _ _ _ hi⟩
  intro hp hm
  rcases List.mem_append.mp hm with h1 | h1
  · exact hu t h1 rfl
  · exact hp h1

theorem removeTask_ready_first_of_url_witness :
    (sampleTwoReady.heap 0).state_ = State.READY ∧
    sampleTwoReady.ready_task_list_ = [] ++ 0 :: [1] ∧
    (∀ i ∈ ([] : List Nat), (sampleTwoReady.heap i).url_ ≠ (sampleTwoReady.heap 0).url_) ∧
    ∃ s1, removeTask sampleTwoReady (some 0) allOk = some (OMAF_STATUS.ERROR_NONE, s1) ∧
      s1.ready_task_list_ = [] ++ [1] ∧ (s1.heap 0).state_ = State.STOPPED ∧
      (0 ∉ [1] → 0 ∉ s1.ready_task_list_) ∧
      s1.run_task_map_ = sampleTwoReady.run_task_map_ ∧
      s1.task_size_ = sampleTwoReady.task_size_ - 1 ∧
      s1.downloader_pool_ = sampleTwoReady.downloader_pool_ ∧
      s1.done_log = sampleTwoReady.done_log ∧
      ∀ i, i ≠ 0 → s1.heap i = sampleTwoReady.heap i :=
  ⟨by decide, by decide, by simp,
    removeTask_ready_first_of_url sampleTwoReady 0 allOk [] [1] (by decide) (by decide)
      (by simp)⟩

/-- C10: `addTask` of a null task returns an error and changes nothing; `addTask` of a
task returns success, sets the task to READY, appends it to the ready queue, adds
one to the outstanding counter and changes nothing else. -/
theorem addTask_appends_ready (s : OmafCurlMultiDownloader) :
    addTask s none = (OMAF_STATUS.ERROR_INVALID, s) ∧
    ∀ t, (addTask s (some t)).1 = OMAF_STATUS.ERROR_NONE ∧
      (addTask s (some t)).2.ready_task_list_ = s.ready_task_list_ ++ [t] ∧
      (addTask s (some t)).2.task_size_ = s.task_size_ + 1 ∧
      ((addTask s (some t)).2.heap t) = { s.heap t with state_ := State.READY } ∧
      (∀ i, i ≠ t → (addTask s (some t)).2.heap i = s.heap i) ∧
      (addTask s (some t)).2.run_task_map_ = s.run_task_map_ ∧
      (addTask s (some t)).2.downloader_pool_ = s.downloader_pool_ ∧
      (addTask s (some t)).2.max_parallel_transfers_ = s.max_parallel_transfers_ ∧
      (addTask s (some t)).2.max_parallel_ = s.max_parallel_ ∧
      (addTask s (some t)).2.retry_times_ = s.retry_times_ ∧
      (addTask s (some t)).2.task_done_cb_ = s.task_done_cb_ ∧
      (addTask s (some t)).2.done_log = s.done_log ∧
      (addTask s (some t)).2.start_log = s.start_log ∧
      (addTask s (some t)).2.restart_log = s.restart_log ∧
      (addTask s (some t)).2.chunk_log = s.chunk_log := by
  refine ⟨rfl, fun t => ⟨rfl, rfl, rfl, ?_, fun i hi => ?_, rfl, rfl, rfl, rfl, rfl, rfl,
    rfl, rfl, rfl, rfl⟩⟩
  · show setTask _ _ _ t = _
    exact setTask_same _ _ _
  · show setTask _ _ _ i = _
    exact setTask_ne _ _ _ _ hi

/-- With the constructor value -1 and the default 1, `init` sets `max_parallel_` to 1,
yet two tasks added and admitted are both in the running map. -/
theorem negative_limit_two_running :
    (run (init (-1) 1 3 true (freshHeap sampleUrl sampleDcb))
        [Op.addTask (some 0), Op.addTask (some 1), Op.startTaskDownload allOk,
          Op.startTaskDownload allOk]).map
      (fun s => (s.max_parallel_, s.run_task_map_.length, (s.heap 0).state_, (s.heap 1).state_))
    = some (1, 2, State.RUNNING, State.RUNNING) := by
  decide

/-- C2, the code at the failing input: task 0 is added and admitted while `open`
fails, or while `start` fails; afterwards it is in neither the ready queue nor the
running map and the completion callback has not been invoked. -/
theorem failed_admission_loses_task :
    (run (init 2 4 3 true (freshHeap sampleUrl sampleDcb))
        [Op.addTask (some 0), Op.startTaskDownload openFails]).map
      (fun s => (s.ready_task_list_, s.run_task_map_, doneCount s 0, s.task_done_cb_))
      = some ([], [], 0, true) ∧
    (run (init 2 4 3 true (freshHeap sampleUrl sampleDcb))
        [Op.addTask (some 0), Op.startTaskDownload startFails]).map
      (fun s => (s.ready_task_list_, s.run_task_map_, doneCount s 0, s.task_done_cb_))
      = some ([], [], 0, true) := by
  decide

/-- C6, the code at the failing input: task 0 is RUNNING with handle 0 and the pool
holds the handles 1, 2, 3; after `removeTask` the task is STOPPED, still owns handle
0, and the pool still holds 1, 2, 3. -/
theorem removeTask_running_keeps_handle :
    (sampleRunning.heap 0).state_ = State.RUNNING ∧
    (sampleRunning.heap 0).easy_downloader_ = some 0 ∧
    sampleRunning.downloader_pool_ = some [1, 2, 3] ∧
    (removeTask sampleRunning (some 0) allOk).map
      (fun r => (r.1, (r.2.heap 0).state_, (r.2.heap 0).easy_downloader_, r.2.downloader_pool_))
      = some (OMAF_STATUS.ERROR_NONE, State.STOPPED, some 0, some [1, 2, 3]) := by
  decide

/-- C9, the code at the failing inputs: after a task is added and its admission fails
in `open`, the counter is 1 with no task in the ready queue or the running map; and
after a task is added and removed twice the counter is -1. -/
theorem counter_diverges :
    (run (init 2 4 3 true (freshHeap sampleUrl sampleDcb))
        [Op.addTask (some 0), Op.startTaskDownload openFails]).map
      (fun s => (s.task_size_, s.ready_task_list_.length, s.run_task_map_.length))
      = some (1, 0, 0) ∧
    (run (init 2 4 3 true (freshHeap sampleUrl sampleDcb))
        [Op.addTask (some 0), Op.removeTask (some 0) allOk, Op.removeTask (some 0) allOk]).map
      (fun s => (s.task_size_, s.ready_task_list_.length, s.run_task_map_.length))
      = some (-1, 0, 0) := by
  decide

theorem mapErase_of_lt (m : List (Nat × Nat)) (k : Nat) (h : ∀ e ∈ m, e.1 < k ∧ e.2 < k) :
    mapErase m k = m := by
  unfold mapErase
  apply List.filter_eq_self.mpr
  intro e he
  have := (h e he).1
  simp
  omega

theorem filled_admit {d k : Nat} {s : OmafCurlMultiDownloader} (hk : k < 2 * d)
    (hd : d < 2 ^ 62) (h : Filled d k s) :
    ∃ s1, step (addTask s (some k)).2 (Op.startTaskDownload allOk) = some s1 ∧
      Filled d (k + 1) s1 := by
  obtain ⟨h1, h2, h3, h4, h5⟩ := h
  have hlim : (addTask s (some k)).2.run_task_map_.length <
      toSizeT (addTask s (some k)).2.max_parallel_transfers_ := by
    show s.run_task_map_.length < toSizeT s.max_parallel_transfers_
    rw [h1, h4]
    have : toSizeT (-1) = 2 ^ 64 - 1 := by decide
    rw [this]
    omega
  have hpool : List.range' k (2 * d - k) = k :: List.range' (k + 1) (2 * d - (k + 1)) := by
    have : 2 * d - k = (2 * d - (k + 1)) + 1 := by omega
    rw [this, List.range'_succ]
  have hready : (addTask s (some k)).2.ready_task_list_ = [k] := by
    show s.ready_task_list_ ++ [k] = [k]
    rw [h3]; rfl
  have e : step (addTask s (some k)).2 (Op.startTaskDownload allOk) = some
      { s with
        ready_task_list_ := []
        task_size_ := s.task_size_ + 1
        downloader_pool_ := some (List.range' (k + 1) (2 * d - (k + 1)))
        start_log := ⟨k, (s.heap k).stream_size_, -1⟩ :: s.start_log
        run_task_map_ := mapInsert s.run_task_map_ k k
        heap := setTask (setTask (setTask s.heap k { s.heap k with state_ := State.READY }) k
            { s.heap k with state_ := State.READY, easy_downloader_ := some k }) k
          { s.heap k with state_ := State.RUNNING, easy_downloader_ := some k,
                          transfer_times_ := (s.heap k).transfer_times_ + 1 } } := by
    simp only [step, startTaskDownload, if_pos hlim, hready]
    simp [createTransfer, addTask, h2, hpool, allOk, startTransfer]
  refine ⟨_, e, h1, rfl, rfl, ?_, ?_⟩
  · show (mapInsert s.run_task_map_ k k).length = k + 1
    simp [mapInsert, mapErase_of_lt _ _ h5, h4]
  · intro x hx
    have hx : x ∈ mapInsert s.run_task_map_ k k := hx
    simp only [mapInsert, mapErase_of_lt _ _ h5] at hx
    rcases List.mem_cons.mp hx with h6 | h6
    · rw [h6]; simp
    · have := h5 x h6
      omega

theorem filled_reachable (d : Nat) (hd : d < 2 ^ 62) (B : Int) (cb : Bool)
    (url : Nat → String) (dcb : Nat → Bool) (k : Nat) (hk : k ≤ 2 * d) :
    ∃ s, Reachable (-1) d B cb url dcb s ∧ Filled d k s := by
  induction k with
  | zero =>
    refine ⟨_, Reachable.init, rfl, ?_, rfl, rfl, ?_⟩
    · show some (OmafCurlEasyDownloaderPool (2 * (if (-1 : Int) > 0 then (-1 : Int) else d))) = _
      simp [OmafCurlEasyDownloaderPool, List.range_eq_range']
      omega
    · intro e he; simp [init] at he
  | succ k ih =>
    obtain ⟨s, hr, hf⟩ := ih (by omega)
    obtain ⟨s1, hs, hf1⟩ := filled_admit (by omega) hd hf
    have hadm : Admissible s (Op.addTask (some k)) := by
      refine ⟨by rw [hf.2.2.1]; simp, ?_⟩
      intro hm
      obtain ⟨h1, hm1⟩ := (mem_mapTasks _ _).mp hm
      have := (hf.2.2.2.2 _ hm1).2
      simp at this
    exact ⟨s1, Reachable.step _ _ (Op.startTaskDownload allOk)
      (Reachable.step _ _ (Op.addTask (some k)) hr hadm rfl) trivial hs, hf1⟩

/-- C1, the code at the failing input: for the constructor value -1 and any default
`d` (with `0 < d`), `init` sets `max_parallel_` to `d`, yet a state is reached in which
`d + 1` tasks are in the running map: `startTaskDownload` tests the constructor
value, not `max_parallel_`. -/
theorem negative_limit_exceeds_default (d : Nat) (h0 : 0 < d) (hd : d < 2 ^ 62) (B : Int)
    (cb : Bool) (url : Nat → String) (dcb : Nat → Bool) :
    ∃ s, Reachable (-1) d B cb url dcb s ∧ s.max_parallel_ = d ∧
      s.run_task_map_.length = d + 1 := by
  obtain ⟨s, hr, hf⟩ := filled_reachable d hd B cb url dcb (d + 1) (by omega)
  refine ⟨s, hr, ?_, hf.2.2.2.1⟩
  rw [(reachable_cfg hr).2.1]
  simp [init]

theorem negative_limit_exceeds_default_witness :
    0 < 1 ∧ 1 < 2 ^ 62 ∧
    ∃ s, Reachable (-1) ((1 : Nat) : Int) 3 true sampleUrl sampleDcb s ∧
      s.max_parallel_ = ((1 : Nat) : Int) ∧ s.run_task_map_.length = 1 + 1 :=
  ⟨by decide, by decide,
    negative_limit_exceeds_default 1 (by decide) (by decide) 3 true sampleUrl sampleDcb⟩

theorem DoneInv.of_eq {s s1 : OmafCurlMultiDownloader} (h : DoneInv s)
    (hp : s1.downloader_pool_ = s.downloader_pool_) (hl : s1.done_log = s.done_log) :
    DoneInv s1 := by
  unfold DoneInv
  rw [hp, hl]; exact h

theorem createTransfer_doneInv {s : OmafCurlMultiDownloader} (t : Nat) (c : Curl)
    (h : DoneInv s) : DoneInv (createTransfer s t c).2 := by
  unfold createTransfer
  split
  · exact h
  · exact h
  · split
    · exact ⟨by simp, h.2⟩
    · exact ⟨by simp, h.2⟩

theorem startTransfer_doneInv {s : OmafCurlMultiDownloader} (t : Nat) (c : Curl)
    (h : DoneInv s) : DoneInv (startTransfer s t c).2 := by
  unfold startTransfer
  split
  · exact h
  · split
    · split
      · exact h.of_eq rfl rfl
      · exact h.of_eq rfl rfl
    · exact h.of_eq rfl rfl

theorem moveTaskFromRun_doneInv {s s1 : OmafCurlMultiDownloader} {t : Nat} {st : State}
    (h : DoneInv s) (hm : moveTaskFromRun s t st = some s1) : DoneInv s1 := by
  unfold moveTaskFromRun at hm
  split at hm
  · cases hm
  · split at hm
    · injection hm with hm; subst hm; exact h.of_eq rfl rfl
    · injection hm with hm; subst hm; exact h

theorem removeRunningTask_doneInv {s s1 : OmafCurlMultiDownloader} {t : Nat} {c : Curl}
    (h : DoneInv s) (hm : removeRunningTask s t c = some s1) : DoneInv s1 := by
  unfold removeRunningTask at hm
  cases hv : moveTaskFromRun s t State.STOPPED with
  | none => simp [hv] at hm
  | some s2 =>
    simp only [hv] at hm
    cases hr : removeTransfer s2 t c with
    | none => simp [hr] at hm
    | some x =>
      simp only [hr] at hm
      injection hm with hm; subst hm
      exact moveTaskFromRun_doneInv h hv

theorem processTaskDone_pool (s : OmafCurlMultiDownloader) (t : Nat) :
    (s.downloader_pool_ ≠ none → (processTaskDone s t).downloader_pool_ ≠ none) ∧
    (∀ d p, (s.heap t).easy_downloader_ = some d → s.downloader_pool_ = some p →
      (processTaskDone s t).downloader_pool_ = some (p ++ [d])) := by
  unfold processTaskDone
  cases hd : (s.heap t).easy_downloader_ with
  | none =>
    cases hcb : s.task_done_cb_ with
    | false => simp [hd, hcb]
    | true => simp [hd, hcb]
  | some d =>
    cases hp : s.downloader_pool_ with
    | none =>
      cases hcb : s.task_done_cb_ with
      | false => simp [hd, hcb, hp]
      | true => simp [hd, hcb, hp]
    | some p =>
      cases hcb : s.task_done_cb_ with
      | false => simp [hd, hcb, hp]
      | true => simp [hd, hcb, hp]

theorem processTaskDone_doneInv {s : OmafCurlMultiDownloader} {t : Nat} (h : DoneInv s)
    (hs : (s.heap t).state_ = State.FINISH ∨ (s.heap t).state_ = State.TIMEOUT) :
    DoneInv (processTaskDone s t) := by
  have hl := processTaskDone_logs s t
  refine ⟨(processTaskDone_pool s t).1 h.1, ?_⟩
  cases hcb : s.task_done_cb_ with
  | false => rw [hl.2.2.2.2.2.2.2.2 hcb]; exact h.2
  | true =>
    rw [hl.2.2.2.2.2.2.2.1 hcb]
    intro e he
    rcases List.mem_cons.mp he with h1 | h1
    · rw [h1]
      refine ⟨?_, hl.2.2.2.2.1⟩
      show ((processTaskDone s t).heap t).state_ = _ ∨ ((processTaskDone s t).heap t).state_ = _
      rw [hl.2.2.2.2.2.1]; exact hs
    · exact h.2 e h1

theorem processMsg_doneInv {s s1 : OmafCurlMultiDownloader} {m : Completion} {c : Curl}
    (hI : Inv s) (h : DoneInv s) (hm : processMsg s m c = some s1) : DoneInv s1 := by
  unfold processMsg at hm
  split at hm
  · split at hm
    · injection hm with hm; subst hm; exact h
    · rename_i t hf
      have ht : t ∈ runningTasks s := (mem_mapTasks _ _).mpr ⟨_, mapFind_some_mem _ _ _ hf⟩
      split at hm
      · cases hm
      · split at hm
        · obtain ⟨d, hd, _, hmv⟩ := moveTaskFromRun_running State.FINISH hI ht
          unfold markTaskFinish at hm
          rw [hmv] at hm
          injection hm with hm; subst hm
          exact processTaskDone_doneInv (h.of_eq rfl rfl) (by simp)
        · obtain ⟨d, hd, _, hmv⟩ := moveTaskFromRun_running State.TIMEOUT hI ht
          unfold markTaskTimeout at hm
          rw [hmv] at hm
          simp only at hm
          split at hm
          · injection hm with hm; subst hm
            exact startTransfer_doneInv t c (h.of_eq rfl rfl)
          · injection hm with hm; subst hm
            exact processTaskDone_doneInv (h.of_eq rfl rfl) (by simp)
  · injection hm with hm; subst hm; exact h

theorem step_doneInv {s s1 : OmafCurlMultiDownloader} {op : Op}
    (hI : Inv s) (h : DoneInv s) (hs : step s op = some s1) : DoneInv s1 := by
  cases op with
  | addTask task =>
    simp only [step] at hs
    injection hs with hs; subst hs
    cases task with
    | none => exact h
    | some t => exact h.of_eq rfl rfl
  | removeTask task c =>
    simp only [step] at hs
    cases hr : removeTask s task c with
    | none => simp [hr] at hs
    | some r =>
      simp [hr] at hs; subst hs
      unfold removeTask at hr
      cases task with
      | none => simp only at hr; injection hr with hr; subst hr; exact h
      | some u =>
        simp only at hr
        have h1 : DoneInv (if (s.heap u).state_ = State.READY then removeReadyTask s u else s) := by
          split
          · unfold removeReadyTask
            split
            · exact h.of_eq rfl rfl
            · exact h
          · exact h
        generalize (if (s.heap u).state_ = State.READY then removeReadyTask s u else s) = s2
          at hr h1
        by_cases hst : (s2.heap u).state_ = State.RUNNING
        · simp only [hst, if_true] at hr
          cases hrm : removeRunningTask s2 u c with
          | none => simp [hrm] at hr
          | some s3 =>
            simp only [hrm] at hr
            injection hr with hr; subst hr
            exact (removeRunningTask_doneInv h1 hrm).of_eq rfl rfl
        · simp only [hst] at hr
          injection hr with hr; subst hr
          exact h1.of_eq rfl rfl
  | startTaskDownload c =>
    simp only [step] at hs
    cases hr : startTaskDownload s c with
    | none => simp [hr] at hs
    | some r =>
      simp [hr] at hs; subst hs
      unfold startTaskDownload at hr
      split at hr
      · split at hr
        · injection hr with hr; subst hr; exact h
        · rename_i u rest hq
          have h0 : DoneInv { s with ready_task_list_ := rest } := h.of_eq rfl rfl
          have h1 := createTransfer_doneInv u c h0
          have h2 := startTransfer_doneInv u c h1
          simp only at hr
          split at hr
          · split at hr
            · split at hr
              · cases hr
              · rename_i s3 hrm
                injection hr with hr; subst hr
                exact removeRunningTask_doneInv h2 hrm
            · injection hr with hr; subst hr; exact h2
          · injection hr with hr; subst hr; exact h1
      · injection hr with hr; subst hr; exact h
  | chunk u n =>
    simp only [step] at hs
    injection hs with hs; subst hs
    unfold onStreamBlock
    split
    · exact h.of_eq rfl rfl
    · exact h
  | done m c =>
    simp only [step] at hs
    exact processMsg_doneInv hI h hs

theorem reachable_doneInv {P dflt B : Int} {cb : Bool} {url : Nat → String}
    {dcb : Nat → Bool} {s : OmafCurlMultiDownloader}
    (h : Reachable P dflt B cb url dcb s) : DoneInv s := by
  induction h with
  | init => exact ⟨by simp [init], fun e he => by simp [init] at he⟩
  | step s s1 op hr _ hs ih => exact step_doneInv (reachable_inv hr) ih hs

/-- The event `processTaskDone` hands to the completion callback. -/
theorem processTaskDone_event {s : OmafCurlMultiDownloader} {t d : Nat} {p : List Nat}
    (hd : (s.heap t).easy_downloader_ = some d) (hp : s.downloader_pool_ = some p)
    (hcb : s.task_done_cb_ = true) :
    ∃ e, (processTaskDone s t).done_log = e :: s.done_log ∧ e.task = t ∧
      e.snap.easy_downloader_ = none ∧ e.snap.state_ = (s.heap t).state_ ∧
      e.pool = some (p ++ [d]) ∧ e.task_size = s.task_size_ - 1 ∧
      (processTaskDone s t).task_size_ = s.task_size_ - 1 ∧
      (processTaskDone s t).downloader_pool_ = some (p ++ [d]) := by
  obtain ⟨_, _, _, _, l5, l6, l7, l8, _⟩ := processTaskDone_logs s t
  have hpool := (processTaskDone_pool s t).2 d p hd hp
  exact ⟨_, l8 hcb, rfl, l5, l6, hpool, rfl, l7, hpool⟩

theorem markTaskFinish_eq {s : OmafCurlMultiDownloader} {t : Nat}
    (hI : Inv s) (ht : t ∈ runningTasks s) :
    ∃ d, (s.heap t).easy_downloader_ = some d ∧
      markTaskFinish s t = some (processTaskDone
        { s with
          run_task_map_ := mapErase s.run_task_map_ d
          heap := setTask s.heap t { s.heap t with state_ := State.FINISH } } t) := by
  obtain ⟨d, hd, _, hmv⟩ := moveTaskFromRun_running State.FINISH hI ht
  refine ⟨d, hd, ?_⟩
  unfold markTaskFinish
  rw [hmv]

theorem markTaskTimeout_exhausted_eq {s : OmafCurlMultiDownloader} {t : Nat} (c : Curl)
    (hI : Inv s) (ht : t ∈ runningTasks s)
    (hB : ¬ ((s.heap t).transfer_times_ : Int) < s.retry_times_) :
    ∃ d, (s.heap t).easy_downloader_ = some d ∧
      markTaskTimeout s t c = some (processTaskDone
        { s with
          run_task_map_ := mapErase s.run_task_map_ d
          heap := setTask s.heap t { s.heap t with state_ := State.TIMEOUT } } t) := by
  obtain ⟨d, hd, _, hmv⟩ := moveTaskFromRun_running State.TIMEOUT hI ht
  refine ⟨d, hd, ?_⟩
  unfold markTaskTimeout
  rw [hmv]
  simp only [setTask_same]
  exact if_neg hB

/-- What the completion callback receives on the two finalising paths. -/
theorem finalise_event {s : OmafCurlMultiDownloader} {t : Nat}
    (hI : Inv s) (hD : DoneInv s) (ht : t ∈ runningTasks s) (hcb : s.task_done_cb_ = true) :
    ∃ d p, (s.heap t).easy_downloader_ = some d ∧ s.downloader_pool_ = some p ∧
      (∃ s1 e, markTaskFinish s t = some s1 ∧ s1.done_log = e :: s.done_log ∧ e.task = t ∧
        e.snap.easy_downloader_ = none ∧ e.snap.state_ = State.FINISH ∧
        e.pool = some (p ++ [d]) ∧ e.task_size = s.task_size_ - 1 ∧
        s1.task_size_ = s.task_size_ - 1 ∧ s1.downloader_pool_ = some (p ++ [d])) ∧
      (¬ ((s.heap t).transfer_times_ : Int) < s.retry_times_ → ∀ c,
        ∃ s1 e, markTaskTimeout s t c = some s1 ∧ s1.done_log = e :: s.done_log ∧ e.task = t ∧
          e.snap.easy_downloader_ = none ∧ e.snap.state_ = State.TIMEOUT ∧
          e.pool = some (p ++ [d]) ∧ e.task_size = s.task_size_ - 1 ∧
          s1.task_size_ = s.task_size_ - 1 ∧ s1.downloader_pool_ = some (p ++ [d])) := by
  obtain ⟨d, hd, hfin⟩ := markTaskFinish_eq hI ht
  cases hp : s.downloader_pool_ with
  | none => exact absurd hp hD.1
  | some p =>
    refine ⟨d, p, hd, rfl, ?_, ?_⟩
    · obtain ⟨e, h1, h2, h3, h4, h5, h6, h7, h8⟩ := processTaskDone_event
        (s := { s with
          run_task_map_ := mapErase s.run_task_map_ d
          heap := setTask s.heap t { s.heap t with state_ := State.FINISH } })
        (t := t) (d := d) (p := p) (by simp [hd]) hp hcb
      exact ⟨_, e, hfin, h1, h2, h3, by rw [h4]; simp, h5, h6, h7, h8⟩
    · intro hB c
      obtain ⟨d1, hd1, hto⟩ := markTaskTimeout_exhausted_eq c hI ht hB
      have hdd : d1 = d := by rw [hd] at hd1; injection hd1 with h; exact h.symm
      subst hdd
      obtain ⟨e, h1, h2, h3, h4, h5, h6, h7, h8⟩ := processTaskDone_event
        (s := { s with
          run_task_map_ := mapErase s.run_task_map_ d1
          heap := setTask s.heap t { s.heap t with state_ := State.TIMEOUT } })
        (t := t) (d := d1) (p := p) (by simp [hd]) hp hcb
      exact ⟨_, e, hto, h1, h2, h3, by rw [h4]; simp, h5, h6, h7, h8⟩

/-- C11: when a task of the running map is finalised, on the success path and on the
exhausted-retry path, the task handed to the completion callback owns no handle, its
handle is at that moment back in the pool, and the outstanding counter is one below
its value before the finalisation. -/
theorem finalise_releases_before_callback (P dflt B : Int) (url : Nat → String)
    (dcb : Nat → Bool) (s : OmafCurlMultiDownloader)
    (hr : Reachable P dflt B true url dcb s) (t : Nat) (ht : t ∈ runningTasks s) :
    ∃ d p, (s.heap t).easy_downloader_ = some d ∧ s.downloader_pool_ = some p ∧
      (∃ s1 e, markTaskFinish s t = some s1 ∧ s1.done_log = e :: s.done_log ∧ e.task = t ∧
        e.snap.easy_downloader_ = none ∧ e.pool = some (p ++ [d]) ∧
        e.task_size = s.task_size_ - 1 ∧ s1.task_size_ = s.task_size_ - 1 ∧
        s1.downloader_pool_ = some (p ++ [d])) ∧
      (¬ ((s.heap t).transfer_times_ : Int) < B → ∀ c,
        ∃ s1 e, markTaskTimeout s t c = some s1 ∧ s1.done_log = e :: s.done_log ∧ e.task = t ∧
          e.snap.easy_downloader_ = none ∧ e.pool = some (p ++ [d]) ∧
          e.task_size = s.task_size_ - 1 ∧ s1.task_size_ = s.task_size_ - 1 ∧
          s1.downloader_pool_ = some (p ++ [d])) := by
  have hc := reachable_cfg hr
  obtain ⟨d, p, h1, h2, h3, h4⟩ :=
    finalise_event (reachable_inv hr) (reachable_doneInv hr) ht hc.2.2.2.1
  refine ⟨d, p, h1, h2, ?_, ?_⟩
  · obtain ⟨s1, e, a1, a2, a3, a4, _, a6, a7, a8, a9⟩ := h3
    exact ⟨s1, e, a1, a2, a3, a4, a6, a7, a8, a9⟩
  · intro hB c
    have hB1 : ¬ ((s.heap t).transfer_times_ : Int) < s.retry_times_ := by
      rw [hc.2.2.1]; exact hB
    obtain ⟨s1, e, a1, a2, a3, a4, _, a6, a7, a8, a9⟩ := h4 hB1 c
    exact ⟨s1, e, a1, a2, a3, a4, a6, a7, a8, a9⟩

theorem finalise_releases_before_callback_witness :
    Reachable 2 4 1 true sampleUrl sampleDcb sampleRunning ∧ 0 ∈ runningTasks sampleRunning ∧
    ∃ d p, (sampleRunning.heap 0).easy_downloader_ = some d ∧
      sampleRunning.downloader_pool_ = some p ∧
      (∃ s1 e, markTaskFinish sampleRunning 0 = some s1 ∧
        s1.done_log = e :: sampleRunning.done_log ∧ e.task = 0 ∧
        e.snap.easy_downloader_ = none ∧ e.pool = some (p ++ [d]) ∧
        e.task_size = sampleRunning.task_size_ - 1 ∧
        s1.task_size_ = sampleRunning.task_size_ - 1 ∧
        s1.downloader_pool_ = some (p ++ [d])) ∧
      (¬ ((sampleRunning.heap 0).transfer_times_ : Int) < 1 → ∀ c,
        ∃ s1 e, markTaskTimeout sampleRunning 0 c = some s1 ∧
          s1.done_log = e :: sampleRunning.done_log ∧ e.task = 0 ∧
          e.snap.easy_downloader_ = none ∧ e.pool = some (p ++ [d]) ∧
          e.task_size = sampleRunning.task_size_ - 1 ∧
          s1.task_size_ = sampleRunning.task_size_ - 1 ∧
          s1.downloader_pool_ = some (p ++ [d])) :=
  ⟨sampleRunning_reachable, by decide,
    finalise_releases_before_callback 2 4 1 sampleUrl sampleDcb sampleRunning
      sampleRunning_reachable 0 (by decide)⟩

/-- With an empty pool `startTaskDownload` pops the front task and drops it. -/
theorem startTaskDownload_empty_pool (s : OmafCurlMultiDownloader) (c : Curl) (t : Nat)
    (rest : List Nat) (hq : s.ready_task_list_ = t :: rest)
    (hl : s.run_task_map_.length < toSizeT s.max_parallel_transfers_)
    (hp : s.downloader_pool_ = some []) :
    startTaskDownload s c =
      some (OMAF_STATUS.ERROR_NONE, { s with ready_task_list_ := rest }) := by
  unfold startTaskDownload
  rw [if_pos hl, hq]
  simp [createTransfer, hp]

/-- C12, the code at the failing input: limit 1, pool of two handles; tasks 0 and 1
were each started and removed while RUNNING, so that the pool is empty, and task 2 is
pending. The admission step finds no handle: afterwards task 2 is in neither the
ready queue nor the running map, and no callback was invoked for it. -/
theorem empty_pool_admission_loses_task :
    (run (init 1 4 3 true (freshHeap sampleUrl sampleDcb)) drainOps).map
      (fun s => (s.downloader_pool_, s.ready_task_list_, s.run_task_map_.length))
      = some (some [], [2], 0) ∧
    (run (init 1 4 3 true (freshHeap sampleUrl sampleDcb))
        (drainOps ++ [Op.startTaskDownload allOk])).map
      (fun s => (s.ready_task_list_.length, s.run_task_map_.length, doneCount s 2,
        (s.heap 2).state_))
      = some (0, 0, 0, State.READY) := by
  decide

/-- The loop body of `retriveDoneTask` is its two parts run one after the other. -/
theorem processMsg_split (s : OmafCurlMultiDownloader) (m : Completion) (c : Curl) :
    processMsg s m c =
      match lookupDone s m with
      | none => some s
      | some t => finishDone s t m c := by
  unfold processMsg lookupDone finishDone
  by_cases hd : m.msg_done = true
  · rw [if_pos hd, if_pos hd]
  · rw [if_neg hd, if_neg hd]

theorem mapFind_mapInsert (m : List (Nat × Nat)) (h t : Nat) :
    mapFind (mapInsert m h t) h = some t := by
  simp [mapFind, mapInsert, List.find?]

/-- The body of `retriveDoneTask` for a DONE message of a task of the running map. -/
theorem processMsg_found {s : OmafCurlMultiDownloader} {m : Completion} {t : Nat} (c : Curl)
    (hI : Inv s) (hd : m.msg_done = true)
    (hf : mapFind s.run_task_map_ m.easy_handle = some t) :
    processMsg s m c =
      if m.http_ok = true ∧ m.content_length_ = ((s.heap t).stream_size_ : Int) then
        markTaskFinish s t
      else markTaskTimeout s t c := by
  have hdl := hI.own _ _ (mapFind_some_mem _ _ _ hf)
  obtain ⟨x, hx⟩ := removeTransfer_some c hdl
  unfold processMsg
  rw [if_pos hd, hf]
  simp only [hx]

/-- A restart by `markTaskTimeout` in which `start` succeeds and the handle exists. -/
theorem markTaskTimeout_restart_ok {s : OmafCurlMultiDownloader} {t : Nat} (c : Curl)
    (hI : Inv s) (ht : t ∈ runningTasks s)
    (hB : ((s.heap t).transfer_times_ : Int) < s.retry_times_)
    (h1 : c.start_ok = true) (h2 : c.handler_ok = true) :
    ∃ s1 d, markTaskTimeout s t c = some s1 ∧ (s.heap t).easy_downloader_ = some d ∧
      s1.done_log = s.done_log ∧
      s1.start_log = ⟨t, (s.heap t).stream_size_, -1⟩ :: s.start_log ∧
      s1.restart_log = t :: s.restart_log ∧
      s1.run_task_map_ = mapInsert (mapErase s.run_task_map_ d) d t ∧
      (s1.heap t).state_ = State.RUNNING ∧
      (s1.heap t).stream_size_ = (s.heap t).stream_size_ ∧
      (s1.heap t).transfer_times_ = (s.heap t).transfer_times_ + 1 := by
  obtain ⟨d, hd, _, hmv⟩ := moveTaskFromRun_running State.TIMEOUT hI ht
  have e : markTaskTimeout s t c = some (startTransfer
      { s with
        run_task_map_ := mapErase s.run_task_map_ d
        heap := setTask s.heap t { s.heap t with state_ := State.TIMEOUT }
        restart_log := t :: s.restart_log } t c).2 := by
    unfold markTaskTimeout
    rw [hmv]
    simp only [setTask_same]
    exact if_pos hB
  refine ⟨_, d, e, hd, ?_⟩
  unfold startTransfer
  simp [hd, h1, h2]

theorem onStreamBlock_dcb {s : OmafCurlMultiDownloader} (t n : Nat)
    (hd : (s.heap t).dcb_ = true) :
    ((onStreamBlock s t n).heap t).stream_size_ = (s.heap t).stream_size_ + n ∧
    (onStreamBlock s t n).run_task_map_ = s.run_task_map_ ∧
    (onStreamBlock s t n).done_log = s.done_log := by
  unfold onStreamBlock
  rw [if_pos hd]
  simp

/-- C14: with a retry budget of at least 2 and a task of the running map in its first
attempt, with a streaming callback and 900 bytes received: a completion with a
success status and declared length 1000 is classified as timeout and the transfer
is restarted from offset 900 without callback; after 100 more bytes a completion
with a success status and declared length 1000 is classified as success and the
completion callback is invoked once, with the task in state FINISH. -/
theorem short_then_full_transfer (P dflt B : Int) (url : Nat → String)
    (dcb : Nat → Bool) (s : OmafCurlMultiDownloader)
    (hr : Reachable P dflt B true url dcb s) (t h : Nat) (c c2 : Curl) (hB : 2 ≤ B)
    (hf : mapFind s.run_task_map_ h = some t) (htt : (s.heap t).transfer_times_ = 1)
    (hsz : (s.heap t).stream_size_ = 900) (hdcb : dcb t = true)
    (hc1 : c.start_ok = true) (hc2 : c.handler_ok = true) :
    ∃ s1, processMsg s ⟨true, h, true, 1000⟩ c = some s1 ∧
      s1.done_log = s.done_log ∧ s1.start_log = ⟨t, 900, -1⟩ :: s.start_log ∧
      s1.restart_log = t :: s.restart_log ∧ (s1.heap t).state_ = State.RUNNING ∧
      ((onStreamBlock s1 t 100).heap t).stream_size_ = 1000 ∧
      ∃ s3, processMsg (onStreamBlock s1 t 100) ⟨true, h, true, 1000⟩ c2 = some s3 ∧
        (s3.heap t).state_ = State.FINISH ∧ doneCount s3 t = doneCount s t + 1 ∧
        ∃ e, s3.done_log = e :: s.done_log ∧ e.task = t ∧ e.snap.state_ = State.FINISH := by
  have hI := reachable_inv hr
  have hcfg := reachable_cfg hr
  have ht : t ∈ runningTasks s := (mem_mapTasks _ _).mpr ⟨_, mapFind_some_mem _ _ _ hf⟩
  have hdl := hI.own _ _ (mapFind_some_mem _ _ _ hf)
  have hlt : ((s.heap t).transfer_times_ : Int) < s.retry_times_ := by
    have hB2 : s.retry_times_ = B := hcfg.2.2.1
    rw [htt, hB2]; push_cast; omega
  obtain ⟨s1, d, e1, hd, a1, a2, a3, a4, a5, a6, _⟩ :=
    markTaskTimeout_restart_ok c hI ht hlt hc1 hc2
  have hdh : d = h := by rw [hdl] at hd; injection hd with x; exact x.symm
  subst hdh
  have hm1 : processMsg s ⟨true, d, true, 1000⟩ c = some s1 := by
    rw [processMsg_found c hI rfl hf, if_neg, e1]
    rw [hsz]; simp
  have hr1 : Reachable P dflt B true url dcb s1 :=
    Reachable.step s s1 (Op.done ⟨true, d, true, 1000⟩ c) hr trivial hm1
  have hcfg1 := reachable_cfg hr1
  have hdcb1 : (s1.heap t).dcb_ = true := by
    rw [(hcfg1.2.2.2.2 t).1]; exact hdcb
  have hf1 : mapFind s1.run_task_map_ d = some t := by rw [a4]; exact mapFind_mapInsert _ _ _
  have ht1 : t ∈ runningTasks s1 := (mem_mapTasks _ _).mpr ⟨_, mapFind_some_mem _ _ _ hf1⟩
  obtain ⟨b1, b2, b3⟩ := onStreamBlock_dcb t 100 hdcb1
  have hr2 : Reachable P dflt B true url dcb (onStreamBlock s1 t 100) :=
    Reachable.step s1 _ (Op.chunk t 100) hr1 ht1 rfl
  have hI2 := reachable_inv hr2
  have hf2 : mapFind (onStreamBlock s1 t 100).run_task_map_ d = some t := by rw [b2]; exact hf1
  have ht2 : t ∈ runningTasks (onStreamBlock s1 t 100) :=
    (mem_mapTasks _ _).mpr ⟨_, mapFind_some_mem _ _ _ hf2⟩
  have hsz2 : ((onStreamBlock s1 t 100).heap t).stream_size_ = 1000 := by
    rw [b1, a6, hsz]
  obtain ⟨s3, f1, f2, _, _, _, _, _, f8⟩ := markTaskFinish_running hI2 ht2
  have hm2 : processMsg (onStreamBlock s1 t 100) ⟨true, d, true, 1000⟩ c2 = some s3 := by
    rw [processMsg_found c2 hI2 rfl hf2, if_pos, f1]
    rw [hsz2]; simp
  obtain ⟨e, g1, g2, g3, _⟩ := f8 (reachable_cfg hr2).2.2.2.1
  have hlog : s3.done_log = e :: s.done_log := by rw [g1, b3, a1]
  refine ⟨s1, hm1, a1, ?_, a3, a5, hsz2, s3, hm2, f2, ?_, e, hlog, g2, g3⟩
  · rw [a2, hsz]
  · unfold doneCount
    rw [hlog, List.filter_cons_of_pos (by simp [g2])]
    simp

theorem short_then_full_transfer_witness :
    Reachable 2 4 2 true sampleUrl sampleDcb sampleStreaming ∧ (2 : Int) ≤ 2 ∧
    mapFind sampleStreaming.run_task_map_ 0 = some 0 ∧
    (sampleStreaming.heap 0).transfer_times_ = 1 ∧
    (sampleStreaming.heap 0).stream_size_ = 900 ∧ sampleDcb 0 = true ∧
    allOk.start_ok = true ∧ allOk.handler_ok = true ∧
    ∃ s1, processMsg sampleStreaming ⟨true, 0, true, 1000⟩ allOk = some s1 ∧
      s1.done_log = sampleStreaming.done_log ∧
      s1.start_log = ⟨0, 900, -1⟩ :: sampleStreaming.start_log ∧
      s1.restart_log = 0 :: sampleStreaming.restart_log ∧
      (s1.heap 0).state_ = State.RUNNING ∧
      ((onStreamBlock s1 0 100).heap 0).stream_size_ = 1000 ∧
      ∃ s3, processMsg (onStreamBlock s1 0 100) ⟨true, 0, true, 1000⟩ allOk = some s3 ∧
        (s3.heap 0).state_ = State.FINISH ∧
        doneCount s3 0 = doneCount sampleStreaming 0 + 1 ∧
        ∃ e, s3.done_log = e :: sampleStreaming.done_log ∧ e.task = 0 ∧
          e.snap.state_ = State.FINISH :=
  ⟨sampleStreaming_reachable, by decide, by decide, by decide, by decide, rfl, rfl, rfl,
    short_then_full_transfer 2 4 2 sampleUrl sampleDcb sampleStreaming
      sampleStreaming_reachable 0 0 allOk allOk (by decide) (by decide) (by decide)
      (by decide) rfl rfl rfl⟩

theorem createTransfer_ready (s : OmafCurlMultiDownloader) (t : Nat) (c : Curl) :
    (createTransfer s t c).2.ready_task_list_ = s.ready_task_list_ := by
  unfold createTransfer
  split
  · rfl
  · rfl
  · split <;> rfl

theorem startTransfer_ready (s : OmafCurlMultiDownloader) (t : Nat) (c : Curl) :
    (startTransfer s t c).2.ready_task_list_ = s.ready_task_list_ := by
  unfold startTransfer
  split
  · rfl
  · split
    · split <;> rfl
    · rfl

theorem moveTaskFromRun_ready {s s1 : OmafCurlMultiDownloader} {t : Nat} {st : State}
    (h : moveTaskFromRun s t st = some s1) : s1.ready_task_list_ = s.ready_task_list_ := by
  unfold moveTaskFromRun at h
  split at h
  · cases h
  · split at h
    · injection h with h; subst h; rfl
    · injection h with h; subst h; rfl

theorem removeRunningTask_ready {s s1 : OmafCurlMultiDownloader} {t : Nat} {c : Curl}
    (h : removeRunningTask s t c = some s1) : s1.ready_task_list_ = s.ready_task_list_ := by
  unfold removeRunningTask at h
  cases hv : moveTaskFromRun s t State.STOPPED with
  | none => simp [hv] at h
  | some s2 =>
    simp only [hv] at h
    cases hr : removeTransfer s2 t c with
    | none => simp [hr] at h
    | some x =>
      simp only [hr] at h
      injection h with h; subst h
      exact moveTaskFromRun_ready hv

theorem processMsg_ready {s s1 : OmafCurlMultiDownloader} {m : Completion} {c : Curl}
    (h : processMsg s m c = some s1) : s1.ready_task_list_ = s.ready_task_list_ := by
  unfold processMsg at h
  split at h
  · split at h
    · injection h with h; subst h; rfl
    · rename_i t hf
      split at h
      · cases h
      · split at h
        · unfold markTaskFinish at h
          cases hv : moveTaskFromRun s t State.FINISH with
          | none => simp [hv] at h
          | some s2 =>
            simp only [hv] at h
            injection h with h; subst h
            rw [(processTaskDone_frame s2 t).1]; exact moveTaskFromRun_ready hv
        · unfold markTaskTimeout at h
          cases hv : moveTaskFromRun s t State.TIMEOUT with
          | none => simp [hv] at h
          | some s2 =>
            simp only [hv] at h
            split at h
            · injection h with h; subst h
              rw [startTransfer_ready]
              exact (moveTaskFromRun_ready hv : s2.ready_task_list_ = s.ready_task_list_)
            · injection h with h; subst h
              rw [(processTaskDone_frame s2 t).1]; exact moveTaskFromRun_ready hv
  · injection h with h; subst h; rfl

/-- One call of `startTaskDownload` takes exactly `frontTask` from the ready queue. -/
theorem startTaskDownload_ready {s : OmafCurlMultiDownloader} {c : Curl}
    {r : OMAF_STATUS × OmafCurlMultiDownloader} (h : startTaskDownload s c = some r) :
    s.ready_task_list_ = (frontTask s).toList ++ r.2.ready_task_list_ := by
  unfold startTaskDownload at h
  unfold frontTask
  split at h
  · rename_i hl
    rw [if_pos hl]
    split at h
    · rename_i hq
      injection h with h; subst h
      simp [hq]
    · rename_i t rest hq
      have h1 := createTransfer_ready { s with ready_task_list_ := rest } t c
      have h2 := startTransfer_ready (createTransfer { s with ready_task_list_ := rest } t c).2 t c
      simp only at h
      have hgoal : ∀ x : OmafCurlMultiDownloader, x.ready_task_list_ = rest →
          s.ready_task_list_ = (s.ready_task_list_.head?).toList ++ x.ready_task_list_ := by
        intro x hx
        rw [hx, hq]; rfl
      split at h
      · split at h
        · split at h
          · cases h
          · rename_i s3 hrm
            injection h with h; subst h
            exact hgoal _ (by rw [removeRunningTask_ready hrm, h2, h1])
        · injection h with h; subst h
          exact hgoal _ (by rw [h2, h1])
      · injection h with h; subst h
        exact hgoal _ h1
  · rename_i hl
    rw [if_neg hl]
    injection h with h; subst h
    rfl

theorem frontTask_length (s : OmafCurlMultiDownloader) : (frontTask s).toList.length ≤ 1 := by
  cases frontTask s <;> simp

theorem fifo_run (ops : List Op) : ∀ (s s1 : OmafCurlMultiDownloader),
    (∀ op ∈ ops, isRemove op = false) → run s ops = some s1 →
    s.ready_task_list_ ++ addedTasks ops = admitted s ops ++ s1.ready_task_list_ := by
  induction ops with
  | nil =>
    intro s s1 _ h
    simp only [run] at h
    injection h with h; subst h
    simp [addedTasks, admitted]
  | cons op ops ih =>
    intro s s1 hno h
    simp only [run] at h
    cases hs : step s op with
    | none => simp [hs] at h
    | some s2 =>
      simp only [hs] at h
      have ih2 := ih s2 s1 (fun o ho => hno o (List.mem_cons_of_mem _ ho)) h
      have hop := hno op (List.mem_cons_self _ _)
      cases op with
      | addTask task =>
        simp only [step] at hs
        injection hs with hs; subst hs
        cases task with
        | none =>
          simp only [admitted, addedTasks, step, List.nil_append]
          exact ih2
        | some t =>
          simp only [admitted, addedTasks, step, List.nil_append]
          rw [← ih2]
          show _ = (s.ready_task_list_ ++ [t]) ++ addedTasks ops
          simp
      | removeTask task c => simp [isRemove] at hop
      | startTaskDownload c =>
        simp only [step] at hs
        cases hr : startTaskDownload s c with
        | none => simp [hr] at hs
        | some r =>
          simp [hr] at hs; subst hs
          have h3 := startTaskDownload_ready hr
          simp only [admitted, addedTasks, step, hr, Option.map]
          rw [List.append_assoc, ← ih2, ← List.append_assoc, ← h3]
      | chunk t n =>
        simp only [step] at hs
        injection hs with hs; subst hs
        simp only [admitted, addedTasks, step, List.nil_append]
        rw [← ih2]
        have : (onStreamBlock s t n).ready_task_list_ = s.ready_task_list_ := by
          unfold onStreamBlock
          split <;> rfl
        rw [this]
      | done m c =>
        simp only [step] at hs
        simp only [admitted, addedTasks, step, hs, List.nil_append]
        rw [← ih2, processMsg_ready hs]

/-- C16: over any sequence of `addTask` calls and worker steps without `removeTask`,
the tasks handed to `createTransfer`, in that order, followed by the tasks still
pending, are the tasks that were pending at the start followed by the tasks added, in
the order of the `addTask` calls; and every admission step takes at most the task at
the front of the queue. -/
theorem admission_is_fifo (s s1 : OmafCurlMultiDownloader) (ops : List Op)
    (hno : ∀ op ∈ ops, isRemove op = false) (hrun : run s ops = some s1) :
    s.ready_task_list_ ++ addedTasks ops = admitted s ops ++ s1.ready_task_list_ ∧
    (∀ (s2 : OmafCurlMultiDownloader) c r, startTaskDownload s2 c = some r →
      s2.ready_task_list_ = (frontTask s2).toList ++ r.2.ready_task_list_ ∧
      (frontTask s2).toList.length ≤ 1) :=
  ⟨fifo_run ops s s1 hno hrun,
    fun s2 _ _ hr => ⟨startTaskDownload_ready hr, frontTask_length s2⟩⟩

theorem admission_is_fifo_witness :
    (∀ op ∈ fifoOps, isRemove op = false) ∧
    run (init 2 4 1 true (freshHeap sampleUrl sampleDcb)) fifoOps =
      some (runD (init 2 4 1 true (freshHeap sampleUrl sampleDcb)) fifoOps) ∧
    ((init 2 4 1 true (freshHeap sampleUrl sampleDcb)).ready_task_list_ ++ addedTasks fifoOps =
        admitted (init 2 4 1 true (freshHeap sampleUrl sampleDcb)) fifoOps ++
          (runD (init 2 4 1 true (freshHeap sampleUrl sampleDcb)) fifoOps).ready_task_list_ ∧
    (∀ (s2 : OmafCurlMultiDownloader) c r, startTaskDownload s2 c = some r →
      s2.ready_task_list_ = (frontTask s2).toList ++ r.2.ready_task_list_ ∧
      (frontTask s2).toList.length ≤ 1)) :=
  ⟨by decide, rfl,
    admission_is_fifo _ _ fifoOps (by decide) rfl⟩

theorem fifo_sample_order :
    admitted (init 2 4 1 true (freshHeap sampleUrl sampleDcb)) fifoOps = [0, 1] ∧
    addedTasks fifoOps = [0, 1, 2] := by
  decide

end VCD.OMAF

/-! ## Lemmas and theorems on the DecoderManager -/

namespace VCD

theorem dmFind_cons (e : Nat × Option VideoDecoder) (m : List (Nat × Option VideoDecoder))
    (k : Nat) : dmFind (e :: m) k = if e.1 = k then some e.2 else dmFind m k := by
  unfold dmFind
  rw [List.find?_cons]
  by_cases h : e.1 = k
  · have hb : (e.1 == k) = true := by simpa using h
    simp [hb, h]
  · have hb : (e.1 == k) = false := by simpa using h
    simp [hb, h]

theorem dmFind_map_set (m : List (Nat × Option VideoDecoder)) (k j : Nat)
    (v : Option VideoDecoder) :
    dmFind (m.map (fun e => if e.1 = k then (k, v) else e)) j =
      if j = k then (dmFind m k).map (fun _ => v) else dmFind m j := by
  induction m with
  | nil => simp [dmFind]
  | cons e rest ih =>
    rw [List.map_cons, dmFind_cons, ih]
    by_cases hj : j = k
    · subst hj
      by_cases he : e.1 = j
      · simp [he, dmFind_cons]
      · simp [he, dmFind_cons]
    · by_cases he : e.1 = k
      · have : ¬ k = j := fun x => hj x.symm
        have h2 : ¬ e.1 = j := by rw [he]; exact this
        simp [he, hj, this, dmFind_cons]
      · simp [he, hj, dmFind_cons]

theorem dmFind_insertNew (m : List (Nat × Option VideoDecoder)) (k j : Nat)
    (v : Option VideoDecoder) (h : dmFind m k = none) :
    dmFind (dmInsertNew m k v) j = if j = k then some v else dmFind m j := by
  induction m with
  | nil =>
    by_cases hj : j = k
    · simp [dmInsertNew, dmFind_cons, hj]
    · have : ¬ k = j := fun x => hj x.symm
      simp [dmInsertNew, dmFind_cons, hj, this, dmFind]
  | cons e rest ih =>
    rw [dmFind_cons] at h
    have hek : ¬ e.1 = k := by
      intro x; rw [if_pos x] at h; cases h
    rw [if_neg hek] at h
    unfold dmInsertNew
    by_cases h1 : k < e.1
    · rw [if_pos h1, dmFind_cons]
      by_cases hj : j = k
      · simp [hj]
      · have : ¬ k = j := fun x => hj x.symm
        simp [hj, this]
    · rw [if_neg h1, dmFind_cons, ih h, dmFind_cons]
      by_cases hj : j = k
      · subst hj; simp [hek]
      · simp [hj]

theorem dmFind_dmSet_same (m : List (Nat × Option VideoDecoder)) (k : Nat)
    (v : Option VideoDecoder) : dmFind (dmSet m k v) k = some v := by
  unfold dmSet
  cases h : dmFind m k with
  | none => simp [dmFind_insertNew _ _ _ _ h]
  | some x => simp [dmFind_map_set, h]

theorem dmFind_dmSet_ne (m : List (Nat × Option VideoDecoder)) (k j : Nat)
    (v : Option VideoDecoder) (h : j ≠ k) : dmFind (dmSet m k v) j = dmFind m j := by
  unfold dmSet
  cases hk : dmFind m k with
  | none => simp [dmFind_insertNew _ _ _ _ hk, h]
  | some x => simp [dmFind_map_set, h]

theorem dmFind_dmSet_present (m : List (Nat × Option VideoDecoder)) (k j : Nat)
    (v : Option VideoDecoder) (h : dmFind m j ≠ none) : dmFind (dmSet m k v) j ≠ none := by
  by_cases hj : j = k
  · subst hj; rw [dmFind_dmSet_same]; simp
  · rw [dmFind_dmSet_ne _ _ _ _ hj]; exact h

theorem dmKeys_dmSet (m : List (Nat × Option VideoDecoder)) (k : Nat)
    (v : Option VideoDecoder) (h : dmFind m k ≠ none) : dmKeys (dmSet m k v) = dmKeys m := by
  unfold dmSet
  cases hk : dmFind m k with
  | none => exact absurd hk h
  | some x =>
    simp only [Option.isSome_some, if_true, dmKeys, List.map_map]
    apply List.map_congr_left
    intro e _
    by_cases he : e.1 = k
    · simp [he]
    · simp [he]

theorem dmFind_mem_keys (m : List (Nat × Option VideoDecoder)) (k : Nat) :
    dmFind m k ≠ none ↔ k ∈ dmKeys m := by
  induction m with
  | nil => simp [dmFind, dmKeys]
  | cons e rest ih =>
    rw [dmFind_cons]
    by_cases he : e.1 = k
    · simp [he, dmKeys]
    · have : ¬ k = e.1 := fun x => he x.symm
      simp only [if_neg he, ih, dmKeys, List.map_cons, List.mem_cons, this, false_or]

theorem getElem?_lt_some {α : Type} (l : List α) (i : Nat) (h : i < l.length) :
    ∃ p, l[i]? = some p := ⟨l[i], List.getElem?_eq_getElem h⟩

theorem isFound_ok (packets : List DashPacket) (key : Nat) (n : Nat) :
    ∀ i, i + n ≤ packets.length → ∃ b, isFound packets key i n = Except.ok b := by
  induction n with
  | zero => intro i _; exact ⟨false, rfl⟩
  | succ n ih =>
    intro i h
    obtain ⟨p, hp⟩ := getElem?_lt_some packets i (by omega)
    unfold isFound
    rw [hp]
    by_cases hk : p.videoID = key
    · exact ⟨true, by simp [hk]⟩
    · obtain ⟨b, hb⟩ := ih (i + 1) (by omega)
      exact ⟨b, by simp [hk, hb]⟩

theorem lossIDs_ok (packets : List DashPacket) (cnt : Nat) (h : cnt ≤ packets.length)
    (m : List (Nat × Option VideoDecoder)) : ∃ l, lossIDs packets cnt m = Except.ok l := by
  induction m with
  | nil => exact ⟨[], rfl⟩
  | cons e rest ih =>
    obtain ⟨b, hb⟩ := isFound_ok packets e.1 cnt 0 (by omega)
    obtain ⟨l, hl⟩ := ih
    unfold lossIDs
    rw [hb, hl]
    exact ⟨_, rfl⟩

theorem lossIDs_subset (packets : List DashPacket) (cnt : Nat)
    (m : List (Nat × Option VideoDecoder)) :
    ∀ l, lossIDs packets cnt m = Except.ok l → ∀ id ∈ l, id ∈ dmKeys m := by
  induction m with
  | nil =>
    intro l h id hid
    simp only [lossIDs] at h
    injection h with h; subst h
    cases hid
  | cons e rest ih =>
    intro l h id hid
    unfold lossIDs at h
    cases hb : isFound packets e.1 0 cnt with
    | error f => rw [hb] at h; cases h
    | ok b =>
      rw [hb] at h
      simp only at h
      cases hl : lossIDs packets cnt rest with
      | error f => rw [hl] at h; cases h
      | ok l1 =>
        rw [hl] at h
        simp only at h
        injection h with h; subst h
        have ih1 := ih l1 hl
        cases b with
        | true =>
          simp only [if_true] at hid
          simp only [dmKeys, List.map_cons, List.mem_cons]
          right; exact ih1 id hid
        | false =>
          simp only [Bool.false_eq_true, if_false, List.mem_cons] at hid
          simp only [dmKeys, List.map_cons, List.mem_cons]
          rcases hid with h1 | h1
          · left; exact h1
          · right; exact ih1 id h1

theorem pendLoss_err (env : DecoderEnv) (ids : List Nat) :
    ∀ m, (∀ id ∈ ids, dmFind m id ≠ none) → ∀ f, pendLoss env ids m = Except.error f →
      f = Fault.nullDecoder ∨ f = Fault.nullFactory := by
  induction ids with
  | nil => intro m _ f h; simp [pendLoss] at h
  | cons id ids ih =>
    intro m hpres f h
    unfold pendLoss at h
    have hid := hpres id (List.mem_cons_self _ _)
    cases hf : dmFind m id with
    | none => exact absurd hf hid
    | some x =>
      rw [hf] at h
      cases x with
      | none =>
        simp only at h
        injection h with h
        left; exact h.symm
      | some d =>
        simp only at h
        split at h
        · apply ih _ _ f h
          intro j hj
          exact dmFind_dmSet_present _ _ _ _ (hpres j (List.mem_cons_of_mem _ hj))
        · exact ih m (fun j hj => hpres j (List.mem_cons_of_mem _ hj)) f h

theorem CreateVideoDecoder_spec (env : DecoderEnv) (dm : DecoderManager) (id codec : Nat) :
    (∀ f, CreateVideoDecoder env dm id codec = Except.error f →
      f = Fault.nullDecoder ∨ f = Fault.nullFactory) ∧
    ∀ r dm1, CreateVideoDecoder env dm id codec = Except.ok (r, dm1) →
      dm1.currentPts = dm.currentPts ∧ dm1.sent_log = dm.sent_log ∧
      dm1.m_handlerFactory = dm.m_handlerFactory ∧
      (r ≠ RenderStatus.RENDER_STATUS_OK → dm1 = dm) ∧
      (r = RenderStatus.RENDER_STATUS_OK →
        dm1.m_mapVideoDecoder = dmSet dm.m_mapVideoDecoder id (some ⟨env.initStatus⟩)) := by
  unfold CreateVideoDecoder
  by_cases hf : dm.m_handlerFactory = true
  · rw [if_pos hf]
    simp only
    by_cases h : env.Initialize id codec ≠ RenderStatus.RENDER_STATUS_OK
    · rw [if_pos h]
      refine ⟨(fun f hx => nomatch hx), ?_⟩
      intro r dm1 he
      injection he with he; injection he with h1 h2; subst h1; subst h2
      exact ⟨rfl, rfl, rfl, fun _ => rfl, fun x => absurd x h⟩
    · rw [if_neg h]
      refine ⟨(fun f hx => nomatch hx), ?_⟩
      intro r dm1 he
      injection he with he; injection he with h1 h2; subst h1; subst h2
      exact ⟨rfl, rfl, rfl, fun x => absurd rfl x, fun _ => rfl⟩
  · rw [if_neg hf]
    refine ⟨fun f hx => ?_, ?_⟩
    · injection hx with hx
      right; exact hx.symm
    · intro r dm1 he
      cases he

theorem createLoop_spec (env : DecoderEnv) (packets : List DashPacket) (n : Nat) :
    ∀ i ret dm, i + n ≤ packets.length → i + n < 2 ^ 31 →
      (∀ f, createLoop env packets i n ret dm = Except.error f →
        f = Fault.nullDecoder ∨ f = Fault.nullFactory) ∧
      ∀ r dm2, createLoop env packets i n ret dm = Except.ok (r, dm2) →
        dm2.currentPts = dm.currentPts ∧ dm2.sent_log = dm.sent_log ∧
        (∀ k, dmFind dm.m_mapVideoDecoder k ≠ none → dmFind dm2.m_mapVideoDecoder k ≠ none) ∧
        (r = RenderStatus.RENDER_STATUS_OK → ∀ j, i ≤ j → j < i + n → ∀ p, packets[j]? = some p →
          dmFind dm2.m_mapVideoDecoder p.videoID ≠ none) := by
  induction n with
  | zero =>
    intro i ret dm _ _
    refine ⟨fun f hx => (by simp [createLoop] at hx), ?_⟩
    intro r dm2 he
    simp only [createLoop] at he
    injection he with he; injection he with h1 h2; subst h1; subst h2
    exact ⟨rfl, rfl, fun _ h => h, fun _ j h1 h2 => by omega⟩
  | succ n ih =>
    intro i ret dm h hint
    have hlt : i + 1 < 2 ^ 31 := by omega
    obtain ⟨p, hp⟩ := getElem?_lt_some packets i (by omega)
    unfold createLoop
    rw [hp]
    simp only
    cases hf : dmFind dm.m_mapVideoDecoder p.videoID with
    | some x =>
      simp only
      rw [if_pos hlt]
      obtain ⟨g1, g2⟩ := ih (i + 1) ret dm (by omega) (by omega)
      refine ⟨g1, ?_⟩
      intro r dm2 he
      obtain ⟨a1, a2, a3, a4⟩ := g2 r dm2 he
      refine ⟨a1, a2, a3, ?_⟩
      intro hr j hj1 hj2 q hq
      by_cases hji : j = i
      · subst hji
        rw [hp] at hq; injection hq with hq; subst hq
        exact a3 _ (by rw [hf]; simp)
      · exact a4 hr j (by omega) (by omega) q hq
    | none =>
      simp only
      obtain ⟨c1, c2⟩ := CreateVideoDecoder_spec env dm p.videoID p.video_codec
      cases hc : CreateVideoDecoder env dm p.videoID p.video_codec with
      | error f =>
        simp only
        refine ⟨?_, fun r dm2 he => by cases he⟩
        intro f1 hx
        injection hx with hx
        subst hx
        exact c1 _ hc
      | ok rd =>
        obtain ⟨r1, dm1⟩ := rd
        obtain ⟨b1, b2, _, b4, b5⟩ := c2 r1 dm1 hc
        simp only
        by_cases hr1 : r1 = RenderStatus.RENDER_STATUS_OK
        · rw [if_neg (by simpa using hr1), if_pos hlt]
          have hmap := b5 hr1
          obtain ⟨g1, g2⟩ := ih (i + 1) r1 dm1 (by omega) (by omega)
          refine ⟨g1, ?_⟩
          intro r dm2 he
          obtain ⟨a1, a2, a3, a4⟩ := g2 r dm2 he
          have hmono : ∀ k, dmFind dm.m_mapVideoDecoder k ≠ none →
              dmFind dm1.m_mapVideoDecoder k ≠ none := by
            intro k hk
            rw [hmap]; exact dmFind_dmSet_present _ _ _ _ hk
          refine ⟨a1.trans b1, a2.trans b2, fun k hk => a3 k (hmono k hk), ?_⟩
          intro hr j hj1 hj2 q hq
          by_cases hji : j = i
          · subst hji
            rw [hp] at hq; injection hq with hq; subst hq
            apply a3
            rw [hmap, dmFind_dmSet_same]; simp
          · exact a4 hr j (by omega) (by omega) q hq
        · rw [if_pos (by simpa using hr1)]
          refine ⟨(fun f hx => nomatch hx), ?_⟩
          intro r dm2 he
          injection he with he; injection he with h1 h2; subst h1; subst h2
          have := b4 hr1
          subst this
          exact ⟨rfl, rfl, fun _ hk => hk, fun hr => absurd hr hr1⟩

theorem setEOS_spec (n : Nat) : ∀ (packets : List DashPacket) i, i + n ≤ packets.length →
    i + n < 2 ^ 31 → ∃ pk, setEOS packets i n = Except.ok pk ∧ pk.length = packets.length ∧
      ∀ j : Nat, (pk[j]?).map (fun p : DashPacket => (p.videoID, p.pts)) =
        (packets[j]?).map (fun p : DashPacket => (p.videoID, p.pts)) := by
  induction n with
  | zero => intro packets i _ _; exact ⟨packets, rfl, rfl, fun _ => rfl⟩
  | succ n ih =>
    intro packets i h hint
    have hlt : i + 1 < 2 ^ 31 := by omega
    obtain ⟨p, hp⟩ := getElem?_lt_some packets i (by omega)
    obtain ⟨pk, h1, h2, h3⟩ := ih (packets.set i { p with bEOS := true }) (i + 1)
      (by rw [List.length_set]; omega) (by omega)
    refine ⟨pk, ?_, by rw [h2, List.length_set], ?_⟩
    · unfold setEOS
      rw [hp]
      simp only
      rw [if_pos hlt]
      exact h1
    · intro j
      rw [h3 j]
      by_cases hji : i = j
      · subst hji
        rw [List.getElem?_set_self (by omega), hp]
        rfl
      · rw [List.getElem?_set_ne hji]

theorem pendingDecoders_spec (env : DecoderEnv) (dm : DecoderManager)
    (packets : List DashPacket) (cnt : Nat) (h : cnt ≤ packets.length) :
    (∀ f, pendingDecoders env dm packets cnt = Except.error f →
      f = Fault.nullDecoder ∨ f = Fault.nullFactory) ∧
    ∀ dm1, pendingDecoders env dm packets cnt = Except.ok dm1 →
      dm1.currentPts = dm.currentPts ∧ dm1.sent_log = dm.sent_log ∧
      dm1.m_handlerFactory = dm.m_handlerFactory := by
  unfold pendingDecoders
  simp only
  split
  · obtain ⟨l, hl⟩ := lossIDs_ok packets cnt h dm.m_mapVideoDecoder
    rw [hl]
    simp only
    cases hp : pendLoss env l dm.m_mapVideoDecoder with
    | error f =>
      simp only
      refine ⟨?_, fun dm1 he => by cases he⟩
      intro f1 hx
      injection hx with hx
      subst hx
      exact pendLoss_err env l _
        (fun id hid => (dmFind_mem_keys _ _).mpr (lossIDs_subset packets cnt _ l hl id hid)) _ hp
    | ok m =>
      simp only
      refine ⟨(fun f hx => nomatch hx), ?_⟩
      intro dm1 he
      injection he with he; subst he
      exact ⟨rfl, rfl, rfl⟩
  · refine ⟨(fun f hx => nomatch hx), ?_⟩
    intro dm1 he
    injection he with he; subst he
    exact ⟨rfl, rfl, rfl⟩

theorem CheckVideoDecoders_spec (env : DecoderEnv) (dm : DecoderManager)
    (packets : List DashPacket) (cnt : Nat) (h : cnt ≤ packets.length)
    (h1 : 1 ≤ packets.length) (hint : cnt < 2 ^ 31) :
    (∀ f, CheckVideoDecoders env dm packets cnt = Except.error f →
      f = Fault.nullDecoder ∨ f = Fault.nullFactory) ∧
    ∀ ret dm1 pk1, CheckVideoDecoders env dm packets cnt = Except.ok (ret, dm1, pk1) →
      dm1.currentPts = dm.currentPts ∧ dm1.sent_log = dm.sent_log ∧
      pk1.length = packets.length ∧
      (∀ j : Nat, (pk1[j]?).map (fun p : DashPacket => (p.videoID, p.pts)) =
        (packets[j]?).map (fun p : DashPacket => (p.videoID, p.pts))) ∧
      (ret = RenderStatus.RENDER_STATUS_OK → ∀ j, j < cnt → ∀ p, packets[j]? = some p →
        dmFind dm1.m_mapVideoDecoder p.videoID ≠ none) := by
  obtain ⟨a1, a2⟩ := pendingDecoders_spec env dm packets cnt h
  unfold CheckVideoDecoders
  cases hp : pendingDecoders env dm packets cnt with
  | error f =>
    simp only
    refine ⟨?_, fun _ _ _ he => by cases he⟩
    intro f1 hx
    injection hx with hx
    subst hx
    exact a1 _ hp
  | ok dmA =>
    simp only
    obtain ⟨b1, b2, _⟩ := a2 dmA hp
    obtain ⟨c1, c2⟩ := createLoop_spec env packets cnt 0 RenderStatus.RENDER_STATUS_OK dmA
      (by omega) (by omega)
    cases hc : createLoop env packets 0 cnt RenderStatus.RENDER_STATUS_OK dmA with
    | error f =>
      simp only
      refine ⟨?_, fun _ _ _ he => by cases he⟩
      intro f1 hx
      injection hx with hx
      subst hx
      exact c1 _ hc
    | ok rd =>
      obtain ⟨r, dmB⟩ := rd
      simp only
      obtain ⟨e1, e2, _, e4⟩ := c2 r dmB hc
      obtain ⟨p0, hp0⟩ := getElem?_lt_some packets 0 (by omega)
      rw [hp0]
      simp only
      have hpres : r = RenderStatus.RENDER_STATUS_OK → ∀ j, j < cnt → ∀ p,
          packets[j]? = some p → dmFind dmB.m_mapVideoDecoder p.videoID ≠ none := by
        intro hr j hj p hpj
        exact e4 hr j (by omega) (by omega) p hpj
      by_cases hb : p0.bEOS = true
      · rw [if_pos hb]
        obtain ⟨pk, g1, g2, g3⟩ := setEOS_spec cnt packets 0 (by omega) (by omega)
        rw [g1]
        simp only
        refine ⟨(fun f hx => nomatch hx), ?_⟩
        intro ret dm1 pk1 he
        injection he with he; injection he with h3 h4; injection h4 with h4 h5
        subst h3; subst h4; subst h5
        exact ⟨e1.trans b1, e2.trans b2, g2, g3, hpres⟩
      · rw [if_neg hb]
        refine ⟨(fun f hx => nomatch hx), ?_⟩
        intro ret dm1 pk1 he
        injection he with he; injection he with h3 h4; injection h4 with h4 h5
        subst h3; subst h4; subst h5
        exact ⟨e1.trans b1, e2.trans b2, rfl, fun _ => rfl, hpres⟩

theorem sendLoop_spec (env : DecoderEnv) (n : Nat) :
    ∀ i (dm : DecoderManager) (pk : List DashPacket), i + n ≤ pk.length →
      i + n < 2 ^ 31 →
      (∀ j, i ≤ j → j < i + n → ∀ p, pk[j]? = some p →
        dmFind dm.m_mapVideoDecoder p.videoID ≠ none) →
      (∀ f, sendLoop env i n dm pk = Except.error f →
        f = Fault.nullDecoder ∨ f = Fault.nullFactory) ∧
      ∀ dm2 pk2, sendLoop env i n dm pk = Except.ok (dm2, pk2) →
        dmKeys dm2.m_mapVideoDecoder = dmKeys dm.m_mapVideoDecoder ∧
        dm2.currentPts = dm.currentPts ∧ pk2.length = pk.length ∧
        (∀ j : Nat, j < i → pk2[j]? = pk[j]?) ∧
        (∀ j : Nat, i + n ≤ j → pk2[j]? = pk[j]?) ∧
        (∀ j : Nat, i ≤ j → j < i + n → ∃ p, pk[j]? = some p ∧
          pk2[j]? = some { p with pts := dm.currentPts }) ∧
        ∃ new, dm2.sent_log = new ++ dm.sent_log ∧ new.length = n ∧
          ∀ e ∈ new, e.2.pts = dm.currentPts := by
  induction n with
  | zero =>
    intro i dm pk _ _ _
    refine ⟨fun f hx => (by simp [sendLoop] at hx), ?_⟩
    intro dm2 pk2 he
    simp only [sendLoop] at he
    injection he with he; injection he with h1 h2; subst h1; subst h2
    exact ⟨rfl, rfl, rfl, fun _ _ => rfl, fun _ _ => rfl, fun j h1 h2 => by omega,
      [], rfl, rfl, fun e he => by cases he⟩
  | succ n ih =>
    intro i dm pk hlen hint hpres
    have hlt : i + 1 < 2 ^ 31 := by omega
    obtain ⟨p, hp⟩ := getElem?_lt_some pk i (by omega)
    have hpp := hpres i (le_refl _) (by omega) p hp
    unfold sendLoop
    rw [hp]
    simp only
    cases hf : dmFind dm.m_mapVideoDecoder p.videoID with
    | none => exact absurd hf hpp
    | some x =>
      cases x with
      | none =>
        simp only
        refine ⟨fun f hx => ?_, fun _ _ he => by cases he⟩
        injection hx with hx
        left; exact hx.symm
      | some d =>
        simp only
        rw [if_pos hlt]
        have hlen2 : i + 1 + n ≤ (pk.set i { p with pts := dm.currentPts }).length := by
          rw [List.length_set]; omega
        have hpres2 : ∀ j, i + 1 ≤ j → j < i + 1 + n → ∀ q,
            (pk.set i { p with pts := dm.currentPts })[j]? = some q →
            dmFind (dmSet dm.m_mapVideoDecoder p.videoID
              (some (env.SendPacket d { p with pts := dm.currentPts }))) q.videoID ≠ none := by
          intro j hj1 hj2 q hq
          rw [List.getElem?_set_ne (by omega)] at hq
          exact dmFind_dmSet_present _ _ _ _ (hpres j (by omega) (by omega) q hq)
        obtain ⟨g1, g3⟩ := ih (i + 1)
          { dm with
            m_mapVideoDecoder := dmSet dm.m_mapVideoDecoder p.videoID
              (some (env.SendPacket d { p with pts := dm.currentPts }))
            sent_log := (p.videoID, { p with pts := dm.currentPts }) :: dm.sent_log }
          (pk.set i { p with pts := dm.currentPts }) hlen2 (by omega) hpres2
        refine ⟨g1, ?_⟩
        intro dm2 pk2 he
        obtain ⟨a1, a2, a3, a4, a5, a6, new, a7, a8, a9⟩ := g3 dm2 pk2 he
        refine ⟨?_, a2, by rw [a3, List.length_set], ?_, ?_, ?_, ?_⟩
        · rw [a1]; exact dmKeys_dmSet _ _ _ hpp
        · intro j hj
          rw [a4 j (by omega), List.getElem?_set_ne (by omega)]
        · intro j hj
          rw [a5 j (by omega), List.getElem?_set_ne (by omega)]
        · intro j hj1 hj2
          by_cases hji : j = i
          · subst hji
            refine ⟨p, hp, ?_⟩
            rw [a4 j (by omega), List.getElem?_set_self (by omega)]
          · obtain ⟨q, hq1, hq2⟩ := a6 j (by omega) (by omega)
            rw [List.getElem?_set_ne (by omega)] at hq1
            exact ⟨q, hq1, hq2⟩
        · refine ⟨new ++ [(p.videoID, { p with pts := dm.currentPts })], ?_, ?_, ?_⟩
          · rw [a7]; simp
          · simp [a8]
          · intro e he
            rcases List.mem_append.mp he with h1 | h1
            · exact a9 e h1
            · simp at h1; rw [h1]

theorem SendVideoPackets_spec (env : DecoderEnv) (dm : DecoderManager)
    (packets : List DashPacket) (cnt : Nat) (h : cnt ≤ packets.length)
    (h1 : 1 ≤ packets.length) (hint : cnt < 2 ^ 31) :
    (∀ f, SendVideoPackets env dm packets cnt = Except.error f →
      f = Fault.nullDecoder ∨ f = Fault.nullFactory) ∧
    ∀ ret dm2 pk2, SendVideoPackets env dm packets cnt = Except.ok (ret, dm2, pk2) →
      ∃ r1 dm1 pk1, CheckVideoDecoders env dm packets cnt = Except.ok (r1, dm1, pk1) ∧
        ret = r1 ∧
        (r1 ≠ RenderStatus.RENDER_STATUS_OK →
          dm2 = dm1 ∧ pk2 = pk1 ∧ dm2.currentPts = dm.currentPts ∧
          dm2.sent_log = dm.sent_log) ∧
        (r1 = RenderStatus.RENDER_STATUS_OK →
          dmKeys dm2.m_mapVideoDecoder = dmKeys dm1.m_mapVideoDecoder ∧
          dm2.currentPts = (dm.currentPts + 1) % 2 ^ 64 ∧
          pk2.length = packets.length ∧
          (∀ j : Nat, j < cnt → ∃ p, packets[j]? = some p ∧ ∃ q, pk2[j]? = some q ∧
            q.videoID = p.videoID ∧ q.pts = dm.currentPts) ∧
          ∃ new, dm2.sent_log = new ++ dm.sent_log ∧ new.length = cnt ∧
            ∀ e ∈ new, e.2.pts = dm.currentPts) := by
  obtain ⟨c1, c2⟩ := CheckVideoDecoders_spec env dm packets cnt h h1 hint
  unfold SendVideoPackets
  cases hc : CheckVideoDecoders env dm packets cnt with
  | error f =>
    simp only
    refine ⟨?_, fun _ _ _ he => by cases he⟩
    intro f1 hx
    injection hx with hx
    subst hx
    exact c1 _ hc
  | ok r =>
    obtain ⟨r1, dm1, pk1⟩ := r
    simp only
    obtain ⟨b1, b2, b3, b4, b5⟩ := c2 r1 dm1 pk1 hc
    by_cases hr : r1 = RenderStatus.RENDER_STATUS_OK
    · rw [if_neg (not_not.mpr hr)]
      have hrel : ∀ j : Nat, ∀ p1, pk1[j]? = some p1 →
          ∃ p, packets[j]? = some p ∧ p.videoID = p1.videoID := by
        intro j p1 hp1
        have hj := b4 j
        rw [hp1] at hj
        cases hq : packets[j]? with
        | none => rw [hq] at hj; cases hj
        | some q =>
          rw [hq] at hj
          simp only [Option.map_some'] at hj
          injection hj with hj
          injection hj with hj1 hj2
          exact ⟨q, rfl, hj1.symm⟩
      have hpres : ∀ j, 0 ≤ j → j < 0 + cnt → ∀ p, pk1[j]? = some p →
          dmFind dm1.m_mapVideoDecoder p.videoID ≠ none := by
        intro j _ hj p1 hp1
        obtain ⟨q, hq1, hq2⟩ := hrel j p1 hp1
        rw [← hq2]
        exact b5 hr j (by omega) q hq1
      obtain ⟨s1, s2⟩ := sendLoop_spec env cnt 0 dm1 pk1 (by omega) (by omega) hpres
      cases hs : sendLoop env 0 cnt dm1 pk1 with
      | error f =>
        simp only
        refine ⟨?_, fun _ _ _ he => by cases he⟩
        intro f1 hx
        injection hx with hx
        subst hx
        exact s1 _ hs
      | ok x =>
        obtain ⟨dmS, pkS⟩ := x
        simp only
        refine ⟨(fun f hx => nomatch hx), ?_⟩
        intro ret dm2 pk2 he
        injection he with he; injection he with h3 h4; injection h4 with h4 h5
        subst h3; subst h4; subst h5
        obtain ⟨a1, a2, a3, _, _, a6, new, a7, a8, a9⟩ := s2 dmS pkS hs
        refine ⟨r1, dm1, pk1, rfl, hr.symm, fun hn => absurd hr hn, fun _ => ?_⟩
        refine ⟨a1, ?_, by rw [a3, b3], ?_, new, by rw [← b2]; exact a7, a8, ?_⟩
        · show (dmS.currentPts + 1) % 2 ^ 64 = _
          rw [a2, b1]
        · intro j hj
          obtain ⟨p1, hp1, hp2⟩ := a6 j (by omega) (by omega)
          obtain ⟨q, hq1, hq2⟩ := hrel j p1 hp1
          exact ⟨q, hq1, _, hp2, hq2.symm, b1⟩
        · intro e he
          rw [a9 e he, b1]
    · rw [if_pos hr]
      refine ⟨(fun f hx => nomatch hx), ?_⟩
      intro ret dm2 pk2 he
      injection he with he; injection he with h3 h4; injection h4 with h4 h5
      subst h3; subst h4; subst h5
      exact ⟨_, _, _, rfl, rfl, fun _ => ⟨rfl, rfl, b1, b2⟩, fun hx => absurd hx hr⟩

/-- C17: for an array of `cnt` packets with `1 ≤ cnt < 2 ^ 31`, `CheckVideoDecoders`
and `SendVideoPackets` access no index outside the array; when `CheckVideoDecoders`
returns `RENDER_STATUS_OK` the video of every packet is a key of the decoder map, and
`SendVideoPackets` finds every key it looks up, so that it inserts no entry, and
leaves the keys of the map as they are. -/
theorem check_ok_decoders_present (env : DecoderEnv) (dm : DecoderManager)
    (packets : List DashPacket) (cnt : Nat) (hlen : packets.length = cnt) (hcnt : 1 ≤ cnt)
    (hint : cnt < 2 ^ 31) :
    CheckVideoDecoders env dm packets cnt ≠ Except.error Fault.outOfBounds ∧
    SendVideoPackets env dm packets cnt ≠ Except.error Fault.outOfBounds ∧
    SendVideoPackets env dm packets cnt ≠ Except.error Fault.insertedNull ∧
    ∀ dm1 pk1, CheckVideoDecoders env dm packets cnt =
        Except.ok (RenderStatus.RENDER_STATUS_OK, dm1, pk1) →
      (∀ i, i < cnt → ∃ p, packets[i]? = some p ∧
        p.videoID ∈ dmKeys dm1.m_mapVideoDecoder) ∧
      ∀ ret dm2 pk2, SendVideoPackets env dm packets cnt = Except.ok (ret, dm2, pk2) →
        dmKeys dm2.m_mapVideoDecoder = dmKeys dm1.m_mapVideoDecoder := by
  have h1 : cnt ≤ packets.length := by omega
  have h2 : 1 ≤ packets.length := by omega
  obtain ⟨c1, c2⟩ := CheckVideoDecoders_spec env dm packets cnt h1 h2 hint
  obtain ⟨s1, s2⟩ := SendVideoPackets_spec env dm packets cnt h1 h2 hint
  refine ⟨?_, ?_, ?_, ?_⟩
  · intro hx
    rcases c1 _ hx with h | h <;> cases h
  · intro hx
    rcases s1 _ hx with h | h <;> cases h
  · intro hx
    rcases s1 _ hx with h | h <;> cases h
  · intro dm1 pk1 hc
    obtain ⟨_, _, _, _, b5⟩ := c2 _ dm1 pk1 hc
    refine ⟨?_, ?_⟩
    · intro i hi
      obtain ⟨p, hp⟩ := getElem?_lt_some packets i (by omega)
      exact ⟨p, hp, (dmFind_mem_keys _ _).mp (b5 rfl i hi p hp)⟩
    · intro ret dm2 pk2 hs
      obtain ⟨r1, dmA, pkA, e1, _, _, e4⟩ := s2 ret dm2 pk2 hs
      rw [hc] at e1
      injection e1 with e1; injection e1 with e2 e3; injection e3 with e3 e5
      subst e2; subst e3
      exact (e4 rfl).1

theorem check_ok_decoders_present_witness :
    samplePackets.length = 2 ∧ 1 ≤ 2 ∧ 2 < 2 ^ 31 ∧
    (CheckVideoDecoders sampleEnv sampleManager samplePackets 2 ≠
        Except.error Fault.outOfBounds ∧
    SendVideoPackets sampleEnv sampleManager samplePackets 2 ≠
        Except.error Fault.outOfBounds ∧
    SendVideoPackets sampleEnv sampleManager samplePackets 2 ≠
        Except.error Fault.insertedNull ∧
    ∀ dm1 pk1, CheckVideoDecoders sampleEnv sampleManager samplePackets 2 =
        Except.ok (RenderStatus.RENDER_STATUS_OK, dm1, pk1) →
      (∀ i, i < 2 → ∃ p, samplePackets[i]? = some p ∧
        p.videoID ∈ dmKeys dm1.m_mapVideoDecoder) ∧
      ∀ ret dm2 pk2, SendVideoPackets sampleEnv sampleManager samplePackets 2 =
          Except.ok (ret, dm2, pk2) →
        dmKeys dm2.m_mapVideoDecoder = dmKeys dm1.m_mapVideoDecoder) :=
  ⟨rfl, by decide, by decide,
    check_ok_decoders_present sampleEnv sampleManager samplePackets 2 rfl (by decide)
      (by decide)⟩

/-- With no packet and `cnt = 0` the read of `packets[0]` is outside the array. -/
theorem check_empty_out_of_bounds :
    CheckVideoDecoders sampleEnv sampleManager [] 0 = Except.error Fault.outOfBounds := by
  rfl

theorem SendVideoPackets_nil (env : DecoderEnv) (dm : DecoderManager) :
    ∃ f, SendVideoPackets env dm [] 0 = Except.error f := by
  unfold SendVideoPackets CheckVideoDecoders
  cases pendingDecoders env dm [] 0 with
  | error f => exact ⟨f, rfl⟩
  | ok dm1 => exact ⟨Fault.outOfBounds, by simp [createLoop]⟩

theorem SendVideoPackets_pts (env : DecoderEnv) (dm : DecoderManager)
    (packets : List DashPacket) (ret : RenderStatus) (dm2 : DecoderManager)
    (pk2 : List DashPacket) (hint : packets.length < 2 ^ 31)
    (h : SendVideoPackets env dm packets packets.length = Except.ok (ret, dm2, pk2)) :
    dm2.currentPts =
      if ret = RenderStatus.RENDER_STATUS_OK then (dm.currentPts + 1) % 2 ^ 64
      else dm.currentPts := by
  cases packets with
  | nil =>
    obtain ⟨f, hf⟩ := SendVideoPackets_nil env dm
    simp only [List.length_nil] at h
    rw [hf] at h; cases h
  | cons p rest =>
    obtain ⟨_, s2⟩ := SendVideoPackets_spec env dm (p :: rest) (p :: rest).length
      (le_refl _) (by simp) hint
    obtain ⟨r1, dm1, pk1, _, e2, e3, e4⟩ := s2 ret dm2 pk2 h
    subst e2
    by_cases hr : ret = RenderStatus.RENDER_STATUS_OK
    · rw [if_pos hr]; exact (e4 hr).2.1
    · rw [if_neg hr]; exact (e3 hr).2.2.1

theorem sendCalls_pts (env : DecoderEnv) (calls : List (List DashPacket)) :
    ∀ dm n dm2, (∀ pk ∈ calls, pk.length < 2 ^ 31) → dm.currentPts < 2 ^ 64 →
      sendCalls env dm calls = Except.ok (n, dm2) →
      dm2.currentPts = (dm.currentPts + n) % 2 ^ 64 := by
  induction calls with
  | nil =>
    intro dm n dm2 _ hlt h
    simp only [sendCalls] at h
    injection h with h; injection h with h1 h2; subst h1; subst h2
    rw [Nat.add_zero, Nat.mod_eq_of_lt hlt]
  | cons pk rest ih =>
    intro dm n dm2 hsm hlt h
    have hsm2 : ∀ q ∈ rest, q.length < 2 ^ 31 :=
      fun q hq => hsm q (List.mem_cons_of_mem _ hq)
    unfold sendCalls at h
    cases hs : SendVideoPackets env dm pk pk.length with
    | error f => rw [hs] at h; cases h
    | ok r =>
      obtain ⟨ret, dm1, pk1⟩ := r
      rw [hs] at h
      simp only at h
      have hp := SendVideoPackets_pts env dm pk ret dm1 pk1
        (hsm pk (List.mem_cons_self _ _)) hs
      cases hc : sendCalls env dm1 rest with
      | error f => rw [hc] at h; cases h
      | ok x =>
        obtain ⟨m, dm3⟩ := x
        rw [hc] at h
        simp only at h
        injection h with h; injection h with h1 h2; subst h1; subst h2
        by_cases hr : ret = RenderStatus.RENDER_STATUS_OK
        · rw [if_pos hr] at hp ⊢
          have hlt1 : dm1.currentPts < 2 ^ 64 := by rw [hp]; exact Nat.mod_lt _ (by norm_num)
          rw [ih dm1 m dm3 hsm2 hlt1 hc, hp]
          omega
        · rw [if_neg hr] at hp ⊢
          rw [ih dm1 m dm3 hsm2 (by rw [hp]; exact hlt) hc, hp]

/-- C18: a call of `SendVideoPackets` on `1 ≤ cnt < 2 ^ 31` packets that returns
`RENDER_STATUS_OK` stamps every one of the `cnt` packets, in the array and as handed
to `SendPacket`, with the call counter, whatever timestamp the packet arrived with,
and advances the counter by one; a call that returns another status sends nothing and
leaves the counter as it is; so after `n` successful calls, starting with the counter
0, the counter, which is the timestamp of the next successful call, is `n` (modulo
`2 ^ 64`). -/
theorem send_stamps_call_counter (env : DecoderEnv) (dm : DecoderManager)
    (packets : List DashPacket) (cnt : Nat) (hlen : packets.length = cnt) (hcnt : 1 ≤ cnt)
    (hint : cnt < 2 ^ 31) :
    (∀ ret dm2 pk2, SendVideoPackets env dm packets cnt = Except.ok (ret, dm2, pk2) →
      (ret = RenderStatus.RENDER_STATUS_OK →
        dm2.currentPts = (dm.currentPts + 1) % 2 ^ 64 ∧ pk2.length = cnt ∧
        (∀ q ∈ pk2, q.pts = dm.currentPts) ∧
        ∃ new, dm2.sent_log = new ++ dm.sent_log ∧ new.length = cnt ∧
          ∀ e ∈ new, e.2.pts = dm.currentPts) ∧
      (ret ≠ RenderStatus.RENDER_STATUS_OK →
        dm2.currentPts = dm.currentPts ∧ dm2.sent_log = dm.sent_log)) ∧
    (∀ calls n dm2, (∀ pk ∈ calls, pk.length < 2 ^ 31) → dm.currentPts = 0 →
      sendCalls env dm calls = Except.ok (n, dm2) →
      dm2.currentPts = n % 2 ^ 64 ∧ (n < 2 ^ 64 → dm2.currentPts = n)) := by
  have h1 : cnt ≤ packets.length := by omega
  have h2 : 1 ≤ packets.length := by omega
  obtain ⟨_, s2⟩ := SendVideoPackets_spec env dm packets cnt h1 h2 hint
  refine ⟨?_, ?_⟩
  · intro ret dm2 pk2 hs
    obtain ⟨r1, dm1, pk1, _, e2, e3, e4⟩ := s2 ret dm2 pk2 hs
    subst e2
    refine ⟨fun hr => ?_, fun hr => ⟨(e3 hr).2.2.1, (e3 hr).2.2.2⟩⟩
    obtain ⟨_, a2, a3, a4, a5⟩ := e4 hr
    refine ⟨a2, by rw [a3, hlen], ?_, a5⟩
    intro q hq
    obtain ⟨j, hj, hjq⟩ := List.getElem_of_mem hq
    have hj2 : j < cnt := by omega
    obtain ⟨p, _, q1, hq1, _, hq3⟩ := a4 j hj2
    rw [List.getElem?_eq_getElem hj] at hq1
    injection hq1 with hq1
    rw [← hjq, hq1]; exact hq3
  · intro calls n dm2 hsm h0 hc
    have := sendCalls_pts env calls dm n dm2 hsm (by rw [h0]; norm_num) hc
    rw [h0, Nat.zero_add] at this
    exact ⟨this, fun hn => by rw [this, Nat.mod_eq_of_lt hn]⟩

theorem send_stamps_call_counter_witness :
    samplePackets.length = 2 ∧ 1 ≤ 2 ∧ 2 < 2 ^ 31 ∧
    ((∀ ret dm2 pk2, SendVideoPackets sampleEnv sampleManager samplePackets 2 =
        Except.ok (ret, dm2, pk2) →
      (ret = RenderStatus.RENDER_STATUS_OK →
        dm2.currentPts = (sampleManager.currentPts + 1) % 2 ^ 64 ∧ pk2.length = 2 ∧
        (∀ q ∈ pk2, q.pts = sampleManager.currentPts) ∧
        ∃ new, dm2.sent_log = new ++ sampleManager.sent_log ∧ new.length = 2 ∧
          ∀ e ∈ new, e.2.pts = sampleManager.currentPts) ∧
      (ret ≠ RenderStatus.RENDER_STATUS_OK →
        dm2.currentPts = sampleManager.currentPts ∧
        dm2.sent_log = sampleManager.sent_log)) ∧
    (∀ calls n dm2, (∀ pk ∈ calls, pk.length < 2 ^ 31) → sampleManager.currentPts = 0 →
      sendCalls sampleEnv sampleManager calls = Except.ok (n, dm2) →
      dm2.currentPts = n % 2 ^ 64 ∧ (n < 2 ^ 64 → dm2.currentPts = n))) :=
  ⟨rfl, by decide, by decide,
    send_stamps_call_counter sampleEnv sampleManager samplePackets 2 rfl (by decide)
      (by decide)⟩

/-- Three calls, the second of which fails in `CheckVideoDecoders`: the two successful
calls stamp 0 and 1, and the counter ends at 2. -/
theorem send_calls_sample :
    (SendVideoPackets sampleEnv sampleManager samplePackets 2).toOption.map
      (fun r => (r.1, r.2.1.currentPts, r.2.2.map (fun p => p.pts)))
      = some (RenderStatus.RENDER_STATUS_OK, 1, [0, 0]) ∧
    (SendVideoPackets failingEnv sampleManager samplePackets 2).toOption.map
      (fun r => (r.1, r.2.1.currentPts, r.2.1.sent_log.length, r.2.2.map (fun p => p.pts)))
      = some (RenderStatus.RENDER_ERROR, 0, 0, [70, 80]) := by
  decide

theorem mem_dmInsertNew (m : List (Nat × Option VideoDecoder)) (k : Nat)
    (v : Option VideoDecoder) (e : Nat × Option VideoDecoder)
    (h : e ∈ dmInsertNew m k v) : e ∈ m ∨ e = (k, v) := by
  induction m with
  | nil =>
    simp only [dmInsertNew, List.mem_singleton] at h
    exact Or.inr h
  | cons a rest ih =>
    unfold dmInsertNew at h
    by_cases hk : k < a.1
    · rw [if_pos hk] at h
      rcases List.mem_cons.mp h with h | h
      · exact Or.inr h
      · exact Or.inl h
    · rw [if_neg hk] at h
      rcases List.mem_cons.mp h with h | h
      · exact Or.inl (by rw [h]; exact List.mem_cons_self _ _)
      · rcases ih h with h | h
        · exact Or.inl (List.mem_cons_of_mem _ h)
        · exact Or.inr h

theorem mem_dmSet (m : List (Nat × Option VideoDecoder)) (k : Nat)
    (v : Option VideoDecoder) (e : Nat × Option VideoDecoder)
    (h : e ∈ dmSet m k v) : e ∈ m ∨ e = (k, v) := by
  unfold dmSet at h
  by_cases hp : (dmFind m k).isSome = true
  · rw [if_pos hp] at h
    obtain ⟨a, ha, hae⟩ := List.mem_map.mp h
    by_cases hk : a.1 = k
    · rw [if_pos hk] at hae; exact Or.inr hae.symm
    · rw [if_neg hk] at hae; exact Or.inl (hae ▸ ha)
  · rw [if_neg hp] at h
    exact mem_dmInsertNew m k v e h

theorem NoNull_dmSet (m : List (Nat × Option VideoDecoder)) (k : Nat) (d : VideoDecoder)
    (h : NoNull m) : NoNull (dmSet m k (some d)) := by
  intro e he
  rcases mem_dmSet m k _ e he with h1 | h1
  · exact h e h1
  · rw [h1]; simp

theorem dmFind_mem (m : List (Nat × Option VideoDecoder)) (k : Nat) (v : Option VideoDecoder)
    (h : dmFind m k = some v) : (k, v) ∈ m := by
  induction m with
  | nil => simp [dmFind] at h
  | cons e rest ih =>
    rw [dmFind_cons] at h
    by_cases he : e.1 = k
    · rw [if_pos he] at h
      injection h with h
      have : e = (k, v) := by rw [← he, ← h]
      rw [this]; exact List.mem_cons_self _ _
    · rw [if_neg he] at h
      exact List.mem_cons_of_mem _ (ih h)

theorem dmKeys_length (m : List (Nat × Option VideoDecoder)) :
    (dmKeys m).length = m.length := by
  simp [dmKeys]

theorem dmKeys_dmInsertNew (m : List (Nat × Option VideoDecoder)) (k : Nat)
    (v : Option VideoDecoder) : (dmKeys (dmInsertNew m k v)).Perm (k :: dmKeys m) := by
  induction m with
  | nil => exact List.Perm.refl _
  | cons e rest ih =>
    unfold dmInsertNew
    by_cases hk : k < e.1
    · rw [if_pos hk]; exact List.Perm.refl _
    · rw [if_neg hk]
      exact (List.Perm.cons e.1 ih).trans (List.Perm.swap k e.1 (dmKeys rest))

/-- The assignment `m[k] = v` keeps the keys of the map distinct. -/
theorem dmSet_nodup (m : List (Nat × Option VideoDecoder)) (k : Nat)
    (v : Option VideoDecoder) (h : (dmKeys m).Nodup) : (dmKeys (dmSet m k v)).Nodup := by
  by_cases hp : dmFind m k = none
  · have hk : k ∉ dmKeys m := fun hx => (dmFind_mem_keys m k).mpr hx hp
    have he : dmSet m k v = dmInsertNew m k v := by
      unfold dmSet
      rw [hp]; rfl
    rw [he]
    exact (dmKeys_dmInsertNew m k v).nodup_iff.mpr (List.nodup_cons.mpr ⟨hk, h⟩)
  · rw [dmKeys_dmSet m k v hp]; exact h

theorem pendLoss_noNull (env : DecoderEnv) (ids : List Nat) :
    ∀ m m1, NoNull m → pendLoss env ids m = Except.ok m1 → NoNull m1 := by
  induction ids with
  | nil =>
    intro m m1 hn h
    simp only [pendLoss] at h
    injection h with h; rw [← h]; exact hn
  | cons id rest ih =>
    intro m m1 hn h
    unfold pendLoss at h
    cases hf : dmFind m id with
    | none => rw [hf] at h; cases h
    | some v =>
      cases v with
      | none => rw [hf] at h; cases h
      | some d =>
        rw [hf] at h
        simp only at h
        by_cases hc : d.status ≠ ThreadStatus.STATUS_IDLE ∧ d.status ≠ ThreadStatus.STATUS_PENDING
        · rw [if_pos hc] at h
          exact ih _ _ (NoNull_dmSet _ _ _ hn) h
        · rw [if_neg hc] at h
          exact ih _ _ hn h

theorem CreateVideoDecoder_noNull (env : DecoderEnv) (dm : DecoderManager) (id codec : Nat)
    (ret : RenderStatus) (dm1 : DecoderManager) (hn : NoNull dm.m_mapVideoDecoder)
    (h : CreateVideoDecoder env dm id codec = Except.ok (ret, dm1)) :
    NoNull dm1.m_mapVideoDecoder := by
  unfold CreateVideoDecoder at h
  by_cases hf : dm.m_handlerFactory = true
  · rw [if_pos hf] at h
    simp only at h
    by_cases hr : env.Initialize id codec ≠ RenderStatus.RENDER_STATUS_OK
    · rw [if_pos hr] at h
      injection h with h; injection h with h1 h2
      rw [← h2]; exact hn
    · rw [if_neg hr] at h
      injection h with h; injection h with h1 h2
      rw [← h2]; exact NoNull_dmSet _ _ _ hn
  · rw [if_neg hf] at h; cases h

theorem createLoop_noNull (env : DecoderEnv) (packets : List DashPacket) (n : Nat) :
    ∀ i ret dm r dm1, NoNull dm.m_mapVideoDecoder →
      createLoop env packets i n ret dm = Except.ok (r, dm1) →
      NoNull dm1.m_mapVideoDecoder := by
  induction n with
  | zero =>
    intro i ret dm r dm1 hn h
    simp only [createLoop] at h
    injection h with h; injection h with h1 h2
    rw [← h2]; exact hn
  | succ n ih =>
    intro i ret dm r dm1 hn h
    unfold createLoop at h
    cases hp : packets[i]? with
    | none => rw [hp] at h; cases h
    | some p =>
      rw [hp] at h
      simp only at h
      cases hf : dmFind dm.m_mapVideoDecoder p.videoID with
      | some v =>
        rw [hf] at h
        simp only at h
        by_cases hlt : i + 1 < 2 ^ 31
        · rw [if_pos hlt] at h
          exact ih _ _ _ _ _ hn h
        · rw [if_neg hlt] at h; cases h
      | none =>
        rw [hf] at h
        simp only at h
        cases hc : CreateVideoDecoder env dm p.videoID p.video_codec with
        | error f => rw [hc] at h; cases h
        | ok x =>
          obtain ⟨r2, dm2⟩ := x
          rw [hc] at h
          simp only at h
          have hn2 := CreateVideoDecoder_noNull env dm _ _ _ _ hn hc
          by_cases hr : r2 ≠ RenderStatus.RENDER_STATUS_OK
          · rw [if_pos hr] at h
            injection h with h; injection h with h1 h2
            rw [← h2]; exact hn2
          · rw [if_neg hr] at h
            by_cases hlt : i + 1 < 2 ^ 31
            · rw [if_pos hlt] at h
              exact ih _ _ _ _ _ hn2 h
            · rw [if_neg hlt] at h; cases h

theorem pendingDecoders_noNull (env : DecoderEnv) (dm : DecoderManager)
    (packets : List DashPacket) (cnt : Nat) (dm1 : DecoderManager)
    (hn : NoNull dm.m_mapVideoDecoder)
    (h : pendingDecoders env dm packets cnt = Except.ok dm1) :
    NoNull dm1.m_mapVideoDecoder := by
  unfold pendingDecoders at h
  simp only at h
  by_cases hc : cnt < dm.m_mapVideoDecoder.length % 2 ^ 32 ∧
      dm.m_mapVideoDecoder.length % 2 ^ 32 ≠ 0
  · rw [if_pos hc] at h
    cases hl : lossIDs packets cnt dm.m_mapVideoDecoder with
    | error f => rw [hl] at h; cases h
    | ok ids =>
      rw [hl] at h
      simp only at h
      cases hp : pendLoss env ids dm.m_mapVideoDecoder with
      | error f => rw [hp] at h; cases h
      | ok m =>
        rw [hp] at h
        simp only at h
        injection h with h
        rw [← h]
        exact pendLoss_noNull env ids _ _ hn hp
  · rw [if_neg hc] at h
    injection h with h
    rw [← h]; exact hn

theorem CheckVideoDecoders_noNull (env : DecoderEnv) (dm : DecoderManager)
    (packets : List DashPacket) (cnt : Nat) (ret : RenderStatus) (dm1 : DecoderManager)
    (pk1 : List DashPacket) (hn : NoNull dm.m_mapVideoDecoder)
    (h : CheckVideoDecoders env dm packets cnt = Except.ok (ret, dm1, pk1)) :
    NoNull dm1.m_mapVideoDecoder := by
  unfold CheckVideoDecoders at h
  cases hp : pendingDecoders env dm packets cnt with
  | error f => rw [hp] at h; cases h
  | ok dmA =>
    rw [hp] at h
    simp only at h
    have hnA := pendingDecoders_noNull env dm packets cnt dmA hn hp
    cases hc : createLoop env packets 0 cnt RenderStatus.RENDER_STATUS_OK dmA with
    | error f => rw [hc] at h; cases h
    | ok x =>
      obtain ⟨r, dmB⟩ := x
      rw [hc] at h
      simp only at h
      have hnB := createLoop_noNull env packets cnt _ _ _ _ _ hnA hc
      cases h0 : packets[0]? with
      | none => rw [h0] at h; cases h
      | some p0 =>
        rw [h0] at h
        simp only at h
        by_cases hb : p0.bEOS = true
        · rw [if_pos hb] at h
          cases hs : setEOS packets 0 cnt with
          | error f => rw [hs] at h; cases h
          | ok pk =>
            rw [hs] at h
            simp only at h
            injection h with h; injection h with h1 h2; injection h2 with h2 h3
            rw [← h2]; exact hnB
        · rw [if_neg hb] at h
          injection h with h; injection h with h1 h2; injection h2 with h2 h3
          rw [← h2]; exact hnB

theorem sendLoop_noNull (env : DecoderEnv) (n : Nat) :
    ∀ i dm packets dm1 pk1, NoNull dm.m_mapVideoDecoder →
      sendLoop env i n dm packets = Except.ok (dm1, pk1) → NoNull dm1.m_mapVideoDecoder := by
  induction n with
  | zero =>
    intro i dm packets dm1 pk1 hn h
    simp only [sendLoop] at h
    injection h with h; injection h with h1 h2
    rw [← h1]; exact hn
  | succ n ih =>
    intro i dm packets dm1 pk1 hn h
    unfold sendLoop at h
    cases hp : packets[i]? with
    | none => rw [hp] at h; cases h
    | some p =>
      rw [hp] at h
      simp only at h
      cases hf : dmFind dm.m_mapVideoDecoder p.videoID with
      | none => rw [hf] at h; cases h
      | some v =>
        cases v with
        | none => rw [hf] at h; cases h
        | some d =>
          rw [hf] at h
          simp only at h
          by_cases hlt : i + 1 < 2 ^ 31
          · rw [if_pos hlt] at h
            exact ih _ _ _ _ _ (NoNull_dmSet _ _ _ hn) h
          · rw [if_neg hlt] at h; cases h

theorem SendVideoPackets_noNull (env : DecoderEnv) (dm : DecoderManager)
    (packets : List DashPacket) (cnt : Nat) (ret : RenderStatus) (dm2 : DecoderManager)
    (pk2 : List DashPacket) (hn : NoNull dm.m_mapVideoDecoder)
    (h : SendVideoPackets env dm packets cnt = Except.ok (ret, dm2, pk2)) :
    NoNull dm2.m_mapVideoDecoder := by
  unfold SendVideoPackets at h
  cases hc : CheckVideoDecoders env dm packets cnt with
  | error f => rw [hc] at h; cases h
  | ok x =>
    obtain ⟨r, dm1, pk1⟩ := x
    rw [hc] at h
    simp only at h
    have hn1 := CheckVideoDecoders_noNull env dm packets cnt _ _ _ hn hc
    by_cases hr : r ≠ RenderStatus.RENDER_STATUS_OK
    · rw [if_pos hr] at h
      injection h with h; injection h with h1 h2; injection h2 with h2 h3
      rw [← h2]; exact hn1
    · rw [if_neg hr] at h
      cases hs : sendLoop env 0 cnt dm1 pk1 with
      | error f => rw [hs] at h; cases h
      | ok y =>
        obtain ⟨dmB, pkB⟩ := y
        rw [hs] at h
        simp only at h
        injection h with h; injection h with h1 h2; injection h2 with h2 h3
        rw [← h2]
        exact sendLoop_noNull env cnt _ _ _ dmB pkB hn1 hs

/-- The effect of `UpdateVideoFrame` on a key bound to a live decoder. -/
theorem UpdateVideoFrame_live (env : DecoderEnv) (dm : DecoderManager) (k pts : Nat)
    (d : VideoDecoder) (hf : dmFind dm.m_mapVideoDecoder k = some (some d)) :
    UpdateVideoFrame env dm k pts =
      if (env.UpdateFrame k d pts).2.status = ThreadStatus.STATUS_IDLE ∧
          (env.UpdateFrame k d pts).1 = RenderStatus.RENDER_NO_FRAME then
        Except.ok (RenderStatus.RENDER_STATUS_OK,
          { dm with m_mapVideoDecoder := dmSet dm.m_mapVideoDecoder k none })
      else
        Except.ok ((env.UpdateFrame k d pts).1,
          { dm with
            m_mapVideoDecoder :=
              dmSet dm.m_mapVideoDecoder k (some (env.UpdateFrame k d pts).2) }) := by
  unfold UpdateVideoFrame
  rw [hf]

/-- A call of `UpdateVideoFrame` that returns changes the value of at most the key
`video_id`, and no key. -/
theorem UpdateVideoFrame_ok (env : DecoderEnv) (dm : DecoderManager) (k pts : Nat)
    (ret : RenderStatus) (dm1 : DecoderManager)
    (h : UpdateVideoFrame env dm k pts = Except.ok (ret, dm1)) :
    dmKeys dm1.m_mapVideoDecoder = dmKeys dm.m_mapVideoDecoder ∧
    (∀ j, j ≠ k → dmFind dm1.m_mapVideoDecoder j = dmFind dm.m_mapVideoDecoder j) ∧
    (∀ e ∈ dm1.m_mapVideoDecoder, e ∈ dm.m_mapVideoDecoder ∨ e.1 = k) := by
  cases hf : dmFind dm.m_mapVideoDecoder k with
  | none =>
    unfold UpdateVideoFrame at h
    rw [hf] at h
    injection h with h; injection h with h1 h2
    rw [← h2]
    exact ⟨rfl, fun _ _ => rfl, fun e he => Or.inl he⟩
  | some v =>
    cases v with
    | none =>
      unfold UpdateVideoFrame at h
      rw [hf] at h; cases h
    | some d =>
      rw [UpdateVideoFrame_live env dm k pts d hf] at h
      have hp : dmFind dm.m_mapVideoDecoder k ≠ none := by rw [hf]; simp
      by_cases hc : (env.UpdateFrame k d pts).2.status = ThreadStatus.STATUS_IDLE ∧
          (env.UpdateFrame k d pts).1 = RenderStatus.RENDER_NO_FRAME
      · rw [if_pos hc] at h
        injection h with h; injection h with h1 h2
        rw [← h2]
        refine ⟨dmKeys_dmSet _ _ _ hp, fun j hj => dmFind_dmSet_ne _ _ _ _ hj, ?_⟩
        intro e he
        rcases mem_dmSet _ _ _ _ he with h3 | h3
        · exact Or.inl h3
        · exact Or.inr (by rw [h3])
      · rw [if_neg hc] at h
        injection h with h; injection h with h1 h2
        rw [← h2]
        refine ⟨dmKeys_dmSet _ _ _ hp, fun j hj => dmFind_dmSet_ne _ _ _ _ hj, ?_⟩
        intro e he
        rcases mem_dmSet _ _ _ _ he with h3 | h3
        · exact Or.inl h3
        · exact Or.inr (by rw [h3])

/-- On keys bound to live decoders `UpdateVideoFrame` returns. -/
theorem UpdateVideoFrame_total (env : DecoderEnv) (dm : DecoderManager) (k pts : Nat)
    (d : VideoDecoder) (hf : dmFind dm.m_mapVideoDecoder k = some (some d)) :
    ∃ ret dm1, UpdateVideoFrame env dm k pts = Except.ok (ret, dm1) := by
  rw [UpdateVideoFrame_live env dm k pts d hf]
  by_cases hc : (env.UpdateFrame k d pts).2.status = ThreadStatus.STATUS_IDLE ∧
      (env.UpdateFrame k d pts).1 = RenderStatus.RENDER_NO_FRAME
  · rw [if_pos hc]; exact ⟨_, _, rfl⟩
  · rw [if_neg hc]; exact ⟨_, _, rfl⟩

theorem UpdateVideoFrames_noNull (env : DecoderEnv) (dm : DecoderManager) (pts : Nat)
    (ret : RenderStatus) (dm1 : DecoderManager) (hn : NoNull dm.m_mapVideoDecoder)
    (h : UpdateVideoFrames env dm pts = Except.ok (ret, dm1)) :
    NoNull dm1.m_mapVideoDecoder := by
  unfold UpdateVideoFrames at h
  by_cases hc : dm.m_mapVideoDecoder.length = 0 ∨ env.IsReady = false
  · rw [if_pos hc] at h
    injection h with h; injection h with h1 h2
    rw [← h2]; exact hn
  · rw [if_neg hc] at h
    cases hl : updateLoop env pts (dmKeys dm.m_mapVideoDecoder) 0 dm with
    | error f => rw [hl] at h; cases h
    | ok x =>
      obtain ⟨n, rs, dmA⟩ := x
      rw [hl] at h
      simp only at h
      injection h with h; injection h with h1 h2
      rw [← h2]
      intro e he
      have := (List.mem_filter.mp he).2
      intro hnone
      rw [hnone] at this
      simp at this

/-- The only fault of `UpdateVideoFrame` is the dereference of a NULL decoder. -/
theorem UpdateVideoFrame_fault (env : DecoderEnv) (dm : DecoderManager) (k pts : Nat)
    (f : Fault) (h : UpdateVideoFrame env dm k pts = Except.error f) :
    f = Fault.nullDecoder ∧ dmFind dm.m_mapVideoDecoder k = some none := by
  cases hf : dmFind dm.m_mapVideoDecoder k with
  | none =>
    unfold UpdateVideoFrame at h
    rw [hf] at h; cases h
  | some v =>
    cases v with
    | none =>
      unfold UpdateVideoFrame at h
      rw [hf] at h
      injection h with h
      exact ⟨h.symm, rfl⟩
    | some d =>
      obtain ⟨r, dm1, hr⟩ := UpdateVideoFrame_total env dm k pts d hf
      rw [hr] at h; cases h

/-- On a key bound to NULL `UpdateVideoFrame` dereferences the NULL pointer. -/
theorem UpdateVideoFrame_null (env : DecoderEnv) (dm : DecoderManager) (k pts : Nat)
    (h : dmFind dm.m_mapVideoDecoder k = some none) :
    UpdateVideoFrame env dm k pts = Except.error Fault.nullDecoder := by
  unfold UpdateVideoFrame
  rw [h]

/-- The first loop of `UpdateVideoFrames` over keys of which one is bound to NULL
dereferences a NULL pointer. -/
theorem updateLoop_null (env : DecoderEnv) (pts : Nat) (ks : List Nat) :
    ∀ errorCnt dm k, k ∈ ks → dmFind dm.m_mapVideoDecoder k = some none →
      updateLoop env pts ks errorCnt dm = Except.error Fault.nullDecoder := by
  induction ks with
  | nil => intro errorCnt dm k hk _; cases hk
  | cons j rest ih =>
    intro errorCnt dm k hk hf
    unfold updateLoop
    cases hu : UpdateVideoFrame env dm j pts with
    | error f =>
      rw [(UpdateVideoFrame_fault env dm j pts f hu).1]
    | ok x =>
      obtain ⟨ret, dmA⟩ := x
      simp only
      have hjk : k ≠ j := by
        intro e
        subst e
        rw [UpdateVideoFrame_null env dm k pts hf] at hu
        cases hu
      have hk2 : k ∈ rest := by
        rcases List.mem_cons.mp hk with h | h
        · exact absurd h hjk
        · exact h
      obtain ⟨_, u2, _⟩ := UpdateVideoFrame_ok env dm j pts ret dmA hu
      rw [ih _ dmA k hk2 (by rw [u2 k hjk]; exact hf)]

/-- With the manager ready, `UpdateVideoFrames` on a map in which a key is bound to
NULL dereferences a NULL pointer. -/
theorem UpdateVideoFrames_null (env : DecoderEnv) (dm : DecoderManager) (k pts : Nat)
    (hready : env.IsReady = true) (h : dmFind dm.m_mapVideoDecoder k = some none) :
    UpdateVideoFrames env dm pts = Except.error Fault.nullDecoder := by
  have hk : k ∈ dmKeys dm.m_mapVideoDecoder :=
    (dmFind_mem_keys _ _).mp (by rw [h]; simp)
  have hlen : dm.m_mapVideoDecoder.length ≠ 0 := by
    intro h0
    rw [← dmKeys_length, List.length_eq_zero] at h0
    rw [h0] at hk; cases hk
  unfold UpdateVideoFrames
  rw [if_neg (by
    rintro (h1 | h1)
    · exact hlen h1
    · rw [hready] at h1; cases h1)]
  rw [updateLoop_null env pts _ 0 dm k hk h]

/-- On the sample manager with one decoder the one call of `UpdateVideoFrame` returns
OK and leaves the key bound to NULL. -/
theorem frame_results_sample :
    FrameResults sampleEnv 5 (dmKeys oneDecoder.m_mapVideoDecoder) oneDecoder
      [RenderStatus.RENDER_STATUS_OK] nullDecoderManager :=
  FrameResults.cons _ _ _ _ _ _ _ rfl (FrameResults.nil _)

/-- On the sample manager with one decoder: the decoder is idle with no frame, is
destroyed and counts as OK, and `UpdateVideoFrames` returns OK with an empty map;
where the manager is not ready the result is `RENDER_NO_FRAME`. -/
theorem update_frames_sample :
    UpdateVideoFrames sampleEnv oneDecoder 5 =
      Except.ok (RenderStatus.RENDER_STATUS_OK, sampleManager) ∧
    UpdateVideoFrames sampleEnv sampleManager 5 =
      Except.ok (RenderStatus.RENDER_NO_FRAME, sampleManager) ∧
    UpdateVideoFrames frameEnv oneDecoder 5 =
      Except.ok (RenderStatus.RENDER_STATUS_OK, oneDecoder) := by
  refine ⟨rfl, rfl, rfl⟩

/-- C20, as the spec states it, fails for `UpdateVideoFrame`: on a map of one live
decoder that is idle with no frame, the call destroys the decoder, returns
`RENDER_STATUS_OK` and leaves the key 1 in the map, bound to NULL. -/
theorem updateVideoFrame_leaves_null :
    NoNull oneDecoder.m_mapVideoDecoder ∧
    ∃ dm1, UpdateVideoFrame sampleEnv oneDecoder 1 5 =
        Except.ok (RenderStatus.RENDER_STATUS_OK, dm1) ∧
      dm1.m_mapVideoDecoder = [(1, none)] ∧ ¬ NoNull dm1.m_mapVideoDecoder := by
  refine ⟨?_, _, rfl, rfl, ?_⟩
  · intro e he
    simp only [oneDecoder, List.mem_singleton] at he
    rw [he]; simp
  · intro h
    exact h (1, none) (List.mem_singleton.mpr rfl) rfl

/-- C20, amended: starting from a map without NULL entries, `CreateVideoDecoder`,
`CheckVideoDecoders`, `SendVideoPackets` and `UpdateVideoFrames`, when they return,
leave a map without NULL entries; `UpdateVideoFrame`, when it returns, leaves no key
other than `video_id` bound to NULL, and leaves `video_id` bound to NULL exactly when
it destroyed the decoder of that key, which it found idle with no frame; on the map
it then leaves, a call of `UpdateVideoFrame` for that key, and a call of
`UpdateVideoFrames` with the manager ready, dereference the NULL pointer. -/
theorem no_null_after_operations (env : DecoderEnv) (dm : DecoderManager)
    (hn : NoNull dm.m_mapVideoDecoder) :
    (∀ id codec ret dm1, CreateVideoDecoder env dm id codec = Except.ok (ret, dm1) →
      NoNull dm1.m_mapVideoDecoder) ∧
    (∀ packets cnt ret dm1 pk1,
      CheckVideoDecoders env dm packets cnt = Except.ok (ret, dm1, pk1) →
      NoNull dm1.m_mapVideoDecoder) ∧
    (∀ packets cnt ret dm1 pk1,
      SendVideoPackets env dm packets cnt = Except.ok (ret, dm1, pk1) →
      NoNull dm1.m_mapVideoDecoder) ∧
    (∀ pts ret dm1, UpdateVideoFrames env dm pts = Except.ok (ret, dm1) →
      NoNull dm1.m_mapVideoDecoder) ∧
    (∀ id pts ret dm1, UpdateVideoFrame env dm id pts = Except.ok (ret, dm1) →
      (∀ e ∈ dm1.m_mapVideoDecoder, e.2 = none → e.1 = id) ∧
      (¬ NoNull dm1.m_mapVideoDecoder ↔
        ∃ d, dmFind dm.m_mapVideoDecoder id = some (some d) ∧
          (env.UpdateFrame id d pts).2.status = ThreadStatus.STATUS_IDLE ∧
          (env.UpdateFrame id d pts).1 = RenderStatus.RENDER_NO_FRAME) ∧
      (¬ NoNull dm1.m_mapVideoDecoder →
        dmFind dm1.m_mapVideoDecoder id = some none ∧
        (∀ pts2, UpdateVideoFrame env dm1 id pts2 = Except.error Fault.nullDecoder) ∧
        (env.IsReady = true →
          ∀ pts2, UpdateVideoFrames env dm1 pts2 = Except.error Fault.nullDecoder))) := by
  refine ⟨?_, ?_, ?_, ?_, ?_⟩
  · intro id codec ret dm1 h
    exact CreateVideoDecoder_noNull env dm id codec ret dm1 hn h
  · intro packets cnt ret dm1 pk1 h
    exact CheckVideoDecoders_noNull env dm packets cnt ret dm1 pk1 hn h
  · intro packets cnt ret dm1 pk1 h
    exact SendVideoPackets_noNull env dm packets cnt ret dm1 pk1 hn h
  · intro pts ret dm1 h
    exact UpdateVideoFrames_noNull env dm pts ret dm1 hn h
  · intro id pts ret dm1 h
    obtain ⟨_, _, u3⟩ := UpdateVideoFrame_ok env dm id pts ret dm1 h
    have hkey : ∀ e ∈ dm1.m_mapVideoDecoder, e.2 = none → e.1 = id := by
      intro e he hnone
      rcases u3 e he with h1 | h1
      · exact absurd hnone (hn e h1)
      · exact h1
    have hnull : ¬ NoNull dm1.m_mapVideoDecoder →
        dmFind dm1.m_mapVideoDecoder id = some none := by
      intro hx
      have hex : ∃ e ∈ dm1.m_mapVideoDecoder, e.2 = none := by
        by_contra hno
        exact hx (fun e he hnone => hno ⟨e, he, hnone⟩)
      obtain ⟨e, he, hnone⟩ := hex
      have hid := hkey e he hnone
      have hpres : dmFind dm1.m_mapVideoDecoder id ≠ none :=
        (dmFind_mem_keys _ _).mpr (List.mem_map.mpr ⟨e, he, hid⟩)
      cases hf : dmFind dm1.m_mapVideoDecoder id with
      | none => exact absurd hf hpres
      | some v =>
        cases v with
        | none => rfl
        | some d =>
          exfalso
          cases hf0 : dmFind dm.m_mapVideoDecoder id with
          | none =>
            unfold UpdateVideoFrame at h
            rw [hf0] at h
            injection h with h; injection h with h1 h2
            rw [← h2] at he
            exact hn e he hnone
          | some v0 =>
            cases v0 with
            | none => exact hn _ (dmFind_mem _ _ _ hf0) rfl
            | some d0 =>
              rw [UpdateVideoFrame_live env dm id pts d0 hf0] at h
              by_cases hc : (env.UpdateFrame id d0 pts).2.status = ThreadStatus.STATUS_IDLE ∧
                  (env.UpdateFrame id d0 pts).1 = RenderStatus.RENDER_NO_FRAME
              · rw [if_pos hc] at h
                injection h with h; injection h with h1 h2
                rw [← h2] at hf
                rw [show dmFind (dmSet dm.m_mapVideoDecoder id none) id = some none from
                  dmFind_dmSet_same _ _ _] at hf
                cases hf
              · rw [if_neg hc] at h
                injection h with h; injection h with h1 h2
                rw [← h2] at he
                exact NoNull_dmSet _ _ _ hn e he hnone
    refine ⟨hkey, ?_, ?_⟩
    · cases hf : dmFind dm.m_mapVideoDecoder id with
      | none =>
        unfold UpdateVideoFrame at h
        rw [hf] at h
        injection h with h; injection h with h1 h2
        rw [← h2]
        constructor
        · intro hx; exact absurd hn hx
        · rintro ⟨d, hd, _⟩; cases hd
      | some v =>
        cases v with
        | none => exact absurd rfl (hn _ (dmFind_mem _ _ _ hf))
        | some d =>
          rw [UpdateVideoFrame_live env dm id pts d hf] at h
          by_cases hc : (env.UpdateFrame id d pts).2.status = ThreadStatus.STATUS_IDLE ∧
              (env.UpdateFrame id d pts).1 = RenderStatus.RENDER_NO_FRAME
          · rw [if_pos hc] at h
            injection h with h; injection h with h1 h2
            rw [← h2]
            constructor
            · intro _; exact ⟨d, rfl, hc⟩
            · intro _ hx
              have hs := dmFind_dmSet_same dm.m_mapVideoDecoder id none
              exact hx _ (dmFind_mem _ _ _ hs) rfl
          · rw [if_neg hc] at h
            injection h with h; injection h with h1 h2
            rw [← h2]
            constructor
            · intro hx
              exact absurd (NoNull_dmSet _ _ _ hn) hx
            · rintro ⟨d2, hd2, hc2⟩
              injection hd2 with hd2; injection hd2 with hd2
              subst hd2
              exact absurd hc2 hc
    · intro hx
      have hf := hnull hx
      exact ⟨hf, fun pts2 => UpdateVideoFrame_null env dm1 id pts2 hf,
        fun hready pts2 => UpdateVideoFrames_null env dm1 id pts2 hready hf⟩

theorem no_null_after_operations_witness :
    NoNull oneDecoder.m_mapVideoDecoder ∧
    ((∀ id codec ret dm1, CreateVideoDecoder sampleEnv oneDecoder id codec =
        Except.ok (ret, dm1) → NoNull dm1.m_mapVideoDecoder) ∧
    (∀ packets cnt ret dm1 pk1,
      CheckVideoDecoders sampleEnv oneDecoder packets cnt = Except.ok (ret, dm1, pk1) →
      NoNull dm1.m_mapVideoDecoder) ∧
    (∀ packets cnt ret dm1 pk1,
      SendVideoPackets sampleEnv oneDecoder packets cnt = Except.ok (ret, dm1, pk1) →
      NoNull dm1.m_mapVideoDecoder) ∧
    (∀ pts ret dm1, UpdateVideoFrames sampleEnv oneDecoder pts = Except.ok (ret, dm1) →
      NoNull dm1.m_mapVideoDecoder) ∧
    (∀ id pts ret dm1, UpdateVideoFrame sampleEnv oneDecoder id pts = Except.ok (ret, dm1) →
      (∀ e ∈ dm1.m_mapVideoDecoder, e.2 = none → e.1 = id) ∧
      (¬ NoNull dm1.m_mapVideoDecoder ↔
        ∃ d, dmFind oneDecoder.m_mapVideoDecoder id = some (some d) ∧
          (sampleEnv.UpdateFrame id d pts).2.status = ThreadStatus.STATUS_IDLE ∧
          (sampleEnv.UpdateFrame id d pts).1 = RenderStatus.RENDER_NO_FRAME) ∧
      (¬ NoNull dm1.m_mapVideoDecoder →
        dmFind dm1.m_mapVideoDecoder id = some none ∧
        (∀ pts2, UpdateVideoFrame sampleEnv dm1 id pts2 = Except.error Fault.nullDecoder) ∧
        (sampleEnv.IsReady = true →
          ∀ pts2, UpdateVideoFrames sampleEnv dm1 pts2 =
            Except.error Fault.nullDecoder)))) :=
  ⟨by decide, no_null_after_operations sampleEnv oneDecoder (by decide)⟩

/-- On the map `UpdateVideoFrame` left with the key 1 bound to NULL, a call of
`UpdateVideoFrames` dereferences the NULL pointer. -/
theorem update_frames_null_sample :
    UpdateVideoFrames sampleEnv nullDecoderManager 6 = Except.error Fault.nullDecoder ∧
    UpdateVideoFrame sampleEnv nullDecoderManager 1 6 = Except.error Fault.nullDecoder := by
  exact ⟨rfl, rfl⟩

end VCD
